import Mathlib

/-!
Verification development for the optimal-scheduler repository
(`src/utils/classUtils.ts`, `src/utils/aiService.ts`).

Shallow embedding conventions:

* Hours and class durations are represented exactly, in twentieths of an
  hour (0.05 h units): a 1 h class is `20`, a 45 min (0.75 h) class is `15`,
  a 30 min class is `10`.  The weekly caps 15 h / 10 h are `300` / `200`,
  the daily cap 4 h is `80`, the 3 h warning band is `60`.
* JavaScript `toFixed(1)` on hour values (used by the schedule generator's
  hour trackers) is modelled as exact rounding of the 0.05 h grid to the
  0.1 h grid, half away from zero (`jsFix1`).  `toFixed(1)` on rational
  averages is `fix1Q`, `Math.round` is `jsRound`.  IEEE-754 double
  arithmetic is idealised as exact decimal arithmetic throughout.
* JavaScript objects used as string-keyed dictionaries are modelled as
  association lists in key-insertion order (`alGet` / `alSet` etc.), with
  absent keys reading as 0 / false, matching the `x[k] || 0` reads in the
  source.  Decrementing an absent numeric entry (which in JS produces a
  `NaN` that every subsequent guarded read coerces to 0) is modelled by
  truncated natural subtraction.
* `Array.prototype.sort` is modelled as a stable insertion sort driven by
  the source comparator (V8 sorts are stable).  For a non-transitive
  comparator the ECMAScript contract leaves the arrangement
  implementation-defined and real engines differ from any fixed model, so
  about the one such sort in this code base (`getTopPerformingClasses`)
  only arrangement-independent facts are asserted;  `[...new Set(xs)]` keeps
  first occurrences (`jsSetDedup`); object key iteration is key-insertion
  order (dictionary keys in this code are non-numeric strings).
* The nondeterministic `id` strings built from `Date.now()`/`Math.random()`
  are replaced by a deterministic fresh counter, preserving exactly the
  property the source relies on (ids are pairwise distinct and stable).
-/

set_option maxRecDepth 200000

set_option maxHeartbeats 1000000

/-! ## JavaScript-style string and numeric helpers -/

/-- Model of JavaScript `String.prototype.includes`. -/
def strIncludes (s pat : String) : Bool :=
  s.data.tails.any fun t => pat.data.isPrefixOf t

/-- ASCII lower-casing of one character (structural, kernel-reducible). -/
def charLower (c : Char) : Char :=
  if 65 ≤ c.toNat && c.toNat ≤ 90 then Char.ofNat (c.toNat + 32) else c

/-- JavaScript `toLowerCase` on the ASCII strings of this code base. -/
def strLower (s : String) : String := String.mk (s.data.map charLower)

/-- JavaScript `s.slice(0, n)` on ASCII strings. -/
def strTake (s : String) (n : Nat) : String := String.mk (s.data.take n)

/-- Split a character list at every occurrence of `sep`
(JavaScript `split`, which keeps empty fragments). -/
def splitChars (sep : Char) : List Char → List (List Char)
  | [] => [[]]
  | c :: cs =>
    match splitChars sep cs with
    | [] => [[]]
    | g :: gs => if c = sep then [] :: g :: gs else (c :: g) :: gs

/-- Join character-list fragments with a separator (JavaScript `join`). -/
def joinSep (sep : Char) : List (List Char) → List Char
  | [] => []
  | [g] => g
  | g :: gs => g ++ sep :: joinSep sep gs

/-- Model of JavaScript `parseInt(t.split(':')[0])` on the time strings used
by this code base (digit-leading strings; the leading digit run is parsed). -/
def parseHour (t : String) : Nat :=
  (t.data.takeWhile Char.isDigit).foldl (fun acc c => acc * 10 + (c.toNat - 48)) 0

/-- Minute part of a `"HH:MM"` time string: `parseInt(t.split(':')[1])`. -/
def parseMinute (t : String) : Nat :=
  match splitChars ':' t.data with
  | _ :: m :: _ => (m.takeWhile Char.isDigit).foldl (fun acc c => acc * 10 + (c.toNat - 48)) 0
  | _ => 0

/-- JavaScript `toFixed(1)` on an hour quantity held in twentieths of an
hour: round to the tenth-of-an-hour grid, half away from zero. -/
def jsFix1 (n : Nat) : Nat := if n % 2 = 1 then n + 1 else n

/-- Exact rational addition through `Rat.divInt` (the kernel-reducible
normalising constructor); provably equal to `+` on `ℚ` (`qadd_eq`). -/
def qadd (a b : ℚ) : ℚ := Rat.divInt (a.num * b.den + b.num * a.den) (a.den * b.den)

/-- Exact rational subtraction through `Rat.divInt`. -/
def qsub (a b : ℚ) : ℚ := Rat.divInt (a.num * b.den - b.num * a.den) (a.den * b.den)

/-- Exact rational absolute value. -/
def qabs (q : ℚ) : ℚ := Rat.divInt q.num.natAbs q.den

/-- Exact division of a rational by a natural number through `Rat.divInt`. -/
def qdivNat (a : ℚ) (n : Nat) : ℚ := Rat.divInt a.num (a.den * n)

/-- JavaScript `Math.min` on rationals. -/
def jsMin (a b : ℚ) : ℚ := if a ≤ b then a else b

/-- JavaScript `toFixed(1)` then `parseFloat` on a nonnegative rational:
round to one decimal, half away from zero
(`⌊q * 10 + 1/2⌋ / 10`, written with kernel-reducible integer division). -/
def fix1Q (q : ℚ) : ℚ := Rat.divInt (Int.fdiv (q.num * 20 + q.den) (2 * q.den)) 10

/-- JavaScript `Math.round` on a nonnegative rational (`⌊q + 1/2⌋`). -/
def jsRound (q : ℚ) : ℤ := Int.fdiv (2 * q.num + q.den) (2 * q.den)

/-- Decimal rendering (one fractional digit) of an hour quantity held in
twentieths of an hour, as produced by `toFixed(1)`. -/
def hoursFix1Str (n : Nat) : String :=
  toString (jsFix1 n / 2 / 10) ++ "." ++ toString (jsFix1 n / 2 % 10)

/-- Model of `[...new Set(xs)]`: deduplicate keeping first occurrences. -/
def jsSetDedup (l : List String) : List String :=
  l.foldl (fun acc x => if x ∈ acc then acc else acc ++ [x]) []

/-- Stable insertion sort: `before a b = true` means `a` must be strictly
before `b` (the JS comparator returned a negative number); on ties the
original order is kept, matching V8's stable `Array.prototype.sort`. -/
def stableInsert {α : Type} (before : α → α → Bool) (x : α) : List α → List α
  | [] => [x]
  | y :: ys => if before y x then y :: stableInsert before x ys else x :: y :: ys

/-- Stable sort by a strict `before` comparator. -/
def stableSort {α : Type} (before : α → α → Bool) : List α → List α
  | [] => []
  | x :: xs => stableInsert before x (stableSort before xs)

/-! ## Association-list dictionaries (string-keyed JS objects) -/

/-- Read a numeric entry, absent keys read as 0 (`m[k] || 0`). -/
def alGet (m : List (String × Nat)) (k : String) : Nat :=
  match m.find? (fun p => p.1 == k) with
  | some p => p.2
  | none => 0

/-- Write an entry, preserving key-insertion order. -/
def alSet (m : List (String × Nat)) (k : String) (v : Nat) : List (String × Nat) :=
  match m with
  | [] => [(k, v)]
  | (k', v') :: rest => if k' == k then (k, v) :: rest else (k', v') :: alSet rest k v

/-- Read an entry of a dictionary keyed by a pair of strings (teacher, day). -/
def al2Get (m : List ((String × String) × Nat)) (k : String × String) : Nat :=
  match m.find? (fun p => p.1 == k) with
  | some p => p.2
  | none => 0

/-- Write an entry of a pair-keyed dictionary. -/
def al2Set (m : List ((String × String) × Nat)) (k : String × String) (v : Nat) :
    List ((String × String) × Nat) :=
  match m with
  | [] => [(k, v)]
  | (k', v') :: rest => if k' == k then (k, v) :: rest else (k', v') :: al2Set rest k v

/-- Read a boolean-pair entry (morning/evening shift flags). -/
def alsGet (m : List ((String × String) × (Bool × Bool))) (k : String × String) : Bool × Bool :=
  match m.find? (fun p => p.1 == k) with
  | some p => p.2
  | none => (false, false)

/-- Write a boolean-pair entry. -/
def alsSet (m : List ((String × String) × (Bool × Bool))) (k : String × String)
    (v : Bool × Bool) : List ((String × String) × (Bool × Bool)) :=
  match m with
  | [] => [(k, v)]
  | (k', v') :: rest => if k' == k then (k, v) :: rest else (k', v') :: alsSet rest k v

/-! ## Data model (`src/types`) -/

/-- One historic class record (`ClassData`). -/
structure ClassData where
  location : String
  dayOfWeek : String
  classTime : String
  cleanedClass : String
  teacherName : String
  participants : Nat
  totalRevenue : ℚ
deriving DecidableEq, Repr

/-- One generated schedule entry (`ScheduledClass`).  `duration` is in
twentieths of an hour. -/
structure ScheduledClass where
  id : Nat
  day : String
  time : String
  location : String
  classFormat : String
  teacherFirstName : String
  teacherLastName : String
  duration : Nat
  participants : ℚ
  revenue : ℚ
  isTopPerformer : Bool
  isPrivate : Bool
deriving DecidableEq, Repr

/-- A locally produced recommendation (`AIRecommendation`). -/
structure AIRecommendation where
  classFormat : String
  teacher : String
  confidence : ℚ
  expectedParticipants : ℤ
  expectedRevenue : ℤ
  priority : Nat
deriving DecidableEq, Repr

/-- Result of `validateTeacherHours`. -/
structure ValidationResult where
  isValid : Bool
  warning : Option String
  error : Option String
deriving DecidableEq, Repr

/-- One entry of `getTopPerformingClasses` output (`TopPerformingClass`). -/
structure TopPerformingClass where
  classFormat : String
  location : String
  day : String
  time : String
  teacher : String
  avgParticipants : ℚ
  avgRevenue : ℚ
  frequency : Nat
deriving DecidableEq, Repr

/-- A manually added teacher (`CustomTeacher`). -/
structure CustomTeacher where
  firstName : String
  lastName : String
deriving DecidableEq, Repr

/-- The options record accepted by `generateIntelligentSchedule`; only
`targetDay` influences its behaviour. -/
structure ScheduleOptions where
  targetDay : Option String := none
  iteration : Nat := 0
deriving DecidableEq, Repr

/-- Full display name of a schedule entry's teacher, as rebuilt everywhere
in the source by the template `` `${cls.teacherFirstName} ${cls.teacherLastName}` ``. -/
def fullName (cls : ScheduledClass) : String :=
  cls.teacherFirstName ++ " " ++ cls.teacherLastName

/-! ## classUtils: pure rule set -/

/-- `getClassDuration`, returning twentieths of an hour
(`'0.75'` = 15, `'0.5'` = 10, `'1'` = 20). -/
def getClassDuration (className : String) : Nat :=
  let lowerName := strLower className
  if strIncludes lowerName "express" then 15
  else if strIncludes lowerName "recovery" || strIncludes lowerName "sweat in 30" then 10
  else 20

/-- `isHostedClass`. -/
def isHostedClass (className : String) : Bool :=
  strIncludes (strLower className) "hosted"

/-- `isClassAllowedAtLocation`. -/
def isClassAllowedAtLocation (classFormat location : String) : Bool :=
  let lowerFormat := strLower classFormat
  if location == "Supreme HQ, Bandra" then
    !(strIncludes lowerFormat "amped up" || strIncludes lowerFormat "hiit")
  else
    !(strIncludes lowerFormat "powercycle" || strIncludes lowerFormat "power cycle")

/-- `getAvailableTimeSlots` (day-independent in the source). -/
def getAvailableTimeSlots (_day : String) : List String :=
  ["07:30", "08:00", "08:30", "09:00", "09:30", "10:00", "10:30", "11:00", "11:30",
   "17:00", "17:30", "18:00", "18:30", "19:00", "19:30"]

/-- `isMorningSlot`. -/
def isMorningSlot (time : String) : Bool := parseHour time < 12

/-- `isEveningSlot`. -/
def isEveningSlot (time : String) : Bool := 17 ≤ parseHour time

/-- `isPeakHour`. -/
def isPeakHour (time : String) : Bool :=
  (7 ≤ parseHour time && parseHour time ≤ 11) || (17 ≤ parseHour time && parseHour time ≤ 19)

/-- `getShiftBalance`. -/
def getShiftBalance (scheduledClasses : List ScheduledClass) (location day : String) :
    Nat × Nat :=
  let dayClasses := scheduledClasses.filter fun cls =>
    cls.location == location && cls.day == day
  ((dayClasses.filter fun cls => isMorningSlot cls.time).length,
   (dayClasses.filter fun cls => isEveningSlot cls.time).length)

/-- Day guidelines (`getDayGuidelines`): avoid list and priority list. -/
structure DayGuidelines where
  avoid : List String
  priority : List String
deriving DecidableEq, Repr

/-- `getDayGuidelines` (the `focus` strings are omitted: nothing reads them). -/
def getDayGuidelines (day : String) : DayGuidelines :=
  if day == "Monday" then
    ⟨["Studio Recovery"],
     ["Studio Barre 57", "Studio FIT", "Studio powerCycle", "Studio Mat 57"]⟩
  else if day == "Tuesday" then
    ⟨["Studio HIIT", "Studio Amped Up!"],
     ["Studio Barre 57", "Studio Mat 57", "Studio Foundations", "Studio Cardio Barre"]⟩
  else if day == "Wednesday" then
    ⟨[], ["Studio Barre 57", "Studio FIT", "Studio powerCycle", "Studio Mat 57"]⟩
  else if day == "Thursday" then
    ⟨[], ["Studio Recovery", "Studio Mat 57", "Studio Cardio Barre", "Studio Back Body Blaze"]⟩
  else if day == "Friday" then
    ⟨[], ["Studio HIIT", "Studio Amped Up!", "Studio FIT", "Studio Cardio Barre"]⟩
  else if day == "Saturday" then
    ⟨["Studio HIIT"],
     ["Studio Barre 57", "Studio Foundations", "Studio Recovery", "Studio Mat 57"]⟩
  else if day == "Sunday" then
    ⟨["Studio HIIT", "Studio Amped Up!"],
     ["Studio Barre 57", "Studio Recovery", "Studio Mat 57"]⟩
  else ⟨[], []⟩

/-- One entry of the curated seed list returned by `getDefaultTopClasses`. -/
structure DefaultTopClass where
  classFormat : String
  day : String
  time : String
  location : String
  teacher : String
  avgParticipants : ℚ
  isLocked : Bool
deriving DecidableEq, Repr

/-- `getDefaultTopClasses`: the fixed ten-entry curated seed list. -/
def getDefaultTopClasses : List DefaultTopClass :=
  [⟨"Studio Mat 57", "Saturday", "10:15", "Kwality House, Kemps Corner",
    "Karanvir Bhatia", 25, true⟩,
   ⟨"Studio FIT", "Tuesday", "19:15", "Kwality House, Kemps Corner",
    "Anisha Shah", Rat.divInt 919 100, true⟩,
   ⟨"Studio Mat 57", "Wednesday", "19:15", "Kwality House, Kemps Corner",
    "Karanvir Bhatia", Rat.divInt 935 100, true⟩,
   ⟨"Studio FIT", "Friday", "09:00", "Kwality House, Kemps Corner",
    "Anisha Shah", Rat.divInt 1108 100, true⟩,
   ⟨"Studio Back Body Blaze", "Wednesday", "09:00", "Kwality House, Kemps Corner",
    "Anisha Shah", Rat.divInt 1058 100, true⟩,
   ⟨"Studio Barre 57", "Sunday", "11:30", "Kwality House, Kemps Corner",
    "Rohan Dahima", Rat.divInt 98 10, true⟩,
   ⟨"Studio Mat 57", "Monday", "08:30", "Kwality House, Kemps Corner",
    "Anisha Shah", Rat.divInt 1054 100, true⟩,
   ⟨"Studio Barre 57", "Monday", "18:45", "Kwality House, Kemps Corner",
    "Pranjali Jain", Rat.divInt 865 100, true⟩,
   ⟨"Studio powerCycle", "Sunday", "10:00", "Supreme HQ, Bandra",
    "Cauveri Vikrant", Rat.divInt 85 10, true⟩,
   ⟨"Studio Mat 57", "Tuesday", "11:00", "Kwality House, Kemps Corner",
    "Atulan Purohit", Rat.divInt 862 100, true⟩]

/-- The three studio locations iterated by the scheduler. -/
def schedulerLocations : List String :=
  ["Kwality House, Kemps Corner", "Supreme HQ, Bandra", "Kenkere House"]

/-- The seven week days. -/
def weekDays : List String :=
  ["Monday", "Tuesday", "Wednesday", "Thursday", "Friday", "Saturday", "Sunday"]

/-- Senior trainer name fragments. -/
def seniorTrainers : List String :=
  ["Anisha", "Vivaran", "Mrigakshi", "Pranjali", "Atulan", "Cauveri", "Rohan"]

/-- New trainer name fragments. -/
def newTrainers : List String := ["Kabir", "Simonelle"]

/-- Advanced formats reserved for senior trainers. -/
def advancedFormats : List String := ["Studio HIIT", "Studio Amped Up!"]

/-- Formats a new trainer may teach. -/
def newTrainerAllowedFormats : List String :=
  ["Studio Barre 57", "Studio Barre 57 (Express)", "Studio powerCycle",
   "Studio powerCycle (Express)", "Studio Cardio Barre"]

/-- Is the teacher a new-tier trainer (name contains Kabir or Simonelle)? -/
def isNewTrainerName (teacherName : String) : Bool :=
  newTrainers.any fun name => strIncludes teacherName name

/-- Weekly hour cap of a teacher in twentieths of an hour: 10 h for a
new-tier trainer, 15 h otherwise. -/
def maxWeeklyHoursOf (teacherName : String) : Nat :=
  if isNewTrainerName teacherName then 200 else 300

/-- `getClassesAtTimeSlot`. -/
def getClassesAtTimeSlot (scheduledClasses : List ScheduledClass)
    (day time location : String) : List ScheduledClass :=
  scheduledClasses.filter fun cls =>
    cls.day == day && cls.time == time && cls.location == location

/-- Parallel-class capacity of a location, as inlined throughout the source
(`location === 'Supreme HQ, Bandra' ? 3 : 2`). -/
def maxParallelClasses (location : String) : Nat :=
  if location == "Supreme HQ, Bandra" then 3 else 2

/-- `hasTimeSlotCapacity`. -/
def hasTimeSlotCapacity (scheduledClasses : List ScheduledClass)
    (day time location : String) : Bool :=
  (getClassesAtTimeSlot scheduledClasses day time location).length
    < maxParallelClasses location

/-- `getUniqueTeachers`: teachers from the historic data (with the two
inactive-name fragments filtered out) merged with the custom teachers,
deduplicated and sorted. -/
def getUniqueTeachers (csvData : List ClassData) (customTeachers : List CustomTeacher) :
    List String :=
  let csvTeachers := (csvData.map (·.teacherName)).filter fun teacher =>
    !strIncludes teacher "Nishanth" && !strIncludes teacher "Saniya"
  let customTeacherNames := customTeachers.map fun t => t.firstName ++ " " ++ t.lastName
  stableSort (fun a b => decide (a < b)) (jsSetDedup (csvTeachers ++ customTeacherNames))

/-- `validateTeacherHours`. -/
def validateTeacherHours (scheduledClasses : List ScheduledClass)
    (newClass : ScheduledClass) : ValidationResult :=
  let teacherName := fullName newClass
  let currentHours := ((scheduledClasses.filter fun cls =>
    fullName cls == teacherName).map (·.duration)).sum
  let newTotal := currentHours + newClass.duration
  let maxHours := maxWeeklyHoursOf teacherName
  if newTotal > maxHours then
    ⟨false, none,
     some ("This would exceed " ++ teacherName ++ "\x27s " ++ toString (maxHours / 20)
       ++ "-hour weekly limit (currently " ++ hoursFix1Str currentHours
       ++ "h, would be " ++ hoursFix1Str newTotal ++ "h)")⟩
  else if newTotal > maxHours - 60 then
    ⟨true,
     some (teacherName ++ " would have " ++ hoursFix1Str newTotal
       ++ "h this week (approaching " ++ toString (maxHours / 20) ++ "h limit)"),
     none⟩
  else ⟨true, none, none⟩

/-! ## Generic group-by helper (JS object accumulator in insertion order) -/

/-- Update the entry at `k` in place (keeping key order), or append
`(k, f dflt)` when absent — the `if (!acc[k]) acc[k] = dflt; …` pattern. -/
def alUpdate {β : Type} (m : List (String × β)) (k : String) (dflt : β) (f : β → β) :
    List (String × β) :=
  match m with
  | [] => [(k, f dflt)]
  | (k', v) :: rest => if k' == k then (k, f v) :: rest else (k', v) :: alUpdate rest k dflt f

/-- Read an entry with an explicit default. -/
def alGetD {β : Type} (m : List (String × β)) (k : String) (dflt : β) : β :=
  match m.find? (fun p => p.1 == k) with
  | some p => p.2
  | none => dflt

/-- Deduplicate keeping first occurrences under an equivalence test — the
`filter((x, i, arr) => arr.findIndex(eq) === i)` pattern. -/
def jsDedupBy {α : Type} (eqk : α → α → Bool) (l : List α) : List α :=
  l.foldl (fun acc x => if acc.any (fun y => eqk y x) then acc else acc ++ [x]) []

/-! ## aiService: local recommendation ranker -/

/-- One row of `analyzeClassPerformance`. -/
structure ClassPerfStat where
  classFormat : String
  avgParticipants : ℚ
  avgRevenue : ℚ
  frequency : Nat
deriving DecidableEq, Repr

/-- `AIService.analyzeClassPerformance`: group records by class format,
average them and sort by average participants descending. -/
def analyzeClassPerformance (data : List ClassData) : List ClassPerfStat :=
  let classStats := data.foldl (fun acc item =>
    alUpdate acc item.cleanedClass ((0 : Nat), (0 : ℚ), (0 : Nat)) fun s =>
      (s.1 + item.participants, qadd s.2.1 item.totalRevenue, s.2.2 + 1)) []
  stableSort (fun a b => a.avgParticipants > b.avgParticipants) <|
    classStats.map fun p =>
      ⟨p.1, Rat.divInt p.2.1 p.2.2.2, qdivNat p.2.2.1 p.2.2.2, p.2.2.2⟩

/-- `AIService.getFallbackRecommendations`: rank the location's historic
formats (all data when the location has none) and emit at most five
recommendations with `confidence = min(0.9, frequency/10)` and
`priority = 10 - 2 * index`. -/
def getFallbackRecommendations (data : List ClassData) (location _day _time : String) :
    List AIRecommendation :=
  let locationData := data.filter fun item => item.location == location
  let finalStats :=
    if locationData.length > 0 then analyzeClassPerformance locationData
    else analyzeClassPerformance data
  (finalStats.take 5).enum.map fun p =>
    ⟨p.2.classFormat, "Best Available",
     jsMin (Rat.divInt 9 10) (Rat.divInt p.2.frequency 10),
     jsRound p.2.avgParticipants, jsRound p.2.avgRevenue,
     10 - p.1 * 2⟩

/-- `AIService.generateRecommendations` in the configuration the claims
address: no external provider is configured, so the call reduces to the
local fallback ranking. -/
def getRecommendations (historicData : List ClassData) (day time location : String) :
    List AIRecommendation :=
  getFallbackRecommendations historicData location day time

/-! ## classUtils: aggregation over historic records -/

/-- `getTopPerformingClasses`. -/
def getTopPerformingClasses (csvData : List ClassData) (minAverage : ℚ)
    (includeTeacher : Bool) : List TopPerformingClass :=
  let defaultClasses := getDefaultTopClasses
  let validClasses := csvData.filter fun item =>
    !isHostedClass item.cleanedClass
      && isClassAllowedAtLocation item.cleanedClass item.location
  let classGroups := validClasses.foldl (fun acc item =>
    let key := item.cleanedClass ++ "-" ++ item.location ++ "-" ++ item.dayOfWeek
      ++ "-" ++ strTake item.classTime 5
      ++ (if includeTeacher then "-" ++ item.teacherName else "")
    alUpdate acc key
      (item.cleanedClass, item.location, item.dayOfWeek, strTake item.classTime 5,
       (if includeTeacher then item.teacherName else ""), (0 : Nat), (0 : ℚ), (0 : Nat))
      fun g => (g.1, g.2.1, g.2.2.1, g.2.2.2.1, g.2.2.2.2.1,
        g.2.2.2.2.2.1 + item.participants, qadd g.2.2.2.2.2.2.1 item.totalRevenue,
        g.2.2.2.2.2.2.2 + 1)) []
  let topClasses :=
    stableSort (fun a b =>
        if (1 : ℚ) < qabs (qsub b.avgParticipants a.avgParticipants) then
          b.avgParticipants < a.avgParticipants
        else b.frequency < a.frequency) <|
      (classGroups.map fun p =>
        (⟨p.2.1, p.2.2.1, p.2.2.2.1, p.2.2.2.2.1, p.2.2.2.2.2.1,
          fix1Q (Rat.divInt p.2.2.2.2.2.2.1 p.2.2.2.2.2.2.2.2),
          fix1Q (qdivNat p.2.2.2.2.2.2.2.1 p.2.2.2.2.2.2.2.2),
          p.2.2.2.2.2.2.2.2⟩ : TopPerformingClass)).filter fun cls =>
        2 ≤ cls.frequency && minAverage ≤ cls.avgParticipants
  let defaultTopClasses := defaultClasses.map fun cls =>
    (⟨cls.classFormat, cls.location, cls.day, cls.time, cls.teacher,
      cls.avgParticipants, 0, 10⟩ : TopPerformingClass)
  jsDedupBy (fun c cls =>
      c.classFormat == cls.classFormat && c.location == cls.location
        && c.day == cls.day && c.time == cls.time)
    (defaultTopClasses ++ topClasses)

/-- `getBestTeacherForClass`. -/
def getBestTeacherForClass (csvData : List ClassData)
    (classFormat location day time : String) : Option String :=
  match getDefaultTopClasses.find? (fun cls =>
      cls.classFormat == classFormat && cls.location == location
        && cls.day == day && cls.time == time) with
  | some defaultClass => some defaultClass.teacher
  | none =>
    let relevantClasses := csvData.filter fun item =>
      item.cleanedClass == classFormat && item.location == location
        && item.dayOfWeek == day && strIncludes item.classTime time
        && !isHostedClass item.cleanedClass
        && !strIncludes item.teacherName "Nishanth"
        && !strIncludes item.teacherName "Saniya"
    if relevantClasses.isEmpty then none
    else
      let teacherStats := relevantClasses.foldl (fun acc item =>
        alUpdate acc item.teacherName ((0 : Nat), (0 : Nat)) fun s =>
          (s.1 + item.participants, s.2 + 1)) []
      let ranked := stableSort (fun a b => b.2 < a.2) <|
        teacherStats.map fun p => (p.1, Rat.divInt p.2.1 p.2.2)
      ranked.head?.map (·.1)

/-- `getClassAverageForSlot`: `(average, count)` for a format at a cell. -/
def getClassAverageForSlot (csvData : List ClassData)
    (classFormat location day time : String) (teacherName : Option String := none) :
    ℚ × Nat :=
  let relevantClasses₀ : List ClassData := csvData.filter fun item =>
    item.cleanedClass == classFormat && item.location == location
      && item.dayOfWeek == day && strIncludes item.classTime time
      && !isHostedClass item.cleanedClass
  let relevantClasses : List ClassData :=
    match teacherName with
    | some t => relevantClasses₀.filter fun item => item.teacherName == t
    | none => relevantClasses₀
  if relevantClasses.isEmpty then (0, 0)
  else
    (fix1Q (Rat.divInt (relevantClasses.map (·.participants)).sum relevantClasses.length),
     relevantClasses.length)

/-- One specialty row of `getTeacherSpecialties`. -/
structure TeacherSpecialty where
  classFormat : String
  avgParticipants : ℚ
  classCount : Nat
deriving DecidableEq, Repr

/-- `getTeacherSpecialties`: per teacher, the top five formats by class
count (then by average participants). -/
def getTeacherSpecialties (csvData : List ClassData) :
    List (String × List TeacherSpecialty) :=
  let teacherStats := csvData.foldl (fun acc item =>
    if isHostedClass item.cleanedClass then acc
    else if strIncludes item.teacherName "Nishanth"
        || strIncludes item.teacherName "Saniya" then acc
    else
      alUpdate acc item.teacherName ([] : List (String × (Nat × Nat))) fun classes =>
        alUpdate classes item.cleanedClass ((0 : Nat), (0 : Nat)) fun s =>
          (s.1 + item.participants, s.2 + 1)) []
  teacherStats.map fun p =>
    (p.1,
     (stableSort (fun a b =>
        if a.classCount == b.classCount then b.avgParticipants < a.avgParticipants
        else b.classCount < a.classCount) <|
       p.2.map fun q =>
         (⟨q.1, fix1Q (Rat.divInt q.2.1 q.2.2), q.2.2⟩ : TeacherSpecialty)).take 5)

/-! ## The multi-phase scheduler (`generateIntelligentSchedule`) -/

/-- JS `teacher.split(' ')[0]`. -/
def jsFirstName (teacher : String) : String :=
  String.mk (splitChars ' ' teacher.data).headI

/-- JS `teacher.split(' ').slice(1).join(' ')`. -/
def jsLastName (teacher : String) : String :=
  String.mk (joinSep ' ' (splitChars ' ' teacher.data).tail)

/-- In-place update of one list position (JS `arr[i] = f(arr[i])`). -/
def listModify {α : Type} (f : α → α) : Nat → List α → List α
  | _, [] => []
  | 0, x :: xs => f x :: xs
  | n + 1, x :: xs => x :: listModify f n xs

/-- The scheduler's mutable run state: the schedule being built, a fresh-id
counter, and the three teacher trackers (`teacherHoursTracker`,
`teacherDailyHours`, `teacherShiftAssignments`); hour values are in
twentieths of an hour. -/
structure SchedState where
  classes : List ScheduledClass
  nextId : Nat
  weekly : List (String × Nat)
  daily : List ((String × String) × Nat)
  shifts : List ((String × String) × (Bool × Bool))
deriving DecidableEq, Repr

/-- The empty state at the start of an optimization run. -/
def initialState : SchedState := ⟨[], 0, [], [], []⟩

/-- `canAssignTeacher`: new-trainer format allow-list, senior-only advanced
formats, weekly/daily hour caps, then the two-days-off rule. -/
def canAssignTeacher (s : SchedState) (teacherName day _time : String)
    (duration : Nat) (classFormat : String) : Bool :=
  let weeklyHours := alGet s.weekly teacherName
  let dailyHours := al2Get s.daily (teacherName, day)
  let isNewTrainer := isNewTrainerName teacherName
  let maxWeeklyHours := maxWeeklyHoursOf teacherName
  if isNewTrainer && !(newTrainerAllowedFormats.contains classFormat) then false
  else if advancedFormats.contains classFormat
      && !(seniorTrainers.any fun name => strIncludes teacherName name) then false
  else if maxWeeklyHours < weeklyHours + duration || 80 < dailyHours + duration then false
  else
    let currentWorkingDays :=
      (weekDays.filter fun d => 0 < al2Get s.daily (teacherName, d)).length
    if 5 ≤ currentWorkingDays && dailyHours == 0 then false
    else true

/-- The loosely typed class-description object handed to `assignClass`. -/
structure AssignData where
  classFormat : String
  location : String
  day : String
  time : String
  avgParticipants : ℚ
  avgRevenue : ℚ
  isPrivate : Bool := false
deriving Repr

/-- `assignClass`: append the schedule entry and update the trackers
(weekly and daily totals go through `toFixed(1)` in the source). -/
def assignClass (s : SchedState) (classData : AssignData) (teacher : String) : SchedState :=
  let duration := getClassDuration classData.classFormat
  let newClass : ScheduledClass :=
    { id := s.nextId
      day := classData.day
      time := classData.time
      location := classData.location
      classFormat := classData.classFormat
      teacherFirstName := jsFirstName teacher
      teacherLastName := jsLastName teacher
      duration := duration
      participants := classData.avgParticipants
      revenue := classData.avgRevenue
      isTopPerformer := 6 < classData.avgParticipants
      isPrivate := classData.isPrivate }
  { classes := s.classes ++ [newClass]
    nextId := s.nextId + 1
    weekly := alSet s.weekly teacher (jsFix1 (alGet s.weekly teacher + duration))
    daily := al2Set s.daily (teacher, classData.day)
      (jsFix1 (al2Get s.daily (teacher, classData.day) + duration))
    shifts :=
      if isMorningSlot classData.time then
        alsSet s.shifts (teacher, classData.day)
          (true, (alsGet s.shifts (teacher, classData.day)).2)
      else if isEveningSlot classData.time then
        alsSet s.shifts (teacher, classData.day)
          ((alsGet s.shifts (teacher, classData.day)).1, true)
      else s.shifts }

/-- Phase 0 step: seed one curated locked class, subject to `canAssignTeacher`. -/
def phase0Step (options : ScheduleOptions) (s : SchedState) (defaultClass : DefaultTopClass) :
    SchedState :=
  if (match options.targetDay with
      | some d => defaultClass.day != d
      | none => false) then s
  else if canAssignTeacher s defaultClass.teacher defaultClass.day defaultClass.time
      (getClassDuration defaultClass.classFormat) defaultClass.classFormat then
    assignClass s
      ⟨defaultClass.classFormat, defaultClass.location, defaultClass.day,
       defaultClass.time, defaultClass.avgParticipants, 0, false⟩
      defaultClass.teacher
  else s

/-- Phase 0: seed the ten curated locked classes. -/
def phase0 (options : ScheduleOptions) (s : SchedState) : SchedState :=
  getDefaultTopClasses.foldl (phase0Step options) s

/-- One ranked candidate format produced by `getBestClassForSlot`. -/
structure RankedFormat where
  classFormat : String
  avgParticipants : ℚ
  avgRevenue : ℚ
  count : Nat
  isPriority : Bool
deriving DecidableEq, Repr

/-- `getBestClassForSlot`: rank the cell's historic records (dropping
hosted, disallowed and avoid-listed formats and records with fewer than 4
participants), preferring day-guideline priority formats, then average
participants. -/
def getBestClassForSlot (csvData : List ClassData) (location day time : String)
    (guidelines : DayGuidelines) : Option RankedFormat :=
  let slotData := csvData.filter fun item =>
    item.location == location && item.dayOfWeek == day
      && strIncludes item.classTime time
      && !isHostedClass item.cleanedClass
      && isClassAllowedAtLocation item.cleanedClass location
      && !(guidelines.avoid.contains item.cleanedClass)
      && 4 ≤ item.participants
  if slotData.isEmpty then none
  else
    let formatStats := slotData.foldl (fun acc item =>
      alUpdate acc item.cleanedClass ((0 : Nat), (0 : ℚ), (0 : Nat)) fun st =>
        (st.1 + item.participants, qadd st.2.1 item.totalRevenue, st.2.2 + 1)) []
    let rankedFormats := stableSort
      (fun a b =>
        if a.isPriority && !b.isPriority then true
        else if !a.isPriority && b.isPriority then false
        else b.avgParticipants < a.avgParticipants)
      (formatStats.map fun p =>
        (⟨p.1, Rat.divInt p.2.1 p.2.2.2, qdivNat p.2.2.1 p.2.2.2, p.2.2.2,
          guidelines.priority.contains p.1⟩ : RankedFormat))
    rankedFormats.head?

/-- Phase 1, one open parallel sub-slot: pick the best historic format for
the cell, skip if that format is already in the cell, find a teacher (best
historic one, else any assignable candidate, seniors first at peak hours)
and commit. -/
def phase1SubSlotStep (csvData : List ClassData) (allTeachers : List String)
    (guidelines : DayGuidelines) (day location time : String) (isPeak : Bool)
    (sc : SchedState × Nat) : SchedState × Nat :=
  let s := sc.1
  match getBestClassForSlot csvData location day time guidelines with
  | none => sc
  | some bestClass =>
    let existingFormats := (s.classes.filter fun cls =>
      cls.location == location && cls.day == day && cls.time == time).map (·.classFormat)
    if existingFormats.contains bestClass.classFormat then sc
    else
      let candidateTeachers :=
        if isPeak then
          allTeachers.filter fun t => seniorTrainers.any fun st => strIncludes t st
        else allTeachers
      let fallback := candidateTeachers.find? fun teacher =>
        canAssignTeacher s teacher day time (getClassDuration bestClass.classFormat)
          bestClass.classFormat
      let bestTeacher :=
        match getBestTeacherForClass csvData bestClass.classFormat location day time with
        | some t =>
          if canAssignTeacher s t day time (getClassDuration bestClass.classFormat)
              bestClass.classFormat then some t
          else fallback
        | none => fallback
      match bestTeacher with
      | none => sc
      | some t =>
        (assignClass s
          ⟨bestClass.classFormat, location, day, time, bestClass.avgParticipants,
           bestClass.avgRevenue, false⟩ t,
         sc.2 + 1)

/-- Phase 1, one (location, day, time) cell: determine the parallel-class
target for the cell and fill each remaining open sub-slot. -/
def phase1TimeStep (csvData : List ClassData) (allTeachers : List String)
    (guidelines : DayGuidelines) (day location : String) (maxClassesForDay : Nat)
    (sc : SchedState × Nat) (time : String) : SchedState × Nat :=
  if maxClassesForDay ≤ sc.2 then sc
  else
    let isPeak := isPeakHour time
    let classesToSchedule : Nat :=
      if location == "Kwality House, Kemps Corner" then
        if ["09:00", "11:00", "18:00", "19:15"].contains time then 2 else 1
      else if location == "Supreme HQ, Bandra" then
        if ["08:00", "09:00", "10:00", "18:00", "19:00"].contains time then 2 else 1
      else 1
    let existingClasses := sc.1.classes.filter fun cls =>
      cls.location == location && cls.day == day && cls.time == time
    let remainingSlots := classesToSchedule - existingClasses.length
    (List.range remainingSlots).foldl
      (fun sc' _ => phase1SubSlotStep csvData allTeachers guidelines day location time isPeak sc')
      sc

/-- Phase 1, one day: all locations and all available slots, capped at five
classes on Sunday. -/
def phase1Day (csvData : List ClassData) (allTeachers : List String)
    (s : SchedState) (day : String) : SchedState :=
  let guidelines := getDayGuidelines day
  let availableSlots := getAvailableTimeSlots day
  let maxClassesForDay : Nat :=
    if day == "Sunday" then 5 else availableSlots.length * schedulerLocations.length
  let cnt0 := (s.classes.filter fun cls => cls.day == day).length
  (schedulerLocations.foldl (fun sc location =>
    availableSlots.foldl
      (phase1TimeStep csvData allTeachers guidelines day location maxClassesForDay)
      sc) (s, cnt0)).1

/-- Phase 1: fill all available time slots. -/
def phase1 (csvData : List ClassData) (allTeachers : List String) (days : List String)
    (s : SchedState) : SchedState :=
  days.foldl (phase1Day csvData allTeachers) s

/-- Phase 2, one slot attempt for a teacher's specialty (the time loop
breaks after the first commit). -/
def phase2TimeStep (teacher : String) (specialty : TeacherSpecialty)
    (day location : String) (sd : SchedState × Bool) (time : String) : SchedState × Bool :=
  if sd.2 then sd
  else
    let s := sd.1
    let existingClasses := s.classes.filter fun cls =>
      cls.location == location && cls.day == day && cls.time == time
    if maxParallelClasses location ≤ existingClasses.length then sd
    else if existingClasses.any fun cls => cls.classFormat == specialty.classFormat then sd
    else if canAssignTeacher s teacher day time (getClassDuration specialty.classFormat)
        specialty.classFormat then
      (assignClass s
        ⟨specialty.classFormat, location, day, time, specialty.avgParticipants, 0, false⟩
        teacher, true)
    else sd

/-- Phase 2, one day for a teacher's specialty. -/
def phase2DayStep (teacher : String) (specialty : TeacherSpecialty) (location : String)
    (s : SchedState) (day : String) : SchedState :=
  if 80 ≤ al2Get s.daily (teacher, day) then s
  else ((getAvailableTimeSlots day).foldl (phase2TimeStep teacher specialty day location)
    (s, false)).1

/-- Phase 2, one location for a teacher's specialty. -/
def phase2LocStep (days : List String) (teacher : String) (specialty : TeacherSpecialty)
    (s : SchedState) (location : String) : SchedState :=
  if !isClassAllowedAtLocation specialty.classFormat location then s
  else days.foldl (phase2DayStep teacher specialty location) s

/-- Phase 2, one specialty of a teacher (the specialty loop breaks once the
weekly target is reached; the target check is monotone, so the break is a
per-step guard). -/
def phase2SpecStep (days : List String) (targetHours : Nat) (teacher : String)
    (s : SchedState) (specialty : TeacherSpecialty) : SchedState :=
  if targetHours ≤ alGet s.weekly teacher then s
  else schedulerLocations.foldl (phase2LocStep days teacher specialty) s

/-- Phase 2, one teacher: push an underutilized teacher towards the weekly
target using the top three specialties. -/
def phase2TeacherStep (csvData : List ClassData) (days : List String)
    (s : SchedState) (teacher : String) : SchedState :=
  let currentHours := alGet s.weekly teacher
  let targetHours := if isNewTrainerName teacher then 200 else 300
  if currentHours < targetHours then
    let teacherSpecialties := alGetD (getTeacherSpecialties csvData) teacher []
    (teacherSpecialties.take 3).foldl (phase2SpecStep days targetHours teacher) s
  else s

/-- Phase 2: maximize utilization of every teacher. -/
def phase2 (csvData : List ClassData) (allTeachers : List String) (days : List String)
    (s : SchedState) : SchedState :=
  allTeachers.foldl (phase2TeacherStep csvData days) s

/-- The four required formats of Phase 3. -/
def requiredFormats : List String :=
  ["Studio Cardio Barre", "Studio Mat 57", "Studio Back Body Blaze", "Studio Amped Up!"]

/-- Phase 3, one slot attempt for a required format. -/
def phase3TimeStep (csvData : List ClassData) (format location day : String)
    (sd : SchedState × Bool) (time : String) : SchedState × Bool :=
  if sd.2 then sd
  else
    let s := sd.1
    let existingClasses := s.classes.filter fun cls =>
      cls.location == location && cls.day == day && cls.time == time
    if maxParallelClasses location ≤ existingClasses.length then sd
    else if existingClasses.any fun cls => cls.classFormat == format then sd
    else
      match getBestTeacherForClass csvData format location day time with
      | none => sd
      | some bestTeacher =>
        if canAssignTeacher s bestTeacher day time (getClassDuration format) format then
          let classAverage := getClassAverageForSlot csvData format location day time none
          (assignClass s
            ⟨format, location, day, time,
             (if classAverage.1 == 0 then 6 else classAverage.1), 0, false⟩
            bestTeacher, true)
        else sd

/-- Phase 3, one day for a required format (time loop breaks after a commit). -/
def phase3DayStep (csvData : List ClassData) (format location : String)
    (s : SchedState) (day : String) : SchedState :=
  ((getAvailableTimeSlots day).foldl (phase3TimeStep csvData format location day)
    (s, false)).1

/-- Phase 3, one required format. -/
def phase3FormatStep (csvData : List ClassData) (days : List String)
    (s : SchedState) (format : String) : SchedState :=
  let formatCount := (s.classes.filter fun cls => cls.classFormat == format).length
  if formatCount < 3 then
    schedulerLocations.foldl (fun s' location =>
      if !isClassAllowedAtLocation format location then s'
      else days.foldl (phase3DayStep csvData format location) s') s
  else s

/-- Phase 3: ensure class diversity. -/
def phase3 (csvData : List ClassData) (days : List String) (s : SchedState) : SchedState :=
  requiredFormats.foldl (phase3FormatStep csvData days) s

/-- Phase 4, one reassignment attempt of a class from a low-count teacher
to one of the two highest-count teachers of the shift. -/
def reassignStep (day : String) (targets : List (String × Nat)) (teacher : String)
    (s : SchedState) (cls : ScheduledClass) : SchedState :=
  match targets.find? (fun t =>
      canAssignTeacher s t.1 day cls.time cls.duration cls.classFormat) with
  | none => s
  | some targetTeacher =>
    match s.classes.findIdx? (fun c => c.id == cls.id) with
    | none => s
    | some classIndex =>
      let weekly₁ := alSet s.weekly teacher (alGet s.weekly teacher - cls.duration)
      let weekly₂ := alSet weekly₁ targetTeacher.1
        (alGet weekly₁ targetTeacher.1 + cls.duration)
      let daily₁ := al2Set s.daily (teacher, day) (al2Get s.daily (teacher, day) - cls.duration)
      let daily₂ := al2Set daily₁ (targetTeacher.1, day)
        (al2Get daily₁ (targetTeacher.1, day) + cls.duration)
      { s with
        classes := listModify (fun c =>
          { c with
            teacherFirstName := jsFirstName targetTeacher.1
            teacherLastName := jsLastName targetTeacher.1 }) classIndex s.classes
        weekly := weekly₂
        daily := daily₂ }

/-- Phase 4, one shift of one (location, day): when more than two teachers
serve the shift, move classes of the lowest-count teachers onto the two
highest-count ones, re-validating with `canAssignTeacher`. -/
def consolidateShift (day : String) (shiftClasses : List ScheduledClass)
    (s : SchedState) : SchedState :=
  let shiftTeachers := jsSetDedup (shiftClasses.map fullName)
  if 2 < shiftTeachers.length then
    let teacherClassCounts := stableSort (fun a b => a.2 < b.2)
      (shiftTeachers.map fun teacher =>
        (teacher, (shiftClasses.filter fun cls => fullName cls == teacher).length))
    let sources := teacherClassCounts.take (teacherClassCounts.length - 2)
    let targets := teacherClassCounts.drop (teacherClassCounts.length - 2)
    sources.foldl (fun s' tc =>
      (shiftClasses.filter fun cls => fullName cls == tc.1).foldl
        (reassignStep day targets tc.1) s') s
  else s

/-- Phase 4, one (location, day): consolidate the morning then the evening
shift (both shift snapshots are taken before any reassignment). -/
def phase4LocDay (s : SchedState) (location day : String) : SchedState :=
  let morningClasses := s.classes.filter fun cls =>
    cls.location == location && cls.day == day && isMorningSlot cls.time
  let eveningClasses := s.classes.filter fun cls =>
    cls.location == location && cls.day == day && isEveningSlot cls.time
  consolidateShift day eveningClasses (consolidateShift day morningClasses s)

/-- Phase 4: consolidate trainers per shift. -/
def phase4 (days : List String) (s : SchedState) : SchedState :=
  schedulerLocations.foldl (fun s' location =>
    days.foldl (fun s'' day => phase4LocDay s'' location day) s') s

/-- Phase 5, one candidate target slot for one excess-shift class: move the
class (only its `time` field) when the slot is under capacity and has no
class of the same format; the slot loop breaks after a successful move. -/
def phase5MoveStep (location day : String) (cls : ScheduledClass)
    (sm : SchedState × Bool) (newTime : String) : SchedState × Bool :=
  if sm.2 then sm
  else
    let s := sm.1
    let existingClasses := s.classes.filter fun c =>
      c.location == location && c.day == day && c.time == newTime
    if existingClasses.length < maxParallelClasses location
        && !(existingClasses.any fun c => c.classFormat == cls.classFormat) then
      match s.classes.findIdx? (fun c => c.id == cls.id) with
      | none => sm
      | some classIndex =>
        ({ s with classes :=
            (listModify (fun c => { c with time := newTime }) classIndex s.classes) },
         true)
    else sm

/-- Phase 5, one (location, day): when the morning/evening imbalance
exceeds 2, try to move half the imbalance (rounded up) from the
overrepresented shift into available slots of the other shift. -/
def phase5LocDay (s : SchedState) (location day : String) : SchedState :=
  let balance := getShiftBalance s.classes location day
  let imbalance := max balance.1 balance.2 - min balance.1 balance.2
  if 2 < imbalance then
    let excessMorning := balance.2 < balance.1
    let excessClasses := s.classes.filter fun cls =>
      cls.location == location && cls.day == day
        && (if excessMorning then isMorningSlot cls.time else isEveningSlot cls.time)
    let targetSlots := (getAvailableTimeSlots day).filter fun time =>
      if excessMorning then isEveningSlot time else isMorningSlot time
    (excessClasses.take ((imbalance + 1) / 2)).foldl (fun s' cls =>
      (targetSlots.foldl (phase5MoveStep location day cls) (s', false)).1) s
  else s

/-- Phase 5: balance morning and evening classes. -/
def phase5 (days : List String) (s : SchedState) : SchedState :=
  schedulerLocations.foldl (fun s' location =>
    days.foldl (fun s'' day => phase5LocDay s'' location day) s') s

/-- Days iterated by an optimization run. -/
def scheduleDays (options : ScheduleOptions) : List String :=
  match options.targetDay with
  | some d => [d]
  | none => weekDays

/-- `allTeachers` of a run: historic teachers, deduplicated, with the two
inactive-name fragments removed. -/
def allTeachersOf (csvData : List ClassData) : List String :=
  (jsSetDedup (csvData.map (·.teacherName))).filter fun teacher =>
    !strIncludes teacher "Nishanth" && !strIncludes teacher "Saniya"

/-- `generateIntelligentSchedule`, returning the final run state (the
`customTeachers` argument of the source is accepted and ignored, exactly as
the source body never reads it). -/
def generateIntelligentScheduleState (csvData : List ClassData)
    (_customTeachers : List CustomTeacher) (options : ScheduleOptions) : SchedState :=
  let days := scheduleDays options
  let allTeachers := allTeachersOf csvData
  phase5 days (phase4 days (phase3 csvData days
    (phase2 csvData allTeachers days
      (phase1 csvData allTeachers days (phase0 options initialState)))))

/-- `generateIntelligentSchedule`: the list of scheduled classes produced
by the six phases. -/
def generateIntelligentSchedule (csvData : List ClassData)
    (customTeachers : List CustomTeacher := []) (options : ScheduleOptions := {}) :
    List ScheduledClass :=
  (generateIntelligentScheduleState csvData customTeachers options).classes

/-! ## Claim-side definitions -/

/-- Weekly hours (twentieths) of one instructor, as identified by the name
fields of the returned schedule entries. -/
def instructorWeeklySum (schedule : List ScheduledClass) (first last : String) : Nat :=
  ((schedule.filter fun cls =>
    cls.teacherFirstName == first && cls.teacherLastName == last).map (·.duration)).sum

/-- The historic records of one exact (day, time, location) cell, filtered
the way `generateRecommendations` filters its `relevantData`
(`item.classTime.includes(time.slice(0, 5))`). -/
def cellRecords (data : List ClassData) (day time location : String) : List ClassData :=
  data.filter fun item =>
    item.location == location && item.dayOfWeek == day
      && strIncludes item.classTime (strTake time 5)

/-- Modelled from the spec: the best unused candidate of a Phase 1
sub-slot according to the specification text — "rank candidate formats via
the Aggregator restricted to that cell …, pick the best unused format in
that cell".  The specification's ranker walks the ranked list to the first
format not already used in the cell, instead of inspecting only the single
top entry as the source does. -/
def bestUnusedFormatSpec (csvData : List ClassData) (location day time : String)
    (guidelines : DayGuidelines) (usedFormats : List String) : Option RankedFormat :=
  let slotData := csvData.filter fun item =>
    item.location == location && item.dayOfWeek == day
      && strIncludes item.classTime time
      && !isHostedClass item.cleanedClass
      && isClassAllowedAtLocation item.cleanedClass location
      && !(guidelines.avoid.contains item.cleanedClass)
      && 4 ≤ item.participants
  let formatStats := slotData.foldl (fun acc item =>
    alUpdate acc item.cleanedClass ((0 : Nat), (0 : ℚ), (0 : Nat)) fun st =>
      (st.1 + item.participants, qadd st.2.1 item.totalRevenue, st.2.2 + 1)) []
  let rankedFormats := stableSort
    (fun a b =>
      if a.isPriority && !b.isPriority then true
      else if !a.isPriority && b.isPriority then false
      else b.avgParticipants < a.avgParticipants)
    (formatStats.map fun p =>
      (⟨p.1, Rat.divInt p.2.1 p.2.2.2, qdivNat p.2.2.1 p.2.2.2, p.2.2.2,
        guidelines.priority.contains p.1⟩ : RankedFormat))
  rankedFormats.find? fun f => !(usedFormats.contains f.classFormat)

/-! ## Concrete scenario data used by the counterexamples -/

/-- Shorthand for a historic record with zero revenue. -/
def mkRec (loc day time fmt teacher : String) (p : Nat) : ClassData :=
  ⟨loc, day, time, fmt, teacher, p, 0⟩

/-- Two historic records whose teacher names (`"Anisha"` and `"Anisha "`)
are distinct strings but split/rejoin to the same (first, last) name pair. -/
def c1csv : List ClassData :=
  [mkRec "Kwality House, Kemps Corner" "Monday" "10:00" "Studio Mat 57" "Anisha" 3,
   mkRec "Kwality House, Kemps Corner" "Monday" "10:00" "Studio Mat 57" "Anisha " 3]

/-! ## The scheduler with the source's TypeError path made explicit

The mutable trackers are initialized only for the filtered historic teacher
names (`aiService.ts` lines 1008-1015); `teacherDailyHours` never gains an
outer key afterwards.  `canAssignTeacher` reads
`Object.keys(teacherDailyHours[teacherName])` unguarded (line 1046) and
`assignClass` writes `teacherDailyHours[teacher][classData.day]` and
`teacherShiftAssignments[teacher][classData.day]` unguarded (lines
1075-1082), so both throw a TypeError for any teacher outside that key set,
aborting the whole optimization run: the source then returns no schedule.
The `...E` functions below mirror the phase functions with this error path
(`none` = the source throws), parametrized by the tracker key set `K`,
which at every call site is the run's `allTeachers` list. -/

/-- Error-propagating fold: a thrown TypeError aborts the run. -/
def foldlE {σ α : Type} (f : σ → α → Option σ) : σ → List α → Option σ
  | s, [] => some s
  | s, x :: xs => match f s x with
    | none => none
    | some s2 => foldlE f s2 xs

/-- JavaScript `Array.prototype.find` with a predicate that can throw. -/
def findE {α : Type} (p : α → Option Bool) : List α → Option (Option α)
  | [] => some none
  | x :: xs => match p x with
    | none => none
    | some true => some (some x)
    | some false => findE p xs

/-- `canAssignTeacher` with the error path: the weekly/daily reads are
guarded (`|| 0`, `?.[day]`) and the three early rejections return before
any unguarded access, but the working-days computation reads
`Object.keys(teacherDailyHours[teacherName])` unguarded and throws for a
teacher outside the tracker key set `K`. -/
def canAssignTeacherE (K : List String) (s : SchedState) (teacherName day _time : String)
    (duration : Nat) (classFormat : String) : Option Bool :=
  let weeklyHours := alGet s.weekly teacherName
  let dailyHours := al2Get s.daily (teacherName, day)
  let isNewTrainer := isNewTrainerName teacherName
  let maxWeeklyHours := maxWeeklyHoursOf teacherName
  if isNewTrainer && !(newTrainerAllowedFormats.contains classFormat) then some false
  else if advancedFormats.contains classFormat
      && !(seniorTrainers.any fun name => strIncludes teacherName name) then some false
  else if maxWeeklyHours < weeklyHours + duration || 80 < dailyHours + duration then some false
  else if !(K.contains teacherName) then none
  else
    let currentWorkingDays :=
      (weekDays.filter fun d => 0 < al2Get s.daily (teacherName, d)).length
    if 5 ≤ currentWorkingDays && dailyHours == 0 then some false
    else some true

/-- `assignClass` with the error path: the nested daily-hours and
shift-assignment writes presuppose the teacher's tracker entries and throw
for a teacher outside `K` (the guarded weekly write cannot throw). -/
def assignClassE (K : List String) (s : SchedState) (classData : AssignData)
    (teacher : String) : Option SchedState :=
  if K.contains teacher then some (assignClass s classData teacher) else none

/-- Phase 0 with the error path, one seeded class. -/
def phase0StepE (K : List String) (options : ScheduleOptions) (s : SchedState)
    (defaultClass : DefaultTopClass) : Option SchedState :=
  if (match options.targetDay with
      | some d => defaultClass.day != d
      | none => false) then some s
  else
    match canAssignTeacherE K s defaultClass.teacher defaultClass.day defaultClass.time
        (getClassDuration defaultClass.classFormat) defaultClass.classFormat with
    | none => none
    | some false => some s
    | some true =>
      assignClassE K s
        ⟨defaultClass.classFormat, defaultClass.location, defaultClass.day,
         defaultClass.time, defaultClass.avgParticipants, 0, false⟩
        defaultClass.teacher

/-- Phase 0 with the error path. -/
def phase0E (K : List String) (options : ScheduleOptions) (s : SchedState) :
    Option SchedState :=
  foldlE (phase0StepE K options) s getDefaultTopClasses

/-- Phase 1 with the error path, one sub-slot. -/
def phase1SubSlotStepE (csvData : List ClassData) (allTeachers : List String)
    (guidelines : DayGuidelines) (day location time : String) (isPeak : Bool)
    (sc : SchedState × Nat) : Option (SchedState × Nat) :=
  let s := sc.1
  match getBestClassForSlot csvData location day time guidelines with
  | none => some sc
  | some bestClass =>
    let existingFormats := (s.classes.filter fun cls =>
      cls.location == location && cls.day == day && cls.time == time).map (·.classFormat)
    if existingFormats.contains bestClass.classFormat then some sc
    else
      let candidateTeachers :=
        if isPeak then
          allTeachers.filter fun t => seniorTrainers.any fun st => strIncludes t st
        else allTeachers
      let fallbackE : Option (Option String) :=
        findE (fun teacher =>
            canAssignTeacherE allTeachers s teacher day time
              (getClassDuration bestClass.classFormat) bestClass.classFormat)
          candidateTeachers
      let bestTeacherE : Option (Option String) :=
        match getBestTeacherForClass csvData bestClass.classFormat location day time with
        | some t =>
          match canAssignTeacherE allTeachers s t day time
              (getClassDuration bestClass.classFormat) bestClass.classFormat with
          | none => none
          | some true => some (some t)
          | some false => fallbackE
        | none => fallbackE
      match bestTeacherE with
      | none => none
      | some none => some sc
      | some (some t) =>
        match assignClassE allTeachers s
            ⟨bestClass.classFormat, location, day, time, bestClass.avgParticipants,
             bestClass.avgRevenue, false⟩ t with
        | none => none
        | some s2 => some (s2, sc.2 + 1)

/-- Phase 1 with the error path, one (location, day, time) cell. -/
def phase1TimeStepE (csvData : List ClassData) (allTeachers : List String)
    (guidelines : DayGuidelines) (day location : String) (maxClassesForDay : Nat)
    (sc : SchedState × Nat) (time : String) : Option (SchedState × Nat) :=
  if maxClassesForDay ≤ sc.2 then some sc
  else
    let isPeak := isPeakHour time
    let classesToSchedule : Nat :=
      if location == "Kwality House, Kemps Corner" then
        if ["09:00", "11:00", "18:00", "19:15"].contains time then 2 else 1
      else if location == "Supreme HQ, Bandra" then
        if ["08:00", "09:00", "10:00", "18:00", "19:00"].contains time then 2 else 1
      else 1
    let existingClasses := sc.1.classes.filter fun cls =>
      cls.location == location && cls.day == day && cls.time == time
    let remainingSlots := classesToSchedule - existingClasses.length
    foldlE
      (fun sc' _ =>
        phase1SubSlotStepE csvData allTeachers guidelines day location time isPeak sc')
      sc (List.range remainingSlots)

/-- Phase 1 with the error path, one day. -/
def phase1DayE (csvData : List ClassData) (allTeachers : List String)
    (s : SchedState) (day : String) : Option SchedState :=
  let guidelines := getDayGuidelines day
  let availableSlots := getAvailableTimeSlots day
  let maxClassesForDay : Nat :=
    if day == "Sunday" then 5 else availableSlots.length * schedulerLocations.length
  let cnt0 := (s.classes.filter fun cls => cls.day == day).length
  match foldlE (fun sc location =>
      foldlE
        (phase1TimeStepE csvData allTeachers guidelines day location maxClassesForDay)
        sc availableSlots)
    (s, cnt0) schedulerLocations with
  | none => none
  | some sc => some sc.1

/-- Phase 1 with the error path. -/
def phase1E (csvData : List ClassData) (allTeachers : List String) (days : List String)
    (s : SchedState) : Option SchedState :=
  foldlE (phase1DayE csvData allTeachers) s days

/-- Phase 2 with the error path, one slot attempt. -/
def phase2TimeStepE (K : List String) (teacher : String) (specialty : TeacherSpecialty)
    (day location : String) (sd : SchedState × Bool) (time : String) :
    Option (SchedState × Bool) :=
  if sd.2 then some sd
  else
    let s := sd.1
    let existingClasses := s.classes.filter fun cls =>
      cls.location == location && cls.day == day && cls.time == time
    if maxParallelClasses location ≤ existingClasses.length then some sd
    else if existingClasses.any fun cls => cls.classFormat == specialty.classFormat then
      some sd
    else
      match canAssignTeacherE K s teacher day time (getClassDuration specialty.classFormat)
          specialty.classFormat with
      | none => none
      | some true =>
        match assignClassE K s
            ⟨specialty.classFormat, location, day, time, specialty.avgParticipants, 0, false⟩
            teacher with
        | none => none
        | some s2 => some (s2, true)
      | some false => some sd

/-- Phase 2 with the error path, one day (the day-skip check reads
`teacherDailyHours[teacher][day]` unguarded, line 1250). -/
def phase2DayStepE (K : List String) (teacher : String) (specialty : TeacherSpecialty)
    (location : String) (s : SchedState) (day : String) : Option SchedState :=
  if !(K.contains teacher) then none
  else if 80 ≤ al2Get s.daily (teacher, day) then some s
  else
    match foldlE (phase2TimeStepE K teacher specialty day location) (s, false)
        (getAvailableTimeSlots day) with
    | none => none
    | some sd => some sd.1

/-- Phase 2 with the error path, one location. -/
def phase2LocStepE (K : List String) (days : List String) (teacher : String)
    (specialty : TeacherSpecialty) (s : SchedState) (location : String) : Option SchedState :=
  if !isClassAllowedAtLocation specialty.classFormat location then some s
  else foldlE (phase2DayStepE K teacher specialty location) s days

/-- Phase 2 with the error path, one specialty. -/
def phase2SpecStepE (K : List String) (days : List String) (targetHours : Nat)
    (teacher : String) (s : SchedState) (specialty : TeacherSpecialty) : Option SchedState :=
  if targetHours ≤ alGet s.weekly teacher then some s
  else foldlE (phase2LocStepE K days teacher specialty) s schedulerLocations

/-- Phase 2 with the error path, one teacher. -/
def phase2TeacherStepE (K : List String) (csvData : List ClassData) (days : List String)
    (s : SchedState) (teacher : String) : Option SchedState :=
  let currentHours := alGet s.weekly teacher
  let targetHours := if isNewTrainerName teacher then 200 else 300
  if currentHours < targetHours then
    let teacherSpecialties := alGetD (getTeacherSpecialties csvData) teacher []
    foldlE (phase2SpecStepE K days targetHours teacher) s (teacherSpecialties.take 3)
  else some s

/-- Phase 2 with the error path. -/
def phase2E (csvData : List ClassData) (allTeachers : List String) (days : List String)
    (s : SchedState) : Option SchedState :=
  foldlE (phase2TeacherStepE allTeachers csvData days) s allTeachers

/-- Phase 3 with the error path, one slot attempt. -/
def phase3TimeStepE (K : List String) (csvData : List ClassData)
    (format location day : String) (sd : SchedState × Bool) (time : String) :
    Option (SchedState × Bool) :=
  if sd.2 then some sd
  else
    let s := sd.1
    let existingClasses := s.classes.filter fun cls =>
      cls.location == location && cls.day == day && cls.time == time
    if maxParallelClasses location ≤ existingClasses.length then some sd
    else if existingClasses.any fun cls => cls.classFormat == format then some sd
    else
      match getBestTeacherForClass csvData format location day time with
      | none => some sd
      | some bestTeacher =>
        match canAssignTeacherE K s bestTeacher day time (getClassDuration format) format with
        | none => none
        | some true =>
          let classAverage := getClassAverageForSlot csvData format location day time none
          match assignClassE K s
              ⟨format, location, day, time,
               (if classAverage.1 == 0 then 6 else classAverage.1), 0, false⟩
              bestTeacher with
          | none => none
          | some s2 => some (s2, true)
        | some false => some sd

/-- Phase 3 with the error path, one day. -/
def phase3DayStepE (K : List String) (csvData : List ClassData) (format location : String)
    (s : SchedState) (day : String) : Option SchedState :=
  match foldlE (phase3TimeStepE K csvData format location day) (s, false)
      (getAvailableTimeSlots day) with
  | none => none
  | some sd => some sd.1

/-- Phase 3 with the error path, one required format. -/
def phase3FormatStepE (K : List String) (csvData : List ClassData) (days : List String)
    (s : SchedState) (format : String) : Option SchedState :=
  let formatCount := (s.classes.filter fun cls => cls.classFormat == format).length
  if formatCount < 3 then
    foldlE (fun s' location =>
        if !isClassAllowedAtLocation format location then some s'
        else foldlE (phase3DayStepE K csvData format location) s' days)
      s schedulerLocations
  else some s

/-- Phase 3 with the error path. -/
def phase3E (K : List String) (csvData : List ClassData) (days : List String)
    (s : SchedState) : Option SchedState :=
  foldlE (phase3FormatStepE K csvData days) s requiredFormats

/-- Phase 4 with the error path, one reassignment attempt: the target
search re-validates with `canAssignTeacher` (which can throw) and the
source teacher's unguarded daily-hours decrement throws for a rejoined
name outside `K`. -/
def reassignStepE (K : List String) (day : String) (targets : List (String × Nat))
    (teacher : String) (s : SchedState) (cls : ScheduledClass) : Option SchedState :=
  match findE (fun t =>
      canAssignTeacherE K s t.1 day cls.time cls.duration cls.classFormat) targets with
  | none => none
  | some none => some s
  | some (some targetTeacher) =>
    match s.classes.findIdx? (fun c => c.id == cls.id) with
    | none => some s
    | some classIndex =>
      if K.contains teacher then
        let weekly₁ := alSet s.weekly teacher (alGet s.weekly teacher - cls.duration)
        let weekly₂ := alSet weekly₁ targetTeacher.1
          (alGet weekly₁ targetTeacher.1 + cls.duration)
        let daily₁ := al2Set s.daily (teacher, day)
          (al2Get s.daily (teacher, day) - cls.duration)
        let daily₂ := al2Set daily₁ (targetTeacher.1, day)
          (al2Get daily₁ (targetTeacher.1, day) + cls.duration)
        some { s with
          classes := listModify (fun c =>
            { c with
              teacherFirstName := jsFirstName targetTeacher.1
              teacherLastName := jsLastName targetTeacher.1 }) classIndex s.classes
          weekly := weekly₂
          daily := daily₂ }
      else none

/-- Phase 4 with the error path, one shift. -/
def consolidateShiftE (K : List String) (day : String) (shiftClasses : List ScheduledClass)
    (s : SchedState) : Option SchedState :=
  let shiftTeachers := jsSetDedup (shiftClasses.map fullName)
  if 2 < shiftTeachers.length then
    let teacherClassCounts := stableSort (fun a b => a.2 < b.2)
      (shiftTeachers.map fun teacher =>
        (teacher, (shiftClasses.filter fun cls => fullName cls == teacher).length))
    let sources := teacherClassCounts.take (teacherClassCounts.length - 2)
    let targets := teacherClassCounts.drop (teacherClassCounts.length - 2)
    foldlE (fun s' tc =>
        foldlE (reassignStepE K day targets tc.1) s'
          (shiftClasses.filter fun cls => fullName cls == tc.1))
      s sources
  else some s

/-- Phase 4 with the error path, one (location, day). -/
def phase4LocDayE (K : List String) (s : SchedState) (location day : String) :
    Option SchedState :=
  let morningClasses := s.classes.filter fun cls =>
    cls.location == location && cls.day == day && isMorningSlot cls.time
  let eveningClasses := s.classes.filter fun cls =>
    cls.location == location && cls.day == day && isEveningSlot cls.time
  match consolidateShiftE K day morningClasses s with
  | none => none
  | some s1 => consolidateShiftE K day eveningClasses s1

/-- Phase 4 with the error path. -/
def phase4E (K : List String) (days : List String) (s : SchedState) : Option SchedState :=
  foldlE (fun s' location => foldlE (fun s'' day => phase4LocDayE K s'' location day) s' days)
    s schedulerLocations

/-- The run state of `generateIntelligentSchedule` with the TypeError path
modelled: `none` when the source throws (and returns no schedule), `some`
of the final state otherwise.  Phase 5 never touches the trackers and
cannot throw. -/
def generateIntelligentScheduleStateE (csvData : List ClassData)
    (_customTeachers : List CustomTeacher) (options : ScheduleOptions) :
    Option SchedState :=
  let days := scheduleDays options
  let allTeachers := allTeachersOf csvData
  match phase0E allTeachers options initialState with
  | none => none
  | some s0 =>
    match phase1E csvData allTeachers days s0 with
    | none => none
    | some s1 =>
      match phase2E csvData allTeachers days s1 with
      | none => none
      | some s2 =>
        match phase3E allTeachers csvData days s2 with
        | none => none
        | some s3 =>
          match phase4E allTeachers days s3 with
          | none => none
          | some s4 => some (phase5 days s4)

/-- `generateIntelligentSchedule` with the TypeError path modelled. -/
def generateIntelligentScheduleE (csvData : List ClassData)
    (customTeachers : List CustomTeacher := []) (options : ScheduleOptions := {}) :
    Option (List ScheduledClass) :=
  match generateIntelligentScheduleStateE csvData customTeachers options with
  | none => none
  | some s => some s.classes

/-- The colliding-name record set extended so that the real run completes:
every curated seed teacher also appears in the historic data (so all of
Phase 0's `canAssignTeacher` calls are on initialized tracker keys), under
a hosted class format that every ranking, specialty and slot filter
excludes, so the added records influence nothing but the tracker key set. -/
def c1csvE : List ClassData :=
  c1csv ++
    (["Karanvir Bhatia", "Anisha Shah", "Rohan Dahima", "Pranjali Jain",
      "Cauveri Vikrant", "Atulan Purohit"].map fun t =>
      mkRec "Kenkere House" "Sunday" "07:30" "Hosted Class" t 1)

/-- A record set whose teacher names all contain a space and include every
curated seed teacher: the real run completes on it (witnessed against the
error-path model). -/
def c1wcsv : List ClassData :=
  ["Karanvir Bhatia", "Anisha Shah", "Rohan Dahima", "Pranjali Jain",
   "Cauveri Vikrant", "Atulan Purohit"].map fun t =>
    mkRec "Kenkere House" "Sunday" "07:30" "Hosted Class" t 1

/-- Ten historic sessions of "Studio Mat 57" at (Kwality House, Saturday,
10:15) averaging 25 participants — the scenario of the specification. -/
def c3csv : List ClassData :=
  List.replicate 10
    (mkRec "Kwality House, Kemps Corner" "Saturday" "10:15" "Studio Mat 57"
      "Karanvir Bhatia" 25)

/-- A location whose (Saturday, 10:15) cell holds one "Studio Mat 57"
record while the rest of the location's history is "Studio Barre 57". -/
def c4csv : List ClassData :=
  mkRec "Kenkere House" "Saturday" "10:15" "Studio Mat 57" "T A" 5 ::
    List.replicate 5 (mkRec "Kenkere House" "Monday" "09:00" "Studio Barre 57" "T B" 20)

/-- Three groups whose (average, frequency) pairs make the
`getTopPerformingClasses` comparator cyclic:
Mat 57 (avg 10, freq 2), Barre 57 (avg 9.6, freq 5), Cardio Barre
(avg 8.8, freq 9). -/
def c6csv : List ClassData :=
  List.replicate 2 (mkRec "Kenkere House" "Monday" "07:30" "Studio Mat 57" "T A" 10) ++
    [mkRec "Kenkere House" "Monday" "08:00" "Studio Barre 57" "T A" 10,
     mkRec "Kenkere House" "Monday" "08:00" "Studio Barre 57" "T A" 10,
     mkRec "Kenkere House" "Monday" "08:00" "Studio Barre 57" "T A" 10,
     mkRec "Kenkere House" "Monday" "08:00" "Studio Barre 57" "T A" 9,
     mkRec "Kenkere House" "Monday" "08:00" "Studio Barre 57" "T A" 9] ++
    (List.replicate 8 (mkRec "Kenkere House" "Monday" "08:30" "Studio Cardio Barre" "T A" 9) ++
     [mkRec "Kenkere House" "Monday" "08:30" "Studio Cardio Barre" "T A" 7])

/-- Modelled from the spec: the claimed pairwise sort order — `a` may
precede `b` when, for averages within 1.0 of each other, the frequency of
`a` is at least that of `b`, and otherwise the average of `a` is at least
that of `b` (average descending with the within-1.0 frequency tie-break). -/
def specTieOrdered (a b : TopPerformingClass) : Bool :=
  if qabs (qsub a.avgParticipants b.avgParticipants) ≤ 1 then
    decide (b.frequency ≤ a.frequency)
  else decide (b.avgParticipants ≤ a.avgParticipants)

/-- The computed (average 10, frequency 2) group of `c6csv`. -/
def c6gMat : TopPerformingClass :=
  ⟨"Studio Mat 57", "Kenkere House", "Monday", "07:30", "T A",
   Rat.divInt 10 1, Rat.divInt 0 1, 2⟩

/-- The computed (average 9.6, frequency 5) group of `c6csv`. -/
def c6gBarre : TopPerformingClass :=
  ⟨"Studio Barre 57", "Kenkere House", "Monday", "08:00", "T A",
   Rat.divInt 48 5, Rat.divInt 0 1, 5⟩

/-- The computed (average 8.8, frequency 9) group of `c6csv`. -/
def c6gCardio : TopPerformingClass :=
  ⟨"Studio Cardio Barre", "Kenkere House", "Monday", "08:30", "T A",
   Rat.divInt 44 5, Rat.divInt 0 1, 9⟩

/-- A cell whose only format has records of 5 and 1 participants: the cell
average is 3, yet the record-level `participants >= 4` filter keeps the
5-participant session. -/
def c8csvA : List ClassData :=
  [mkRec "Kwality House, Kemps Corner" "Monday" "09:30" "Studio Mat 57" "T A" 5,
   mkRec "Kwality House, Kemps Corner" "Monday" "09:30" "Studio Mat 57" "T A" 1]

/-- A cell with a top-ranked priority format (Mat 57, avg 10) and a
second-ranked eligible format (Cardio Barre, avg 9). -/
def c8csvB : List ClassData :=
  [mkRec "Kwality House, Kemps Corner" "Monday" "09:30" "Studio Mat 57" "T A" 10,
   mkRec "Kwality House, Kemps Corner" "Monday" "09:30" "Studio Mat 57" "T A" 10,
   mkRec "Kwality House, Kemps Corner" "Monday" "09:30" "Studio Cardio Barre" "T B" 9,
   mkRec "Kwality House, Kemps Corner" "Monday" "09:30" "Studio Cardio Barre" "T B" 9]

/-- A run state whose (Kwality House, Monday, 09:30) cell already holds a
"Studio Mat 57" class. -/
def c8state : SchedState :=
  ⟨[⟨0, "Monday", "09:30", "Kwality House, Kemps Corner", "Studio Mat 57", "T", "A", 20,
     Rat.divInt 10 1, 0, true, false⟩], 1,
   [("T A", 20)], [(("T A", "Monday"), 20)], [(("T A", "Monday"), (true, false))]⟩

/-- Weekly hours (twentieths) of the teacher with the given display name,
summed the way `validateTeacherHours` computes `currentHours`. -/
def teacherWeeklySum (schedule : List ScheduledClass) (teacherName : String) : Nat :=
  ((schedule.filter fun cls => fullName cls == teacherName).map (·.duration)).sum

/-- A schedule that books the teacher ("T", "X") for exactly 15 hours. -/
def c5sched : List ScheduledClass :=
  List.replicate 15 ⟨0, "Monday", "09:00", "Kenkere House", "Studio Mat 57",
    "T", "X", 20, 0, 0, false, false⟩

/-- A one-hour candidate class for the already fully booked ("T", "X"). -/
def c5new : ScheduledClass :=
  ⟨99, "Tuesday", "09:00", "Kenkere House", "Studio Barre 57",
   "T", "X", 20, 0, 0, false, false⟩

/-- A daily-hours tracker in which teacher "T X" works five distinct days. -/
def c7daily : List ((String × String) × Nat) :=
  [(("T X", "Monday"), 20), (("T X", "Tuesday"), 20), (("T X", "Wednesday"), 20),
   (("T X", "Thursday"), 20), (("T X", "Friday"), 20)]

/-- A run state in which teacher "T X" already works five distinct days but
has plenty of weekly and daily hour budget left. -/
def c7state : SchedState := ⟨[], 0, [("T X", 100)], c7daily, []⟩

/-! ## Semantics of the kernel-friendly rational helpers -/

/-! ## Claim-side relations, invariants and concrete run inputs -/

/-- The statistics list that the fallback ranker maps into recommendations:
the location's class-performance ranking, or the global one when the
location has no records. -/
def fallbackStats (data : List ClassData) (location : String) : List ClassPerfStat :=
  let locationData := data.filter fun item => item.location == location
  if locationData.length > 0 then analyzeClassPerformance locationData
  else analyzeClassPerformance data

/-- The ten curated seed entries in `TopPerformingClass` form, exactly as
`getTopPerformingClasses` merges them in. -/
def seedTopClasses : List TopPerformingClass :=
  getDefaultTopClasses.map fun cls =>
    (⟨cls.classFormat, cls.location, cls.day, cls.time, cls.teacher,
      cls.avgParticipants, 0, 10⟩ : TopPerformingClass)

/-- The computed part of `getTopPerformingClasses`: the grouped statistics
filtered to `count ≥ 2 ∧ average ≥ minAverage`, arranged here by the model
stable sort.  The source comparator is non-transitive, so the engine
arrangement is implementation-defined: only arrangement-independent
consequences (multiset content, membership) are asserted about this list. -/
def computedTopClasses (csvData : List ClassData) (minAverage : ℚ)
    (includeTeacher : Bool) : List TopPerformingClass :=
  let validClasses := csvData.filter fun item =>
    !isHostedClass item.cleanedClass
      && isClassAllowedAtLocation item.cleanedClass item.location
  let classGroups := validClasses.foldl (fun acc item =>
    let key := item.cleanedClass ++ "-" ++ item.location ++ "-" ++ item.dayOfWeek
      ++ "-" ++ strTake item.classTime 5
      ++ (if includeTeacher then "-" ++ item.teacherName else "")
    alUpdate acc key
      (item.cleanedClass, item.location, item.dayOfWeek, strTake item.classTime 5,
       (if includeTeacher then item.teacherName else ""), (0 : Nat), (0 : ℚ), (0 : Nat))
      fun g => (g.1, g.2.1, g.2.2.1, g.2.2.2.1, g.2.2.2.2.1,
        g.2.2.2.2.2.1 + item.participants, qadd g.2.2.2.2.2.2.1 item.totalRevenue,
        g.2.2.2.2.2.2.2 + 1)) []
  stableSort (fun a b =>
      if (1 : ℚ) < qabs (qsub b.avgParticipants a.avgParticipants) then
        b.avgParticipants < a.avgParticipants
      else b.frequency < a.frequency) <|
    (classGroups.map fun p =>
      (⟨p.2.1, p.2.2.1, p.2.2.2.1, p.2.2.2.2.1, p.2.2.2.2.2.1,
        fix1Q (Rat.divInt p.2.2.2.2.2.2.1 p.2.2.2.2.2.2.2.2),
        fix1Q (qdivNat p.2.2.2.2.2.2.2.1 p.2.2.2.2.2.2.2.2),
        p.2.2.2.2.2.2.2.2⟩ : TopPerformingClass)).filter fun cls =>
      2 ≤ cls.frequency && minAverage ≤ cls.avgParticipants

/-- The dedup equivalence of `getTopPerformingClasses`. -/
def tpcKeyEq (c cls : TopPerformingClass) : Bool :=
  c.classFormat == cls.classFormat && c.location == cls.location
    && c.day == cls.day && c.time == cls.time

/-- The unsorted candidate list of a Phase 1 cell, as built inside
`getBestClassForSlot` before ranking. -/
def slotCandidates (csvData : List ClassData) (location day time : String)
    (guidelines : DayGuidelines) : List RankedFormat :=
  let slotData := csvData.filter fun item =>
    item.location == location && item.dayOfWeek == day
      && strIncludes item.classTime time
      && !isHostedClass item.cleanedClass
      && isClassAllowedAtLocation item.cleanedClass location
      && !(guidelines.avoid.contains item.cleanedClass)
      && 4 ≤ item.participants
  let formatStats := slotData.foldl (fun acc item =>
    alUpdate acc item.cleanedClass ((0 : Nat), (0 : ℚ), (0 : Nat)) fun st =>
      (st.1 + item.participants, qadd st.2.1 item.totalRevenue, st.2.2 + 1)) []
  formatStats.map fun p =>
    (⟨p.1, Rat.divInt p.2.1 p.2.2.2, qdivNat p.2.2.1 p.2.2.2, p.2.2.2,
      guidelines.priority.contains p.1⟩ : RankedFormat)

/-- The comparator of `getBestClassForSlot`. -/
def slotBefore (a b : RankedFormat) : Bool :=
  if a.isPriority && !b.isPriority then true
  else if !a.isPriority && b.isPriority then false
  else b.avgParticipants < a.avgParticipants

/-- `c` agrees with `c0` on every field except possibly `time`. -/
def sameButTime (c0 c : ScheduledClass) : Prop :=
  c = { c0 with time := c.time }

/-- The schedule list `l` is obtained from `l0` by changing times only. -/
def TimeOnly (l0 l : List ScheduledClass) : Prop :=
  List.Forall₂ sameButTime l0 l

/-- One Phase 5 balance move on the schedule list: position `i` has its
`time` field set to `newTime`, a slot of the target shift whose cell is
under the location's parallel capacity and holds no class of the moved
class's format. -/
def TimeMoveStep (tgt : String → Bool) (location day : String)
    (l l2 : List ScheduledClass) : Prop :=
  ∃ i newTime cls,
    l.get? i = some cls ∧ cls.location = location ∧ cls.day = day ∧ tgt newTime = true ∧
    (l.filter fun c =>
      c.location == location && c.day == day && c.time == newTime).length
        < maxParallelClasses location ∧
    ((l.filter fun c =>
      c.location == location && c.day == day && c.time == newTime).any
        fun c => c.classFormat == cls.classFormat) = false ∧
    l2 = listModify (fun c => { c with time := newTime }) i l

/-- Four morning classes on one (location, day): an imbalance of 4 that
Phase 5 will rebalance. -/
def c9state : SchedState :=
  ⟨[⟨0, "Monday", "08:00", "Kenkere House", "Studio Mat 57", "T", "A", 20, 5, 0, false, false⟩,
    ⟨1, "Monday", "09:00", "Kenkere House", "Studio Barre 57", "T", "A", 20, 5, 0, false, false⟩,
    ⟨2, "Monday", "10:00", "Kenkere House", "Studio FIT", "T", "A", 20, 5, 0, false, false⟩,
    ⟨3, "Monday", "11:00", "Kenkere House", "Studio Cardio Barre", "T", "A", 20, 5, 0, false,
     false⟩], 4, [("T A", 80)], [(("T A", "Monday"), 80)], [(("T A", "Monday"), (true, false))]⟩

/-- The classes of one (location, day, time) cell, as filtered throughout
the scheduler phases. -/
def cellClasses (l : List ScheduledClass) (location day time : String) :
    List ScheduledClass :=
  l.filter fun cls => cls.location == location && cls.day == day && cls.time == time

/-- Every cell is under its location's parallel capacity and has pairwise
distinct class formats. -/
def CellInv (l : List ScheduledClass) : Prop :=
  ∀ location day time : String,
    (cellClasses l location day time).length ≤ maxParallelClasses location ∧
    ((cellClasses l location day time).map fun cls => cls.classFormat).Nodup

/-- The schedule ids are pairwise distinct and below the fresh-id counter. -/
def IdInv (s : SchedState) : Prop :=
  ((s.classes.map fun c => c.id)).Nodup ∧ ∀ c ∈ s.classes, c.id < s.nextId

/-- The hour-cap invariant: every instructor pair's scheduled sum is covered
by the weekly tracker entry of the rejoined name, every tracker entry is
within its cap, and scheduled first names are space-free. -/
def HInv (s : SchedState) : Prop :=
  (∀ f la : String, instructorWeeklySum s.classes f la ≤ alGet s.weekly (f ++ " " ++ la)) ∧
  (∀ k : String, alGet s.weekly k ≤ maxWeeklyHoursOf k) ∧
  (∀ c ∈ s.classes, ' ' ∉ c.teacherFirstName.data)

/-- A name free of the two inactive-teacher fragments. -/
def cleanName (t : String) : Prop :=
  strIncludes t "Nishanth" = false ∧ strIncludes t "Saniya" = false

/-- No scheduled class carries an inactive-fragment teacher name. -/
def NInv (s : SchedState) : Prop :=
  ∀ c ∈ s.classes, cleanName (fullName c)

/-- The numerator of a rational is the rational times its denominator. -/
theorem num_mul_den (a : ℚ) : (a.num : ℚ) = a * a.den := by
  have ha : (a.den : ℚ) ≠ 0 := Nat.cast_ne_zero.mpr a.den_nz
  exact (div_eq_iff ha).mp (Rat.num_div_den a)

/-- `qadd` is rational addition. -/
theorem qadd_eq (a b : ℚ) : qadd a b = a + b := by
  have hb : (b.den : ℚ) ≠ 0 := Nat.cast_ne_zero.mpr b.den_nz
  have ha : (a.den : ℚ) ≠ 0 := Nat.cast_ne_zero.mpr a.den_nz
  rw [qadd, Rat.divInt_eq_div]
  push_cast
  rw [div_eq_iff (mul_ne_zero ha hb), num_mul_den a, num_mul_den b]
  ring

/-- `qsub` is rational subtraction. -/
theorem qsub_eq (a b : ℚ) : qsub a b = a - b := by
  have hb : (b.den : ℚ) ≠ 0 := Nat.cast_ne_zero.mpr b.den_nz
  have ha : (a.den : ℚ) ≠ 0 := Nat.cast_ne_zero.mpr a.den_nz
  rw [qsub, Rat.divInt_eq_div]
  push_cast
  rw [div_eq_iff (mul_ne_zero ha hb), num_mul_den a, num_mul_den b]
  ring

/-- `qabs` is the rational absolute value. -/
theorem qabs_eq (q : ℚ) : qabs q = |q| := by
  have hd : (0 : ℚ) < q.den := by exact_mod_cast q.pos
  rw [qabs, Rat.divInt_eq_div]
  conv_rhs => rw [← Rat.num_div_den q]
  rw [abs_div, abs_of_pos hd]
  push_cast [Int.cast_natAbs]
  rfl

/-- `qdivNat` is division by a (nonzero) natural number. -/
theorem qdivNat_eq (a : ℚ) (n : Nat) (h : n ≠ 0) : qdivNat a n = a / n := by
  have ha : (a.den : ℚ) ≠ 0 := Nat.cast_ne_zero.mpr a.den_nz
  have hn : (n : ℚ) ≠ 0 := Nat.cast_ne_zero.mpr h
  rw [qdivNat, Rat.divInt_eq_div]
  push_cast
  rw [div_eq_div_iff (mul_ne_zero ha hn) hn, num_mul_den a]
  ring

/-- `jsMin` is `min`. -/
theorem jsMin_eq (a b : ℚ) : jsMin a b = min a b := by rw [jsMin, min_def]

/-! ## C1: the colliding-name counterexample, on the error-path model -/

/-- C1 counterexample, on the error-path model of the scheduler.  On the
bare two-record set `c1csv` the real source throws in Phase 0 (the first
seed teacher is not a tracker key) and returns no schedule.  On `c1csvE` —
the same two colliding teacher-name strings "Anisha" and "Anisha " plus
inert historic records that give every seed teacher a tracker entry — the
real run completes and the returned schedule assigns the single instructor
("Anisha", "") a weekly total of 30 hours (600 twentieths): each raw
name string is tracked as a separate 15-hour budget, refuting the claimed
cap. -/
theorem C1_counterexample :
    generateIntelligentScheduleE c1csv [] {} = none ∧
    (generateIntelligentScheduleE c1csvE [] {}).map
      (fun l => instructorWeeklySum l "Anisha" "") = some 600 ∧
    300 < 600 := by
  refine ⟨by decide, by decide, by decide⟩

/-- C3 counterexample: for the spec's own scenario (ten "Studio Mat 57"
records at Kwality House, Saturday 10:15, averaging 25), the top
recommendation returned by `getRecommendations` is "Studio Mat 57" with
priority 10 — not 5, and outside the claimed 1-5 priority band. -/
theorem C3_counterexample :
    ((getRecommendations c3csv "Saturday" "10:15" "Kwality House, Kemps Corner").head?.map
      fun r => (r.classFormat, r.priority)) = some ("Studio Mat 57", 10) ∧ 5 < 10 := by
  exact ⟨by decide, by decide⟩

/-- C4 counterexample: with `c4csv` the queried cell (Kenkere House,
Saturday, 10:15) has a historic record ("Studio Mat 57"), yet the
fallback ranker's top recommendation is "Studio Barre 57", a format that
never ran in that cell: the ranker never filters to the exact cell. -/
theorem C4_counterexample :
    (cellRecords c4csv "Saturday" "10:15" "Kenkere House" ≠ []) ∧
    ((getRecommendations c4csv "Saturday" "10:15" "Kenkere House").head?.map
      (·.classFormat)) = some "Studio Barre 57" ∧
    ((cellRecords c4csv "Saturday" "10:15" "Kenkere House").map
      (·.cleanedClass)).contains "Studio Barre 57" = false := by
  refine ⟨by decide, by decide, by decide⟩

/-- C6 counterexample: on `c6csv` the computed part of
`getTopPerformingClasses` consists — as a multiset, a fact independent of
how the implementation-defined sort arranges it — of exactly the three
groups Mat 57 (average 10, frequency 2), Barre 57 (9.6, 5) and Cardio
Barre (8.8, 9).  The claimed ordering is cyclic on them: Mat must precede
Cardio by average (gap 1.2 > 1.0), Cardio must precede Barre and Barre
must precede Mat by the within-1.0 frequency tie-break.  So no arrangement
of these groups — in particular not whichever order the engine produces
for the source comparator, which is non-transitive here — satisfies the
claimed sort order. -/
theorem C6_counterexample :
    ((getTopPerformingClasses c6csv 6 true).drop 10).Perm [c6gMat, c6gBarre, c6gCardio] ∧
    ∀ l : List TopPerformingClass, l.Perm [c6gMat, c6gBarre, c6gCardio] →
      ¬ List.Pairwise (fun a b => specTieOrdered a b = true) l := by
  refine ⟨by decide, ?_⟩
  intro l hl
  have hmem : l ∈ List.permutations' ([c6gMat, c6gBarre, c6gCardio] :
      List TopPerformingClass) :=
    List.mem_permutations'.mpr hl
  have hall : ∀ l2 ∈ List.permutations' ([c6gMat, c6gBarre, c6gCardio] :
      List TopPerformingClass),
      ¬ List.Pairwise (fun a b => specTieOrdered a b = true) l2 := by decide
  exact hall l hmem

/-- C8 counterexample, both divergences from the claim.  (a) On `c8csvA`
the cell's only format has historic cell average 3 (< 4), yet
`getBestClassForSlot` selects it (the source filters records with fewer
than 4 participants, it never requires the cell average to be ≥ 4) and the
Phase 1 sub-slot body commits it.  (b) On `c8csvB` with a cell already
holding the top-ranked format, the sub-slot body commits nothing, although
the next-ranked format is unused, eligible (average 9 ≥ 4) and a teacher
for it is assignable — the source never falls back to the next-ranked
format. -/
theorem C8_counterexample :
    (getBestClassForSlot c8csvA "Kwality House, Kemps Corner" "Monday" "09:30"
        (getDayGuidelines "Monday") =
      some ⟨"Studio Mat 57", Rat.divInt 5 1, Rat.divInt 0 1, 1, true⟩) ∧
    (getClassAverageForSlot c8csvA "Studio Mat 57" "Kwality House, Kemps Corner"
        "Monday" "09:30" none = (3, 2)) ∧
    ((3 : ℚ) < 4) ∧
    (((phase1SubSlotStep c8csvA (allTeachersOf c8csvA) (getDayGuidelines "Monday")
        "Monday" "Kwality House, Kemps Corner" "09:30" false
        (initialState, 0)).1.classes.map (·.classFormat)) = ["Studio Mat 57"]) ∧
    (phase1SubSlotStep c8csvB (allTeachersOf c8csvB) (getDayGuidelines "Monday")
        "Monday" "Kwality House, Kemps Corner" "09:30" false (c8state, 0) = (c8state, 0)) ∧
    (bestUnusedFormatSpec c8csvB "Kwality House, Kemps Corner" "Monday" "09:30"
        (getDayGuidelines "Monday") ["Studio Mat 57"] =
      some ⟨"Studio Cardio Barre", Rat.divInt 9 1, Rat.divInt 0 1, 2, false⟩) ∧
    (canAssignTeacher c8state "T B" "Monday" "09:30" 20 "Studio Cardio Barre" = true) := by
  refine ⟨by decide, by decide, by norm_num, by decide, by decide, by decide, by decide⟩

/-- C10 counterexample: a custom teacher named "Nishanth R" is returned by
`getUniqueTeachers` — the source filters the historic teacher names but
not the custom-teacher names, so the claimed unconditional exclusion is
false. -/
theorem C10_counterexample :
    getUniqueTeachers [] [⟨"Nishanth", "R"⟩] = ["Nishanth R"] ∧
    strIncludes "Nishanth R" "Nishanth" = true := by
  exact ⟨by decide, by decide⟩

/-! ## Substring reasoning for JavaScript `includes` -/

/-- `strIncludes` decides list infixhood of the pattern's characters. -/
theorem strIncludes_iff (s pat : String) :
    strIncludes s pat = true ↔ pat.data <:+: s.data := by
  rw [strIncludes, List.any_eq_true]
  constructor
  · rintro ⟨t, ht, hp⟩
    rw [List.mem_tails] at ht
    rw [List.isPrefixOf_iff_prefix] at hp
    exact hp.isInfix.trans ht.isInfix
  · rintro ⟨l₁, l₂, h⟩
    refine ⟨pat.data ++ l₂, ?_, ?_⟩
    · rw [List.mem_tails, ← h]
      exact ⟨l₁, by simp⟩
    · rw [List.isPrefixOf_iff_prefix]
      exact ⟨l₂, rfl⟩

/-- A substring of `a` is a substring of `a ++ b`. -/
theorem strIncludes_append_left (a b pat : String) (h : strIncludes a pat = true) :
    strIncludes (a ++ b) pat = true := by
  rw [strIncludes_iff] at h ⊢
  rw [String.data_append]
  exact h.trans (List.prefix_append a.data b.data).isInfix

/-- A substring of `b` is a substring of `a ++ b`. -/
theorem strIncludes_append_right (a b pat : String) (h : strIncludes b pat = true) :
    strIncludes (a ++ b) pat = true := by
  rw [strIncludes_iff] at h ⊢
  rw [String.data_append]
  exact h.trans (List.suffix_append a.data b.data).isInfix

/-! ## C5: validateTeacherHours -/

/-- C5: `validateTeacherHours` returns `isValid = false` exactly when the
teacher's current weekly sum plus the candidate's duration exceeds the cap
(10 h = 200 twentieths for a new-tier teacher, else 15 h = 300), and then
its error message mentions the weekly limit; when the new total does not
exceed the cap but is within 3 h (60 twentieths) of it the result is valid
with a warning and no error; otherwise it is valid with neither. -/
theorem C5_theorem (scheduledClasses : List ScheduledClass) (newClass : ScheduledClass) :
    ((validateTeacherHours scheduledClasses newClass).isValid = false ↔
      maxWeeklyHoursOf (fullName newClass) <
        teacherWeeklySum scheduledClasses (fullName newClass) + newClass.duration) ∧
    (maxWeeklyHoursOf (fullName newClass) <
        teacherWeeklySum scheduledClasses (fullName newClass) + newClass.duration →
      (validateTeacherHours scheduledClasses newClass).error.isSome = true ∧
      strIncludes ((validateTeacherHours scheduledClasses newClass).error.getD "")
        "weekly limit" = true) ∧
    (teacherWeeklySum scheduledClasses (fullName newClass) + newClass.duration ≤
        maxWeeklyHoursOf (fullName newClass) →
      maxWeeklyHoursOf (fullName newClass) - 60 <
        teacherWeeklySum scheduledClasses (fullName newClass) + newClass.duration →
      (validateTeacherHours scheduledClasses newClass).isValid = true ∧
      (validateTeacherHours scheduledClasses newClass).warning.isSome = true ∧
      (validateTeacherHours scheduledClasses newClass).error = none) ∧
    (teacherWeeklySum scheduledClasses (fullName newClass) + newClass.duration ≤
        maxWeeklyHoursOf (fullName newClass) - 60 →
      validateTeacherHours scheduledClasses newClass = ⟨true, none, none⟩) := by
  have hcap : 60 ≤ maxWeeklyHoursOf (fullName newClass) := by
    rw [maxWeeklyHoursOf]; split <;> omega
  rw [validateTeacherHours]
  simp only [teacherWeeklySum]
  split
  · rename_i hgt
    refine ⟨by simpa using hgt, fun _ => ⟨rfl, ?_⟩, fun hle _ => absurd hgt (by omega), 
      fun hle => absurd hgt (by omega)⟩
    show strIncludes (_ ++ _) "weekly limit" = true
    apply strIncludes_append_left
    apply strIncludes_append_left
    apply strIncludes_append_left
    apply strIncludes_append_left
    apply strIncludes_append_right
    decide
  · rename_i hng
    split
    · rename_i hwarn
      exact ⟨by simp; omega, fun h => absurd h hng,
        fun _ _ => ⟨rfl, rfl, rfl⟩, fun hle => absurd hwarn (by omega)⟩
    · rename_i hnw
      exact ⟨by simp; omega, fun h => absurd h hng,
        fun _ hlt => absurd hlt hnw, fun _ => rfl⟩

/-- C5 witness: the teacher ("T", "X") already booked for 15 hours is
rejected for one more hour, with an error mentioning the weekly limit. -/
theorem C5_witness :
    (validateTeacherHours c5sched c5new).isValid = false ∧
    strIncludes ((validateTeacherHours c5sched c5new).error.getD "") "weekly limit" = true :=
  ⟨(C5_theorem c5sched c5new).1.mpr (by decide),
   ((C5_theorem c5sched c5new).2.1 (by decide)).2⟩

/-! ## C7: the days-off rule in canAssignTeacher -/

/-- C7: an instructor already having assignments on five distinct days is
rejected by `canAssignTeacher` for any candidate on a further distinct day
(a day with zero tracked hours), regardless of the remaining weekly and
daily hour budgets, the format and the time. -/
theorem C7_theorem (s : SchedState) (teacherName day time : String) (duration : Nat)
    (classFormat : String)
    (h5 : 5 ≤ (weekDays.filter fun d => 0 < al2Get s.daily (teacherName, d)).length)
    (h0 : al2Get s.daily (teacherName, day) = 0) :
    canAssignTeacher s teacherName day time duration classFormat = false := by
  rw [canAssignTeacher]
  simp only [h0]
  split
  · rfl
  · split
    · rfl
    · split
      · rfl
      · split
        · rfl
        · rename_i hfinal
          exfalso
          apply hfinal
          simp [h5]

/-- C7 witness: with five working days tracked and an empty Saturday, the
assignment of a one-hour class is rejected although 10 weekly hours and the
whole Saturday budget remain free. -/
theorem C7_witness :
    (5 ≤ (weekDays.filter fun d => 0 < al2Get c7daily ("T X", d)).length) ∧
    al2Get c7daily ("T X", "Saturday") = 0 ∧
    alGet c7state.weekly "T X" + 20 ≤ 300 ∧
    canAssignTeacher c7state "T X" "Saturday" "09:00" 20 "Studio Mat 57" = false :=
  ⟨by decide, by decide, by decide,
   C7_theorem c7state "T X" "Saturday" "09:00" 20 "Studio Mat 57" (by decide) (by decide)⟩

theorem getRecommendations_eq (data : List ClassData) (day time location : String) :
    getRecommendations data day time location =
      ((fallbackStats data location).take 5).enum.map fun p =>
        ⟨p.2.classFormat, "Best Available",
         jsMin (Rat.divInt 9 10) (Rat.divInt p.2.frequency 10),
         jsRound p.2.avgParticipants, jsRound p.2.avgRevenue,
         10 - p.1 * 2⟩ := rfl

/-- C3 (amended): at most five recommendations, sorted by priority
descending; the i-th recommendation carries the i-th ranked statistic's
format, confidence `min(0.9, frequency/10)` and priority `10 - 2i`; and for
the spec's scenario the top recommendation is Studio Mat 57, priority 10. -/
theorem C3_amended_theorem (data : List ClassData) (day time location : String) :
    (getRecommendations data day time location).length ≤ 5 ∧
    List.Pairwise (fun a b => b.priority ≤ a.priority)
      (getRecommendations data day time location) ∧
    (∀ i r, (getRecommendations data day time location)[i]? = some r →
      ∃ st, (fallbackStats data location)[i]? = some st ∧
        r.classFormat = st.classFormat ∧
        r.confidence = min (9 / 10 : ℚ) ((st.frequency : ℚ) / 10) ∧
        r.priority = 10 - 2 * i) ∧
    ((getRecommendations c3csv "Saturday" "10:15" "Kwality House, Kemps Corner").head?.map
      (fun r => (r.classFormat, r.priority))) = some ("Studio Mat 57", 10) := by
  have hidx : ∀ i r, (getRecommendations data day time location)[i]? = some r →
      ∃ st, (fallbackStats data location)[i]? = some st ∧
        r.classFormat = st.classFormat ∧
        r.confidence = min (9 / 10 : ℚ) ((st.frequency : ℚ) / 10) ∧
        r.priority = 10 - 2 * i := by
    intro i r hr
    rw [getRecommendations_eq, List.getElem?_map, List.getElem?_enum] at hr
    cases htake : ((fallbackStats data location).take 5)[i]? with
    | none => rw [htake] at hr; exact Option.noConfusion hr
    | some st =>
      rw [htake] at hr
      injection hr with hr
      refine ⟨st, ?_, ?_⟩
      · rw [List.getElem?_take] at htake
        split at htake
        · exact htake
        · simp at htake
      · cases hr
        refine ⟨rfl, ?_, by show 10 - i * 2 = 10 - 2 * i; omega⟩
        show jsMin (Rat.divInt 9 10) (Rat.divInt st.frequency 10) = _
        rw [jsMin_eq, Rat.divInt_eq_div, Rat.divInt_eq_div]
        norm_num
  refine ⟨?_, ?_, hidx, by decide⟩
  · rw [getRecommendations_eq]
    simp [List.length_take]
  · rw [List.pairwise_iff_getElem]
    intro i j hi hj hij
    obtain ⟨sti, -, -, -, hpi⟩ := hidx i _ (List.getElem?_eq_getElem hi)
    obtain ⟨stj, -, -, -, hpj⟩ := hidx j _ (List.getElem?_eq_getElem hj)
    rw [hpi, hpj]
    omega

/-- C3 amended witness: instantiated at the scenario data. -/
theorem C3_amended_witness :
    ∃ st, (fallbackStats c3csv "Kwality House, Kemps Corner")[0]? = some st ∧
      ("Studio Mat 57" = st.classFormat) := by
  obtain ⟨h1, h2, h3, h4⟩ :=
    C3_amended_theorem c3csv "Saturday" "10:15" "Kwality House, Kemps Corner"
  obtain ⟨st, hst, hfmt, -, -⟩ :=
    h3 0 ⟨"Studio Mat 57", "Best Available", Rat.divInt 9 10, 25, 0, 10⟩ (by decide)
  exact ⟨st, hst, by simpa using hfmt⟩

/-! ## Membership lemmas for the JS-style collection helpers -/

/-- Membership in a stable insertion. -/
theorem mem_stableInsert {α : Type} (before : α → α → Bool) (x a : α) (l : List α) :
    a ∈ stableInsert before x l ↔ a = x ∨ a ∈ l := by
  induction l with
  | nil => simp [stableInsert]
  | cons y ys ih =>
    rw [stableInsert]
    split
    · rw [List.mem_cons, ih, List.mem_cons]
      tauto
    · simp only [List.mem_cons]

/-- Stable sorting permutes membership. -/
theorem mem_stableSort {α : Type} (before : α → α → Bool) (a : α) (l : List α) :
    a ∈ stableSort before l ↔ a ∈ l := by
  induction l with
  | nil => simp [stableSort]
  | cons x xs ih => rw [stableSort, mem_stableInsert, ih, List.mem_cons]

/-- Where an entry of `alUpdate` comes from. -/
theorem mem_alUpdate {β : Type} (m : List (String × β)) (k : String) (d : β) (f : β → β)
    (p : String × β) (hp : p ∈ alUpdate m k d f) :
    p ∈ m ∨ (p.1 = k ∧ (p.2 = f d ∨ ∃ v, (k, v) ∈ m ∧ p.2 = f v)) := by
  induction m with
  | nil =>
    rw [alUpdate] at hp
    rcases List.mem_singleton.mp hp with h
    right
    rw [h]
    exact ⟨rfl, Or.inl rfl⟩
  | cons q rest ih =>
    obtain ⟨k', v⟩ := q
    rw [alUpdate] at hp
    split at hp
    · rename_i hk
      rw [List.mem_cons] at hp
      rcases hp with h | h
      · right
        rw [h]
        refine ⟨rfl, Or.inr ⟨v, ?_, rfl⟩⟩
        rw [show k = k' from (beq_iff_eq.mp hk).symm]
        exact List.mem_cons_self _ _
      · exact Or.inl (List.mem_cons_of_mem _ h)
    · rw [List.mem_cons] at hp
      rcases hp with h | h
      · exact Or.inl (h ▸ List.mem_cons_self _ _)
      · rcases ih h with h' | ⟨h1, h2⟩
        · exact Or.inl (List.mem_cons_of_mem _ h')
        · refine Or.inr ⟨h1, ?_⟩
          rcases h2 with h2 | ⟨v', hv', h2⟩
          · exact Or.inl h2
          · exact Or.inr ⟨v', List.mem_cons_of_mem _ hv', h2⟩

/-- Invariant preservation through a fold of `alUpdate` group-by steps. -/
theorem foldl_alUpdate_inv {β γ : Type} (Inv : String × β → Prop)
    (key : γ → String) (dfl : γ → β) (upd : γ → β → β) :
    ∀ (l : List γ) (init : List (String × β)),
      (∀ p ∈ init, Inv p) →
      (∀ x ∈ l, Inv (key x, upd x (dfl x))) →
      (∀ x ∈ l, ∀ v, Inv (key x, v) → Inv (key x, upd x v)) →
      ∀ p ∈ l.foldl (fun acc x => alUpdate acc (key x) (dfl x) (upd x)) init, Inv p
  | [], init, hinit, _, _, p, hp => hinit p hp
  | x :: xs, init, hinit, hnew, hupd, p, hp => by
    rw [List.foldl_cons] at hp
    refine foldl_alUpdate_inv Inv key dfl upd xs _ ?_
      (fun y hy => hnew y (List.mem_cons_of_mem _ hy))
      (fun y hy => hupd y (List.mem_cons_of_mem _ hy)) p hp
    intro q hq
    rcases mem_alUpdate _ _ _ _ _ hq with h | ⟨h1, h2⟩
    · exact hinit q h
    · obtain ⟨a, b⟩ := q
      simp only at h1
      subst h1
      rcases h2 with h2 | ⟨v, hv, h2⟩
      · simp only at h2
        subst h2
        exact hnew x (List.mem_cons_self _ _)
      · simp only at h2
        subst h2
        exact hupd x (List.mem_cons_self _ _) v (hinit _ hv)

/-- Where an entry of a group-by fold comes from: either the initial
accumulator or a key of the grouped list. -/
theorem mem_foldl_alUpdate {β γ : Type} (key : γ → String) (dfl : γ → β) (upd : γ → β → β)
    (l : List γ) (init : List (String × β)) (p : String × β)
    (hp : p ∈ l.foldl (fun acc x => alUpdate acc (key x) (dfl x) (upd x)) init) :
    p ∈ init ∨ p.1 ∈ l.map key := by
  induction l generalizing init with
  | nil => exact Or.inl hp
  | cons x xs ih =>
    rw [List.foldl_cons] at hp
    rcases ih _ hp with h | h
    · rcases mem_alUpdate _ _ _ _ _ h with h' | ⟨h1, -⟩
      · exact Or.inl h'
      · exact Or.inr (by simp [h1])
    · exact Or.inr (List.mem_cons_of_mem _ h)

/-- Every statistic produced by `analyzeClassPerformance` carries a class
format occurring in the analysed data. -/
theorem analyzeClassPerformance_mem (data : List ClassData) (st : ClassPerfStat)
    (hst : st ∈ analyzeClassPerformance data) :
    st.classFormat ∈ data.map (·.cleanedClass) := by
  rw [analyzeClassPerformance, mem_stableSort, List.mem_map] at hst
  obtain ⟨p, hp, hmap⟩ := hst
  rcases mem_foldl_alUpdate (fun item => item.cleanedClass) _ _ data [] p hp with h | h
  · simp at h
  · rw [← hmap]
    exact h

/-- C4 (amended): the no-provider ranker ignores day and time entirely
(there is no exact-cell filtering stage); it ranks the location's records,
falling back to the global record set when the location has none; a data
gap is never an error — the result is always a list of at most five
recommendations whose formats all occur in the location's records when any
exist, else in the global set. -/
theorem C4_amended_theorem (data : List ClassData) (day time location : String) :
    (getRecommendations data day time location).length ≤ 5 ∧
    (∀ day2 time2, getRecommendations data day time location
      = getRecommendations data day2 time2 location) ∧
    (∀ r ∈ getRecommendations data day time location,
      r.classFormat ∈
        (if 0 < (data.filter fun item => item.location == location).length
         then data.filter fun item => item.location == location
         else data).map (·.cleanedClass)) := by
  refine ⟨?_, fun day2 time2 => rfl, ?_⟩
  · rw [getRecommendations_eq]
    simp [List.length_take]
  · intro r hr
    rw [getRecommendations_eq, List.mem_map] at hr
    obtain ⟨⟨i, st⟩, hmem, hmap⟩ := hr
    have hst : st ∈ fallbackStats data location := by
      have h1 := List.mk_mem_enum_iff_getElem?.mp hmem
      exact List.mem_of_mem_take (List.getElem?_mem h1)
    have hfmt : r.classFormat = st.classFormat := by rw [← hmap]
    rw [hfmt]
    rw [fallbackStats] at hst
    split at hst
    · rename_i hpos
      rw [if_pos (by omega)]
      exact analyzeClassPerformance_mem _ _ hst
    · rename_i hneg
      rw [if_neg (by omega)]
      exact analyzeClassPerformance_mem _ _ hst

/-- C4 amended witness: for the `c4csv` query, the top recommendation's
format occurs among the location's records. -/
theorem C4_amended_witness :
    "Studio Barre 57" ∈
      (if 0 < (c4csv.filter fun item => item.location == "Kenkere House").length
       then c4csv.filter fun item => item.location == "Kenkere House"
       else c4csv).map (·.cleanedClass) := by
  have h := (C4_amended_theorem c4csv "Saturday" "10:15" "Kenkere House").2.2
    ⟨"Studio Barre 57", "Best Available", Rat.divInt 1 2, 20, 0, 10⟩ (by decide)
  simpa using h

theorem getTopPerformingClasses_eq (csvData : List ClassData) (minAverage : ℚ)
    (includeTeacher : Bool) :
    getTopPerformingClasses csvData minAverage includeTeacher =
      jsDedupBy tpcKeyEq
        (seedTopClasses ++ computedTopClasses csvData minAverage includeTeacher) := rfl

/-! ## jsDedupBy lemmas -/

/-- The fold underlying `jsDedupBy` only ever appends elements of the
traversed list. -/
theorem jsDedupBy_foldl_extra {α : Type} (eqk : α → α → Bool) :
    ∀ (r acc : List α), ∃ extra,
      r.foldl (fun acc x => if acc.any (fun y => eqk y x) then acc else acc ++ [x]) acc
        = acc ++ extra ∧ ∀ x ∈ extra, x ∈ r
  | [], acc => ⟨[], by simp⟩
  | x :: xs, acc => by
    rw [List.foldl_cons]
    split
    · obtain ⟨extra, he, hm⟩ := jsDedupBy_foldl_extra eqk xs acc
      exact ⟨extra, he, fun y hy => List.mem_cons_of_mem _ (hm y hy)⟩
    · obtain ⟨extra, he, hm⟩ := jsDedupBy_foldl_extra eqk xs (acc ++ [x])
      refine ⟨x :: extra, by rw [he]; simp, ?_⟩
      intro y hy
      rcases List.mem_cons.mp hy with h | h
      · exact h ▸ List.mem_cons_self _ _
      · exact List.mem_cons_of_mem _ (hm y h)

/-- A pairwise `eqk`-distinct accumulator-plus-input is a fixpoint of the
dedup fold. -/
theorem jsDedupBy_foldl_of_pairwise {α : Type} (eqk : α → α → Bool) :
    ∀ (s acc : List α),
      List.Pairwise (fun a b => eqk a b = false) (acc ++ s) →
      s.foldl (fun acc x => if acc.any (fun y => eqk y x) then acc else acc ++ [x]) acc
        = acc ++ s
  | [], acc, _ => by simp
  | x :: s', acc, hpw => by
    rw [List.foldl_cons]
    have hnone : acc.any (fun y => eqk y x) = false := by
      rw [List.any_eq_false]
      intro y hy
      have := (List.pairwise_append.mp hpw).2.2 y hy x (List.mem_cons_self _ _)
      simp [this]
    rw [hnone]
    simp only [Bool.false_eq_true, if_false]
    have hpw' : List.Pairwise (fun a b => eqk a b = false) ((acc ++ [x]) ++ s') := by
      rw [List.append_assoc, List.singleton_append]
      exact hpw
    rw [jsDedupBy_foldl_of_pairwise eqk s' (acc ++ [x]) hpw']
    simp

/-- The dedup result is pairwise `eqk`-distinct. -/
theorem jsDedupBy_pairwise {α : Type} (eqk : α → α → Bool) (l : List α) :
    List.Pairwise (fun a b => eqk a b = false) (jsDedupBy eqk l) := by
  suffices h : ∀ (l acc : List α), List.Pairwise (fun a b => eqk a b = false) acc →
      List.Pairwise (fun a b => eqk a b = false)
        (l.foldl (fun acc x => if acc.any (fun y => eqk y x) then acc else acc ++ [x]) acc) by
    exact h l [] List.Pairwise.nil
  intro l
  induction l with
  | nil => exact fun acc h => h
  | cons x xs ih =>
    intro acc hacc
    rw [List.foldl_cons]
    split
    · exact ih acc hacc
    · rename_i hany
      refine ih (acc ++ [x]) ?_
      rw [List.pairwise_append]
      refine ⟨hacc, List.pairwise_singleton _ _, ?_⟩
      intro y hy z hz
      rw [List.mem_singleton.mp hz]
      simp only [Bool.not_eq_true] at hany
      exact Bool.eq_false_iff.mpr (List.any_eq_false.mp hany y hy)

/-! ## C6 amended -/

/-- C6 (amended): `getTopPerformingClasses` returns the ten curated seed
entries first (always, in their fixed order), followed only by computed
grouped statistics with count ≥ 2 and average ≥ minAverage; the whole list
is deduplicated by (format, location, day, time).  (The arrangement of the
computed part is implementation-defined — the source comparator is
non-transitive — and carries no sortedness guarantee; every assertion made
here is arrangement-independent.  See the counterexample.) -/
theorem C6_amended_theorem (csvData : List ClassData) (minAverage : ℚ)
    (includeTeacher : Bool) :
    ((getTopPerformingClasses csvData minAverage includeTeacher).take 10 = seedTopClasses) ∧
    (∀ c ∈ (getTopPerformingClasses csvData minAverage includeTeacher).drop 10,
      c ∈ computedTopClasses csvData minAverage includeTeacher ∧
      2 ≤ c.frequency ∧ minAverage ≤ c.avgParticipants) ∧
    List.Pairwise (fun a b => ¬(a.classFormat = b.classFormat ∧ a.location = b.location ∧
      a.day = b.day ∧ a.time = b.time))
      (getTopPerformingClasses csvData minAverage includeTeacher) := by
  have hseedpw : List.Pairwise (fun a b => tpcKeyEq a b = false) seedTopClasses := by decide
  obtain ⟨extra, hextra, hmem⟩ :=
    jsDedupBy_foldl_extra tpcKeyEq (computedTopClasses csvData minAverage includeTeacher)
      seedTopClasses
  have hsplit : getTopPerformingClasses csvData minAverage includeTeacher
      = seedTopClasses ++ extra := by
    rw [getTopPerformingClasses_eq, jsDedupBy, List.foldl_append,
      jsDedupBy_foldl_of_pairwise tpcKeyEq seedTopClasses [] (by simpa using hseedpw)]
    simpa using hextra
  have hlen : seedTopClasses.length = 10 := by decide
  have hcomputed : ∀ c ∈ computedTopClasses csvData minAverage includeTeacher,
      2 ≤ c.frequency ∧ minAverage ≤ c.avgParticipants := by
    intro c hc
    rw [computedTopClasses, mem_stableSort, List.mem_filter] at hc
    have := hc.2
    simp only [Bool.and_eq_true, decide_eq_true_eq] at this
    exact this
  refine ⟨?_, ?_, ?_⟩
  · rw [hsplit, ← hlen, List.take_left]
  · intro c hc
    rw [hsplit, ← hlen, List.drop_left] at hc
    have hcm := hmem c hc
    exact ⟨hcm, hcomputed c hcm⟩
  · have hpw := jsDedupBy_pairwise tpcKeyEq
      (seedTopClasses ++ computedTopClasses csvData minAverage includeTeacher)
    rw [← getTopPerformingClasses_eq] at hpw
    refine hpw.imp ?_
    intro a b hab ⟨h1, h2, h3, h4⟩
    rw [tpcKeyEq, h1, h2, h3, h4] at hab
    simp at hab

/-- C6 amended witness: instantiated on the `c6csv` data — the entry at
index 10 is a computed group meeting the count and average thresholds. -/
theorem C6_amended_witness :
    (⟨"Studio Mat 57", "Kenkere House", "Monday", "07:30", "T A",
      Rat.divInt 10 1, Rat.divInt 0 1, 2⟩ : TopPerformingClass)
      ∈ computedTopClasses c6csv 6 true ∧
    (2 : ℕ) ≤ 2 ∧ (6 : ℚ) ≤ Rat.divInt 10 1 := by
  have h := (C6_amended_theorem c6csv 6 true).2.1
    ⟨"Studio Mat 57", "Kenkere House", "Monday", "07:30", "T A",
      Rat.divInt 10 1, Rat.divInt 0 1, 2⟩ (by decide)
  exact ⟨h.1, h.2.1, by simpa using h.2.2⟩

theorem getBestClassForSlot_eq (csvData : List ClassData) (location day time : String)
    (guidelines : DayGuidelines) :
    getBestClassForSlot csvData location day time guidelines =
      if (csvData.filter fun item =>
          item.location == location && item.dayOfWeek == day
            && strIncludes item.classTime time
            && !isHostedClass item.cleanedClass
            && isClassAllowedAtLocation item.cleanedClass location
            && !(guidelines.avoid.contains item.cleanedClass)
            && 4 ≤ item.participants).isEmpty then none
      else (stableSort slotBefore (slotCandidates csvData location day time guidelines)).head? :=
  rfl

/-! ## Head-maximality of the stable sort -/

/-- Insertion preserves the descending chain of a comparator-sorted list. -/
theorem chain'_stableInsert {α : Type} (before : α → α → Bool)
    (hasym : ∀ a b, before a b = true → before b a = false) (x : α) :
    ∀ l : List α, List.Chain' (fun a b => before b a = false) l →
      List.Chain' (fun a b => before b a = false) (stableInsert before x l)
  | [], _ => List.chain'_singleton x
  | y :: ys, h => by
    rw [stableInsert]
    split
    · rename_i hyx
      rw [List.chain'_cons']
      refine ⟨?_, chain'_stableInsert before hasym x ys (List.Chain'.tail h)⟩
      intro z hz
      cases ys with
      | nil =>
        rw [stableInsert] at hz
        simp only [List.head?_cons, Option.mem_def, Option.some.injEq] at hz
        subst hz
        exact hasym y x hyx
      | cons y' ys' =>
        rw [stableInsert] at hz
        split at hz
        · simp only [List.head?_cons, Option.mem_def, Option.some.injEq] at hz
          subst hz
          exact (List.chain'_cons.mp h).1
        · simp only [List.head?_cons, Option.mem_def, Option.some.injEq] at hz
          subst hz
          exact hasym y x hyx
    · rename_i hyx
      rw [List.chain'_cons]
      exact ⟨Bool.eq_false_iff.mpr hyx, h⟩

/-- The stable sort of any list is a descending chain. -/
theorem chain'_stableSort {α : Type} (before : α → α → Bool)
    (hasym : ∀ a b, before a b = true → before b a = false) :
    ∀ l : List α, List.Chain' (fun a b => before b a = false) (stableSort before l)
  | [] => List.chain'_nil
  | x :: xs => chain'_stableInsert before hasym x _ (chain'_stableSort before hasym xs)

/-- With a negation-transitive comparator, the head of the stable sort is
maximal: no listed element compares strictly before it. -/
theorem stableSort_head_max {α : Type} (before : α → α → Bool)
    (hasym : ∀ a b, before a b = true → before b a = false)
    (hnegtrans : ∀ a b c, before b a = false → before c b = false → before c a = false)
    (l : List α) (b : α) (hb : (stableSort before l).head? = some b) :
    ∀ y ∈ stableSort before l, before y b = false := by
  have hchain := chain'_stableSort before hasym l
  haveI : IsTrans α (fun a c => before c a = false) :=
    ⟨fun a b c hab hbc => hnegtrans a b c hab hbc⟩
  have hpw : List.Pairwise (fun a c => before c a = false) (stableSort before l) :=
    List.chain'_iff_pairwise.mp hchain
  intro y hy
  cases hsort : stableSort before l with
  | nil => rw [hsort] at hy; cases hy
  | cons hd tl =>
    rw [hsort] at hb hy hpw
    have hhd : hd = b := by injection hb
    subst hhd
    rcases List.mem_cons.mp hy with h | h
    · subst h
      cases hyy : before y y with
      | false => rfl
      | true => exact absurd (hasym y y hyy) (by rw [hyy]; simp)
    · exact (List.pairwise_cons.mp hpw).1 y h

/-- The Phase 1 comparator is asymmetric. -/
theorem slotBefore_asymm (a b : RankedFormat) (h : slotBefore a b = true) :
    slotBefore b a = false := by
  rw [slotBefore] at h ⊢
  cases hA : a.isPriority <;> cases hB : b.isPriority <;>
    simp [hA, hB] at h ⊢ <;> exact le_of_lt h

/-- The Phase 1 comparator's negation is transitive. -/
theorem slotBefore_negtrans (a b c : RankedFormat) (hab : slotBefore b a = false)
    (hbc : slotBefore c b = false) : slotBefore c a = false := by
  rw [slotBefore] at hab hbc ⊢
  cases hA : a.isPriority <;> cases hB : b.isPriority <;> cases hC : c.isPriority <;>
    simp [hA, hB, hC] at hab hbc ⊢ <;> linarith

/-- Every Phase 1 candidate format has computed average at least 4 (each
surviving record contributes at least 4 participants), is not hosted, is
allowed at the location, is not avoid-listed, and its priority flag is the
day guideline's. -/
theorem slotCandidates_prop (csvData : List ClassData) (location day time : String)
    (guidelines : DayGuidelines) (x : RankedFormat)
    (hx : x ∈ slotCandidates csvData location day time guidelines) :
    4 ≤ x.avgParticipants ∧ isHostedClass x.classFormat = false ∧
    isClassAllowedAtLocation x.classFormat location = true ∧
    guidelines.avoid.contains x.classFormat = false ∧
    x.isPriority = guidelines.priority.contains x.classFormat := by
  rw [slotCandidates, List.mem_map] at hx
  obtain ⟨p, hp, hmap⟩ := hx
  have hInv : 4 * p.2.2.2 ≤ p.2.1 ∧ 0 < p.2.2.2 ∧
      isHostedClass p.1 = false ∧
      isClassAllowedAtLocation p.1 location = true ∧
      guidelines.avoid.contains p.1 = false := by
    refine foldl_alUpdate_inv
      (fun q => 4 * q.2.2.2 ≤ q.2.1 ∧ 0 < q.2.2.2 ∧
        isHostedClass q.1 = false ∧
        isClassAllowedAtLocation q.1 location = true ∧
        guidelines.avoid.contains q.1 = false)
      (fun item : ClassData => item.cleanedClass)
      (fun _ : ClassData => ((0 : Nat), (0 : ℚ), (0 : Nat)))
      (fun (item : ClassData) (st : Nat × ℚ × Nat) =>
        (st.1 + item.participants, qadd st.2.1 item.totalRevenue, st.2.2 + 1))
      _ [] (fun q hq => absurd hq (List.not_mem_nil q)) ?_ ?_ p hp
    · intro it hit
      have hpred := List.of_mem_filter hit
      simp only [Bool.and_eq_true, Bool.not_eq_true', decide_eq_true_eq] at hpred
      obtain ⟨⟨⟨⟨⟨⟨hA, hB⟩, hC⟩, hD⟩, hE⟩, hF⟩, hG⟩ := hpred
      refine ⟨?_, ?_, hD, hE, hF⟩
      · show 4 * (0 + 1) ≤ 0 + it.participants
        omega
      · show 0 < 0 + 1
        omega
    · intro it hit v hv
      have hpred := List.of_mem_filter hit
      simp only [Bool.and_eq_true, Bool.not_eq_true', decide_eq_true_eq] at hpred
      obtain ⟨⟨⟨⟨⟨⟨hA, hB⟩, hC⟩, hD⟩, hE⟩, hF⟩, hG⟩ := hpred
      obtain ⟨h1, h2, h3, h4, h5⟩ := hv
      have h1x : 4 * v.2.2 ≤ v.1 := h1
      refine ⟨?_, ?_, h3, h4, h5⟩
      · show 4 * (v.2.2 + 1) ≤ v.1 + it.participants
        omega
      · show 0 < v.2.2 + 1
        omega
  subst hmap
  obtain ⟨h1, h2, h3, h4, h5⟩ := hInv
  refine ⟨?_, h3, h4, h5, rfl⟩
  have hc : (0 : ℚ) < (p.2.2.2 : ℤ) := by exact_mod_cast h2
  rw [Rat.divInt_eq_div]
  rw [le_div_iff₀ (by exact_mod_cast h2)]
  push_cast
  have : (4 : ℚ) * (p.2.2.2 : ℚ) ≤ (p.2.1 : ℚ) := by exact_mod_cast h1
  linarith

/-- C8 (amended): the Phase 1 sub-slot ranker draws candidates from the
exact cell's records after dropping hosted, disallowed and avoid-listed
formats and individual records with fewer than 4 participants (so each
candidate's computed average is at least 4); the chosen head prefers
priority formats and maximises average among same-priority candidates; and
the step commits only the single top-ranked format - when the cell is
empty of candidates or the top format is already used there, the sub-slot
is skipped unchanged with no fallback; otherwise it either finds no
assignable teacher (unchanged) or commits exactly that format with an
assignable teacher. -/
theorem C8_amended_theorem (csvData : List ClassData) (allTeachers : List String)
    (guidelines : DayGuidelines) (day location time : String) (isPeak : Bool)
    (sc : SchedState × Nat) :
    (∀ b, getBestClassForSlot csvData location day time guidelines = some b →
      b ∈ slotCandidates csvData location day time guidelines ∧
      4 ≤ b.avgParticipants ∧
      isHostedClass b.classFormat = false ∧
      isClassAllowedAtLocation b.classFormat location = true ∧
      guidelines.avoid.contains b.classFormat = false ∧
      (∀ y ∈ slotCandidates csvData location day time guidelines,
        y.isPriority = true → b.isPriority = true) ∧
      (∀ y ∈ slotCandidates csvData location day time guidelines,
        y.isPriority = b.isPriority → y.avgParticipants ≤ b.avgParticipants)) ∧
    (getBestClassForSlot csvData location day time guidelines = none →
      phase1SubSlotStep csvData allTeachers guidelines day location time isPeak sc = sc) ∧
    (∀ b, getBestClassForSlot csvData location day time guidelines = some b →
      ((sc.1.classes.filter fun cls =>
          cls.location == location && cls.day == day && cls.time == time).map
        (·.classFormat)).contains b.classFormat = true →
      phase1SubSlotStep csvData allTeachers guidelines day location time isPeak sc = sc) ∧
    (∀ b, getBestClassForSlot csvData location day time guidelines = some b →
      ((sc.1.classes.filter fun cls =>
          cls.location == location && cls.day == day && cls.time == time).map
        (·.classFormat)).contains b.classFormat = false →
      phase1SubSlotStep csvData allTeachers guidelines day location time isPeak sc = sc ∨
      ∃ t, canAssignTeacher sc.1 t day time (getClassDuration b.classFormat)
          b.classFormat = true ∧
        phase1SubSlotStep csvData allTeachers guidelines day location time isPeak sc =
          (assignClass sc.1
            ⟨b.classFormat, location, day, time, b.avgParticipants, b.avgRevenue, false⟩ t,
           sc.2 + 1)) := by
  refine ⟨?_, ?_, ?_, ?_⟩
  · intro b hb
    rw [getBestClassForSlot_eq] at hb
    split at hb
    · cases hb
    · have hmem : b ∈ stableSort slotBefore
          (slotCandidates csvData location day time guidelines) :=
        List.mem_of_mem_head? hb
      have hcand := (mem_stableSort slotBefore b _).mp hmem
      have hmax := stableSort_head_max slotBefore slotBefore_asymm slotBefore_negtrans
        (slotCandidates csvData location day time guidelines) b hb
      obtain ⟨h1, h2, h3, h4, -⟩ := slotCandidates_prop csvData location day time
        guidelines b hcand
      refine ⟨hcand, h1, h2, h3, h4, ?_, ?_⟩
      · intro y hy hyp
        have hf := hmax y ((mem_stableSort slotBefore y _).mpr hy)
        by_contra hbp
        rw [Bool.not_eq_true] at hbp
        rw [slotBefore, hyp, hbp] at hf
        simp at hf
      · intro y hy hsame
        have hf := hmax y ((mem_stableSort slotBefore y _).mpr hy)
        rw [slotBefore, hsame] at hf
        cases hbp : b.isPriority <;> rw [hbp] at hf <;> simp at hf <;> exact hf
  · intro hb
    rw [phase1SubSlotStep, hb]
  · intro b hb hused
    rw [phase1SubSlotStep, hb]
    simp only [hused, if_true]
  · intro b hb hnu
    cases hg : getBestTeacherForClass csvData b.classFormat location day time with
    | none =>
      cases hf : (if isPeak then
            allTeachers.filter fun t => seniorTrainers.any fun st => strIncludes t st
          else allTeachers).find? fun teacher =>
            canAssignTeacher sc.1 teacher day time (getClassDuration b.classFormat)
              b.classFormat with
      | none =>
        left
        simp only [phase1SubSlotStep, hb, hnu, hg, hf, Bool.false_eq_true, if_false]
      | some t =>
        right
        refine ⟨t, by simpa using List.find?_some hf, ?_⟩
        simp only [phase1SubSlotStep, hb, hnu, hg, hf, Bool.false_eq_true, if_false]
    | some t =>
      by_cases hca : canAssignTeacher sc.1 t day time (getClassDuration b.classFormat)
          b.classFormat = true
      · right
        refine ⟨t, hca, ?_⟩
        simp only [phase1SubSlotStep, hb, hnu, hg, hca, Bool.false_eq_true, if_false,
          eq_self_iff_true, if_true]
      · have hca0 : canAssignTeacher sc.1 t day time (getClassDuration b.classFormat)
            b.classFormat = false := Bool.eq_false_iff.mpr hca
        cases hf : (if isPeak then
              allTeachers.filter fun t => seniorTrainers.any fun st => strIncludes t st
            else allTeachers).find? fun teacher =>
              canAssignTeacher sc.1 teacher day time (getClassDuration b.classFormat)
                b.classFormat with
        | none =>
          left
          simp only [phase1SubSlotStep, hb, hnu, hg, hca0, hf, Bool.false_eq_true, if_false]
        | some t2 =>
          right
          refine ⟨t2, by simpa using List.find?_some hf, ?_⟩
          simp only [phase1SubSlotStep, hb, hnu, hg, hca0, hf, Bool.false_eq_true, if_false]

/-- C8 amended witness: on the `c8csvB` cell whose state already holds the
top-ranked "Studio Mat 57", the ranker returns Mat 57 (average 10,
priority) and the sub-slot step leaves the state unchanged — no fallback
to the eligible second-ranked format. -/
theorem C8_amended_witness :
    getBestClassForSlot c8csvB "Kwality House, Kemps Corner" "Monday" "09:30"
        (getDayGuidelines "Monday") =
      some ⟨"Studio Mat 57", Rat.divInt 20 2, Rat.divInt 0 2, 2, true⟩ ∧
    4 ≤ (Rat.divInt 20 2 : ℚ) ∧
    phase1SubSlotStep c8csvB ["T A", "T B"] (getDayGuidelines "Monday") "Monday"
      "Kwality House, Kemps Corner" "09:30" false (c8state, 0) = (c8state, 0) := by
  have h := C8_amended_theorem c8csvB ["T A", "T B"] (getDayGuidelines "Monday")
    "Monday" "Kwality House, Kemps Corner" "09:30" false (c8state, 0)
  have hb : getBestClassForSlot c8csvB "Kwality House, Kemps Corner" "Monday" "09:30"
      (getDayGuidelines "Monday") =
      some ⟨"Studio Mat 57", Rat.divInt 20 2, Rat.divInt 0 2, 2, true⟩ := by decide
  refine ⟨hb, (h.1 _ hb).2.1, h.2.2.1 _ hb (by decide)⟩

/-! ## C9: Phase 5 as a chain of time-only balance moves -/

theorem listModify_length {α : Type} (f : α → α) :
    ∀ (i : Nat) (l : List α), (listModify f i l).length = l.length
  | i, [] => by cases i <;> rfl
  | 0, _ :: _ => rfl
  | n + 1, _ :: xs => congrArg (· + 1) (listModify_length f n xs)

theorem listModify_get?_self {α : Type} (f : α → α) :
    ∀ (i : Nat) (l : List α), (listModify f i l).get? i = (l.get? i).map f
  | _, [] => by simp [listModify]
  | 0, _ :: _ => rfl
  | n + 1, _ :: xs => by
    simp only [listModify, List.get?_cons_succ]
    exact listModify_get?_self f n xs

theorem listModify_get?_ne {α : Type} (f : α → α) :
    ∀ (i j : Nat) (l : List α), ¬j = i → (listModify f i l).get? j = l.get? j
  | _, _, [], _ => by simp [listModify]
  | 0, 0, _ :: _, h => absurd rfl h
  | 0, _ + 1, _ :: _, _ => by simp [listModify]
  | _ + 1, 0, _ :: _, _ => by simp [listModify]
  | i + 1, j + 1, _ :: xs, h => by
    simp only [listModify, List.get?_cons_succ]
    exact listModify_get?_ne f i j xs (by omega)

/-- What a successful `findIdx?` (with start offset) points at. -/
theorem findIdx?_some_spec {α : Type} (p : α → Bool) :
    ∀ (l : List α) (s i : Nat), List.findIdx? p l s = some i →
      s ≤ i ∧ ∃ c, l.get? (i - s) = some c ∧ p c = true
  | [], _, _, h => by exact absurd h (by simp)
  | x :: xs, s, i, h => by
    rw [List.findIdx?_cons] at h
    split at h
    · injection h with h
      subst h
      exact ⟨le_refl _, x, by simp, by assumption⟩
    · obtain ⟨hle, c, hc, hp⟩ := findIdx?_some_spec p xs (s + 1) i h
      refine ⟨by omega, c, ?_, hp⟩
      have his : i - s = (i - (s + 1)) + 1 := by omega
      rw [his, List.get?_cons_succ]
      exact hc

theorem timeOnly_refl : ∀ l : List ScheduledClass, TimeOnly l l
  | [] => List.Forall₂.nil
  | _ :: xs => List.Forall₂.cons rfl (timeOnly_refl xs)

/-- Time-only equivalence is preserved by a further time move. -/
theorem timeOnly_listModify (newTime : String) :
    ∀ (i : Nat) (l0 l : List ScheduledClass), TimeOnly l0 l →
      TimeOnly l0 (listModify (fun c => { c with time := newTime }) i l) := by
  intro i l0 l h
  induction h generalizing i with
  | nil => cases i <;> exact List.Forall₂.nil
  | cons hR hF2 ih =>
    rename_i a0 a t0 t
    cases i with
    | zero =>
      refine List.Forall₂.cons ?_ hF2
      rw [sameButTime] at hR ⊢
      rw [hR]
    | succ n => exact List.Forall₂.cons hR (ih n)

/-- Reading a position of a time-only-rewritten list. -/
theorem timeOnly_get? (l0 l : List ScheduledClass) (h : TimeOnly l0 l) (i : Nat)
    (c : ScheduledClass) (hc : l.get? i = some c) :
    ∃ c0, l0.get? i = some c0 ∧ c = { c0 with time := c.time } := by
  induction h generalizing i with
  | nil => simp at hc
  | cons hR hF2 ih =>
    cases i with
    | zero =>
      refine ⟨_, rfl, ?_⟩
      rw [List.get?_cons_zero] at hc
      injection hc with hc
      subst hc
      exact hR
    | succ n =>
      rw [List.get?_cons_succ] at hc
      obtain ⟨c0, hc0, he⟩ := ih n hc
      exact ⟨c0, by rw [List.get?_cons_succ]; exact hc0, he⟩

/-- One target-slot attempt of Phase 5: preserves time-only equivalence
with the snapshot, performs at most one `TimeMoveStep`, and leaves every
non-`classes` field of the state unchanged. -/
theorem phase5MoveStep_chain (location day : String) (tgt : String → Bool)
    (l0 : List ScheduledClass) (hnd : (l0.map fun c => c.id).Nodup)
    (cls : ScheduledClass) (hcls : cls ∈ l0)
    (hloc : cls.location = location) (hday : cls.day = day)
    (newTime : String) (htgt : tgt newTime = true)
    (sm : SchedState × Bool) (hinv : TimeOnly l0 sm.1.classes) :
    TimeOnly l0 (phase5MoveStep location day cls sm newTime).1.classes ∧
    Relation.ReflTransGen (TimeMoveStep tgt location day) sm.1.classes
      (phase5MoveStep location day cls sm newTime).1.classes ∧
    (phase5MoveStep location day cls sm newTime).1 =
      { sm.1 with classes := (phase5MoveStep location day cls sm newTime).1.classes } := by
  simp only [phase5MoveStep]
  split
  · exact ⟨hinv, Relation.ReflTransGen.refl, rfl⟩
  · split
    · rename_i hguard
      split
      · exact ⟨hinv, Relation.ReflTransGen.refl, rfl⟩
      · rename_i classIndex hfind
        obtain ⟨-, c, hc, hcid⟩ :=
          findIdx?_some_spec (fun c => c.id == cls.id) sm.1.classes 0 classIndex hfind
        rw [Nat.sub_zero] at hc
        simp only [Bool.and_eq_true, decide_eq_true_eq, Bool.not_eq_true'] at hguard
        have hceq : c = { cls with time := c.time } := by
          obtain ⟨c0, hc0, he⟩ := timeOnly_get? l0 sm.1.classes hinv classIndex c hc
          have hid : c0.id = cls.id := by
            have : c.id = cls.id := beq_iff_eq.mp hcid
            rw [he] at this
            exact this
          have hc0mem : c0 ∈ l0 := List.get?_mem hc0
          have hce : c0 = cls := List.inj_on_of_nodup_map hnd hc0mem hcls hid
          rw [he, hce]
        have hcfmt : c.classFormat = cls.classFormat := by rw [hceq]
        refine ⟨timeOnly_listModify newTime classIndex l0 sm.1.classes hinv, ?_, rfl⟩
        refine Relation.ReflTransGen.single ?_
        refine ⟨classIndex, newTime, c, hc, by rw [hceq, hloc], by rw [hceq, hday],
          htgt, hguard.1, ?_, rfl⟩
        rw [← hguard.2]
        congr 1
        funext x
        rw [hcfmt]
    · exact ⟨hinv, Relation.ReflTransGen.refl, rfl⟩

/-- The target-slot loop of Phase 5 for one excess class. -/
theorem phase5TargetFold_chain (location day : String) (tgt : String → Bool)
    (l0 : List ScheduledClass) (hnd : (l0.map fun c => c.id).Nodup)
    (cls : ScheduledClass) (hcls : cls ∈ l0)
    (hloc : cls.location = location) (hday : cls.day = day) :
    ∀ (targetSlots : List String), (∀ t ∈ targetSlots, tgt t = true) →
    ∀ (sm : SchedState × Bool), TimeOnly l0 sm.1.classes →
    TimeOnly l0 (targetSlots.foldl (phase5MoveStep location day cls) sm).1.classes ∧
    Relation.ReflTransGen (TimeMoveStep tgt location day) sm.1.classes
      (targetSlots.foldl (phase5MoveStep location day cls) sm).1.classes ∧
    (targetSlots.foldl (phase5MoveStep location day cls) sm).1 =
      { sm.1 with classes :=
          (targetSlots.foldl (phase5MoveStep location day cls) sm).1.classes }
  | [], _, sm, hinv => ⟨hinv, Relation.ReflTransGen.refl, rfl⟩
  | t :: ts, htgt, sm, hinv => by
    rw [List.foldl_cons]
    obtain ⟨h1, h2, h3⟩ := phase5MoveStep_chain location day tgt l0 hnd cls hcls hloc hday t
      (htgt t (List.mem_cons_self t ts)) sm hinv
    obtain ⟨h4, h5, h6⟩ := phase5TargetFold_chain location day tgt l0 hnd cls hcls hloc hday ts
      (fun u hu => htgt u (List.mem_cons_of_mem t hu))
      (phase5MoveStep location day cls sm t) h1
    refine ⟨h4, h2.trans h5, ?_⟩
    rw [h6, h3]

/-- The excess-class loop of Phase 5 for one (location, day). -/
theorem phase5ExcessFold_chain (location day : String) (tgt : String → Bool)
    (l0 : List ScheduledClass) (hnd : (l0.map fun c => c.id).Nodup)
    (targetSlots : List String) (htgt : ∀ t ∈ targetSlots, tgt t = true) :
    ∀ (excess : List ScheduledClass),
      (∀ c ∈ excess, c ∈ l0 ∧ c.location = location ∧ c.day = day) →
    ∀ (s : SchedState), TimeOnly l0 s.classes →
    TimeOnly l0 ((excess.foldl (fun s' cls =>
      (targetSlots.foldl (phase5MoveStep location day cls) (s', false)).1) s)).classes ∧
    Relation.ReflTransGen (TimeMoveStep tgt location day) s.classes
      ((excess.foldl (fun s' cls =>
        (targetSlots.foldl (phase5MoveStep location day cls) (s', false)).1) s)).classes ∧
    (excess.foldl (fun s' cls =>
      (targetSlots.foldl (phase5MoveStep location day cls) (s', false)).1) s) =
      { s with classes := (excess.foldl (fun s' cls =>
          (targetSlots.foldl (phase5MoveStep location day cls) (s', false)).1) s).classes }
  | [], _, s, hinv => ⟨hinv, Relation.ReflTransGen.refl, rfl⟩
  | cls :: rest, hex, s, hinv => by
    rw [List.foldl_cons]
    obtain ⟨hm, hl, hd⟩ := hex cls (List.mem_cons_self cls rest)
    obtain ⟨h1, h2, h3⟩ := phase5TargetFold_chain location day tgt l0 hnd cls
      hm hl hd targetSlots htgt (s, false) hinv
    obtain ⟨h4, h5, h6⟩ := phase5ExcessFold_chain location day tgt l0 hnd targetSlots htgt
      rest (fun c hc => hex c (List.mem_cons_of_mem cls hc))
      (targetSlots.foldl (phase5MoveStep location day cls) (s, false)).1 h1
    refine ⟨h4, h2.trans h5, ?_⟩
    rw [h6, h3]

/-- A Phase 5 balancing pass changes only the `classes` list, by a chain
of time moves into the underrepresented shift. -/
theorem phase5LocDay_spec (s : SchedState) (location day : String)
    (hnd : (s.classes.map fun c => c.id).Nodup) : phase5LocDay s location day =
      { s with classes := (phase5LocDay s location day).classes } ∧
      Relation.ReflTransGen
        (TimeMoveStep (fun t =>
          if (getShiftBalance s.classes location day).2
              < (getShiftBalance s.classes location day).1
          then isEveningSlot t else isMorningSlot t) location day)
        s.classes (phase5LocDay s location day).classes := by
    simp only [phase5LocDay]
    split
    · have hfold := phase5ExcessFold_chain location day
        (fun t =>
          if (getShiftBalance s.classes location day).2
              < (getShiftBalance s.classes location day).1
          then isEveningSlot t else isMorningSlot t)
        s.classes hnd
        ((getAvailableTimeSlots day).filter fun time =>
          if (getShiftBalance s.classes location day).2
              < (getShiftBalance s.classes location day).1
          then isEveningSlot time else isMorningSlot time)
        (fun t ht => by have h9 := List.of_mem_filter ht; exact h9)
        ((s.classes.filter fun cls =>
          cls.location == location && cls.day == day &&
            (if (getShiftBalance s.classes location day).2
                < (getShiftBalance s.classes location day).1
             then isMorningSlot cls.time else isEveningSlot cls.time)).take
          ((max (getShiftBalance s.classes location day).1
              (getShiftBalance s.classes location day).2 -
            min (getShiftBalance s.classes location day).1
              (getShiftBalance s.classes location day).2 + 1) / 2))
        (fun c hc => by
          have hcf := List.mem_of_mem_take hc
          have hp := List.of_mem_filter hcf
          simp only [Bool.and_eq_true, beq_iff_eq] at hp
          exact ⟨List.mem_of_mem_filter hcf, hp.1.1, hp.1.2⟩)
        s (timeOnly_refl s.classes)
      exact ⟨hfold.2.2, hfold.2.1⟩
    · exact ⟨rfl, Relation.ReflTransGen.refl⟩

/-- C9: a Phase 5 balancing pass only performs time moves: the returned
state differs from the input only in the `classes` list; that list is
reached from the input by a chain of `TimeMoveStep`s whose target slot lies
in the underrepresented shift, is below the location's parallel capacity
and holds no class of the moved format; and every such step rewrites
exactly one position's `time` field, leaving every other field and every
other position unchanged. -/
theorem C9_theorem (s : SchedState) (location day : String)
    (hnd : (s.classes.map fun c => c.id).Nodup) :
    phase5LocDay s location day =
      { s with classes := (phase5LocDay s location day).classes } ∧
    Relation.ReflTransGen
      (TimeMoveStep (fun t =>
        if (getShiftBalance s.classes location day).2
            < (getShiftBalance s.classes location day).1
        then isEveningSlot t else isMorningSlot t) location day)
      s.classes (phase5LocDay s location day).classes ∧
    (∀ tg l l2, TimeMoveStep tg location day l l2 →
      ∃ i newTime cls, l.get? i = some cls ∧ tg newTime = true ∧
        cls.location = location ∧ cls.day = day ∧
        (∀ j, ¬j = i → l2.get? j = l.get? j) ∧
        l2.get? i = some ⟨cls.id, cls.day, newTime, cls.location, cls.classFormat,
          cls.teacherFirstName, cls.teacherLastName, cls.duration, cls.participants,
          cls.revenue, cls.isTopPerformer, cls.isPrivate⟩) := by
  have hmain := phase5LocDay_spec s location day hnd
  refine ⟨hmain.1, hmain.2, ?_⟩
  intro tg l l2 h
  obtain ⟨i, newTime, cls, h1, hL, hD, h2, h3, h4, h5⟩ := h
  subst h5
  refine ⟨i, newTime, cls, h1, h2, hL, hD, ?_, ?_⟩
  · intro j hj
    exact listModify_get?_ne _ i j l hj
  · rw [listModify_get?_self, h1]
    rfl

/-- C9 witness: the `c9state` pass (four morning classes, imbalance 4)
satisfies the Phase 5 move characterization. -/
theorem C9_witness :
    phase5LocDay c9state "Kenkere House" "Monday" =
      { c9state with classes := (phase5LocDay c9state "Kenkere House" "Monday").classes } ∧
    Relation.ReflTransGen
      (TimeMoveStep (fun t =>
        if (getShiftBalance c9state.classes "Kenkere House" "Monday").2
            < (getShiftBalance c9state.classes "Kenkere House" "Monday").1
        then isEveningSlot t else isMorningSlot t) "Kenkere House" "Monday")
      c9state.classes (phase5LocDay c9state "Kenkere House" "Monday").classes ∧
    (∀ tg l l2, TimeMoveStep tg "Kenkere House" "Monday" l l2 →
      ∃ i newTime cls, l.get? i = some cls ∧ tg newTime = true ∧
        cls.location = "Kenkere House" ∧ cls.day = "Monday" ∧
        (∀ j, ¬j = i → l2.get? j = l.get? j) ∧
        l2.get? i = some ⟨cls.id, cls.day, newTime, cls.location, cls.classFormat,
          cls.teacherFirstName, cls.teacherLastName, cls.duration, cls.participants,
          cls.revenue, cls.isTopPerformer, cls.isPrivate⟩) :=
  C9_theorem c9state "Kenkere House" "Monday" (by decide)

/-! ## C2: the per-cell capacity and format-distinctness invariant -/

theorem foldl_pres {σ γ : Type} (P : σ → Prop) (f : σ → γ → σ)
    (hf : ∀ s x, P s → P (f s x)) : ∀ (l : List γ) (s : σ), P s → P (l.foldl f s)
  | [], _, h => h
  | x :: xs, s, h => foldl_pres P f hf xs (f s x) (hf s x h)

theorem cellClasses_append (l1 l2 : List ScheduledClass) (location day time : String) :
    cellClasses (l1 ++ l2) location day time =
      cellClasses l1 location day time ++ cellClasses l2 location day time :=
  List.filter_append _ _

theorem two_le_maxParallelClasses (location : String) : 2 ≤ maxParallelClasses location := by
  rw [maxParallelClasses]
  split <;> omega

theorem any_beq_false_not_mem (l : List ScheduledClass) (fmt : String)
    (h : (l.any fun cls => cls.classFormat == fmt) = false) :
    fmt ∉ l.map fun c => c.classFormat := by
  intro hmem
  rw [List.mem_map] at hmem
  obtain ⟨c, hc, he⟩ := hmem
  exact (List.any_eq_false.mp h c hc) (beq_iff_eq.mpr he)

theorem contains_false_not_mem (l : List String) (x : String)
    (h : l.contains x = false) : x ∉ l := by
  intro hm
  have h2 : l.contains x = true := List.elem_eq_true_of_mem hm
  rw [h2] at h
  cases h

/-- Appending one class to its own open, format-fresh cell preserves the
cell invariant. -/
theorem cellInv_append_one (l : List ScheduledClass) (c : ScheduledClass)
    (h : CellInv l)
    (hcap : (cellClasses l c.location c.day c.time).length < maxParallelClasses c.location)
    (hfmt : c.classFormat ∉
      (cellClasses l c.location c.day c.time).map fun x => x.classFormat) :
    CellInv (l ++ [c]) := by
  intro L D T
  rw [cellClasses_append]
  by_cases hp : (c.location == L && c.day == D && c.time == T) = true
  · have hcell : cellClasses [c] L D T = [c] := by
      rw [cellClasses, List.filter_cons, if_pos hp]
      rfl
    rw [hcell]
    simp only [Bool.and_eq_true, beq_iff_eq] at hp
    obtain ⟨⟨hL, hD⟩, hT⟩ := hp
    subst hL; subst hD; subst hT
    obtain ⟨h1, h2⟩ := h c.location c.day c.time
    constructor
    · rw [List.length_append, List.length_singleton]
      omega
    · rw [List.map_append]
      refine List.nodup_middle.mpr (List.nodup_cons.mpr ⟨?_, ?_⟩)
      · simpa using hfmt
      · simpa using h2
  · have hcell : cellClasses [c] L D T = [] := by
      rw [cellClasses, List.filter_cons, if_neg hp]
      rfl
    rw [hcell, List.append_nil]
    exact h L D T

/-- A list whose (location, day, time) keys are pairwise distinct satisfies
the cell invariant. -/
theorem cellInv_of_keys_nodup (l : List ScheduledClass)
    (h : (l.map fun c => (c.location, c.day, c.time)).Nodup) : CellInv l := by
  intro L D T
  have hsub := List.filter_sublist
    (p := fun cls => cls.location == L && cls.day == D && cls.time == T) l
  have hnd : ((cellClasses l L D T).map fun c => (c.location, c.day, c.time)).Nodup :=
    (hsub.map _).nodup h
  have hall : ∀ x ∈ cellClasses l L D T, (x.location, x.day, x.time) = (L, D, T) := by
    intro x hx
    have hpx := List.of_mem_filter hx
    simp only [Bool.and_eq_true, beq_iff_eq] at hpx
    rw [hpx.1.1, hpx.1.2, hpx.2]
  have hlen : (cellClasses l L D T).length ≤ 1 := by
    cases hcell : cellClasses l L D T with
    | nil => simp
    | cons a bs =>
      cases hbs : bs with
      | nil => simp
      | cons b cs =>
        exfalso
        rw [hcell, hbs] at hnd hall
        have ha := hall a (List.mem_cons_self _ _)
        have hb := hall b (List.mem_cons_of_mem _ (List.mem_cons_self _ _))
        rw [List.map_cons, List.map_cons, List.nodup_cons] at hnd
        exact hnd.1 (by rw [ha, ← hb]; exact List.mem_cons_self _ _)
  constructor
  · exact le_trans hlen (le_trans (by omega) (two_le_maxParallelClasses L))
  · cases hcell : cellClasses l L D T with
    | nil => simp
    | cons a bs =>
      rw [hcell] at hlen
      have : bs = [] := by
        cases bs with
        | nil => rfl
        | cons x xs => simp at hlen
      subst this
      simp

theorem get?_decomp {α : Type} :
    ∀ (i : Nat) (l : List α) (c : α), l.get? i = some c →
      l = l.take i ++ c :: l.drop (i + 1)
  | _, [], _, h => by cases h
  | 0, x :: xs, c, h => by
    injection h with h
    subst h
    rfl
  | i + 1, x :: xs, c, h =>
    congrArg (x :: ·) (get?_decomp i xs c h)

theorem listModify_decomp {α : Type} (f : α → α) :
    ∀ (i : Nat) (l : List α) (c : α), l.get? i = some c →
      listModify f i l = l.take i ++ f c :: l.drop (i + 1)
  | _, [], _, h => by cases h
  | 0, x :: xs, c, h => by
    injection h with h
    subst h
    rfl
  | i + 1, x :: xs, c, h =>
    congrArg (x :: ·) (listModify_decomp f i xs c h)

theorem listModify_oob {α : Type} (f : α → α) :
    ∀ (i : Nat) (l : List α), l.get? i = none → listModify f i l = l
  | i, [], _ => by cases i <;> rfl
  | 0, x :: xs, h => by cases h
  | i + 1, x :: xs, h =>
    congrArg (x :: ·) (listModify_oob f i xs h)

theorem map_listModify {α β : Type} (g : α → β) (f : α → α) (hgf : ∀ x, g (f x) = g x) :
    ∀ (i : Nat) (l : List α), (listModify f i l).map g = l.map g
  | i, [] => by cases i <;> rfl
  | 0, x :: xs => by
    rw [listModify, List.map_cons, List.map_cons, hgf]
  | i + 1, x :: xs =>
    congrArg (g x :: ·) (map_listModify g f hgf i xs)

/-- Replacing one class by another with the same cell key and format
preserves the cell invariant. -/
theorem cellInv_replace (A B : List ScheduledClass) (c c2 : ScheduledClass)
    (hL : c2.location = c.location) (hD : c2.day = c.day) (hT : c2.time = c.time)
    (hF : c2.classFormat = c.classFormat)
    (h : CellInv (A ++ c :: B)) : CellInv (A ++ c2 :: B) := by
  intro L D T
  obtain ⟨h1, h2⟩ := h L D T
  rw [cellClasses, List.filter_append, List.filter_cons] at h1 h2 ⊢
  rw [hL, hD, hT]
  split
  · rename_i hp
    rw [if_pos hp] at h1 h2
    constructor
    · simpa [hF] using h1
    · simpa [hF] using h2
  · rename_i hp
    rw [if_neg hp] at h1 h2
    exact ⟨h1, h2⟩

/-- Moving one class to a target slot that is under capacity and free of
the class's format preserves the cell invariant. -/
theorem cellInv_move (A B : List ScheduledClass) (c : ScheduledClass) (newTime : String)
    (h : CellInv (A ++ c :: B))
    (hcap : (cellClasses (A ++ c :: B) c.location c.day newTime).length
        < maxParallelClasses c.location)
    (hfmt : c.classFormat ∉
      (cellClasses (A ++ c :: B) c.location c.day newTime).map fun x => x.classFormat) :
    CellInv (A ++ { c with time := newTime } :: B) := by
  have hcnot : (c.location == c.location && c.day == c.day && c.time == newTime) = false := by
    by_contra hcn
    rw [Bool.not_eq_false, Bool.and_eq_true, Bool.and_eq_true] at hcn
    apply hfmt
    rw [List.mem_map]
    refine ⟨c, ?_, rfl⟩
    rw [cellClasses, List.mem_filter]
    exact ⟨List.mem_append_right A (List.mem_cons_self c B),
      by rw [Bool.and_eq_true, Bool.and_eq_true]; exact hcn⟩
  intro L D T
  by_cases hp2 : c.location = L ∧ c.day = D ∧ newTime = T
  · obtain ⟨hL, hD, hT⟩ := hp2
    subst hL; subst hD; subst hT
    rw [cellClasses, List.filter_append, List.filter_cons] at hcap hfmt ⊢
    rw [if_neg (by rw [hcnot]; exact Bool.false_ne_true)] at hcap hfmt
    rw [if_pos (by simp)]
    constructor
    · rw [List.length_append, List.length_cons]
      rw [List.length_append] at hcap
      omega
    · have h2 := (h c.location c.day newTime).2
      rw [cellClasses, List.filter_append, List.filter_cons,
        if_neg (by rw [hcnot]; exact Bool.false_ne_true)] at h2
      rw [List.map_append, List.map_cons]
      refine List.nodup_middle.mpr (List.nodup_cons.mpr ⟨?_, ?_⟩)
      · show c.classFormat ∉ _
        rw [List.map_append] at hfmt
        exact hfmt
      · rw [← List.map_append]
        exact h2
  · obtain ⟨h1, h2⟩ := h L D T
    rw [cellClasses, List.filter_append, List.filter_cons] at h1 h2 ⊢
    have hnew : (({ c with time := newTime } : ScheduledClass).location == L &&
        ({ c with time := newTime } : ScheduledClass).day == D &&
        ({ c with time := newTime } : ScheduledClass).time == T) = false := by
      by_contra hq
      rw [Bool.not_eq_false, Bool.and_eq_true, Bool.and_eq_true] at hq
      exact hp2 ⟨beq_iff_eq.mp hq.1.1, beq_iff_eq.mp hq.1.2, beq_iff_eq.mp hq.2⟩
    rw [if_neg (by rw [hnew]; exact Bool.false_ne_true)]
    split at h1
    · rename_i hpc
      rw [if_pos hpc] at h2
      refine ⟨?_, ?_⟩
      · rw [List.length_append]
        rw [List.length_append, List.length_cons] at h1
        omega
      · rw [List.map_append]
        rw [List.map_append, List.map_cons] at h2
        exact (List.Sublist.append_left (List.sublist_cons_self _ _) _).nodup h2
    · rename_i hpc
      rw [if_neg hpc] at h2
      refine ⟨h1, ?_⟩
      rw [List.map_append]
      rw [List.map_append] at h2
      exact h2

theorem idInv_of_map_eq (s s2 : SchedState)
    (hm : s2.classes.map (fun c => c.id) = s.classes.map fun c => c.id)
    (hn : s2.nextId = s.nextId) (h : IdInv s) : IdInv s2 := by
  refine ⟨hm ▸ h.1, ?_⟩
  intro c hc
  have hmem : c.id ∈ s2.classes.map fun c => c.id := List.mem_map_of_mem _ hc
  rw [hm] at hmem
  obtain ⟨c0, hc0, he⟩ := List.mem_map.mp hmem
  rw [hn, ← he]
  exact h.2 c0 hc0

/-- `assignClass` always preserves the id invariant. -/
theorem assignClass_idInv (s : SchedState) (data : AssignData) (t : String)
    (h : IdInv s) : IdInv (assignClass s data t) := by
  obtain ⟨hnd, hlt⟩ := h
  constructor
  · rw [assignClass]
    simp only [List.map_append, List.map_cons, List.map_nil]
    refine List.nodup_middle.mpr (List.nodup_cons.mpr ⟨?_, by simpa using hnd⟩)
    intro hmem
    rw [List.append_nil, List.mem_map] at hmem
    obtain ⟨c0, hc0, he⟩ := hmem
    exact absurd he (Nat.ne_of_lt (hlt c0 hc0))
  · intro c hc
    rw [assignClass] at hc
    simp only [List.mem_append, List.mem_cons] at hc
    rcases hc with hc | hc | hc
    · exact Nat.lt_succ_of_lt (hlt c hc)
    · rw [hc]
      exact Nat.lt_succ_self _
    · cases hc

/-- `assignClass` preserves both invariants when the target cell is open
and free of the class's format. -/
theorem assignClass_inv (s : SchedState) (data : AssignData) (t : String)
    (h : CellInv s.classes ∧ IdInv s)
    (hcap : (cellClasses s.classes data.location data.day data.time).length
      < maxParallelClasses data.location)
    (hfmt : data.classFormat ∉
      (cellClasses s.classes data.location data.day data.time).map fun x => x.classFormat) :
    CellInv (assignClass s data t).classes ∧ IdInv (assignClass s data t) :=
  ⟨cellInv_append_one s.classes _ h.1 hcap hfmt, assignClass_idInv s data t h.2⟩

/-- `phase0Step` preserves the id invariant. -/
theorem phase0Step_idInv (options : ScheduleOptions) (s : SchedState)
    (d : DefaultTopClass) (h : IdInv s) : IdInv (phase0Step options s d) := by
  rw [phase0Step]
  split
  · exact h
  · split
    · exact assignClass_idInv _ _ _ h
    · exact h

/-- The cell keys added by Phase 0 form a sublist of the curated seed keys. -/
theorem phase0_keys (options : ScheduleOptions) :
    ∀ (seeds : List DefaultTopClass) (s : SchedState),
      ∃ t, (seeds.foldl (phase0Step options) s).classes.map
          (fun c => (c.location, c.day, c.time))
        = s.classes.map (fun c => (c.location, c.day, c.time)) ++ t ∧
        List.Sublist t (seeds.map fun d => (d.location, d.day, d.time))
  | [], s => ⟨[], by simp, List.nil_sublist _⟩
  | d :: ds, s => by
    rw [List.foldl_cons]
    obtain ⟨t, ht, hsub⟩ := phase0_keys options ds (phase0Step options s d)
    have hcase : (phase0Step options s d).classes = s.classes ∨
        (phase0Step options s d).classes.map (fun c => (c.location, c.day, c.time)) =
          s.classes.map (fun c => (c.location, c.day, c.time))
            ++ [(d.location, d.day, d.time)] := by
      rw [phase0Step]
      split
      · exact Or.inl rfl
      · split
        · refine Or.inr ?_
          rw [assignClass]
          simp
        · exact Or.inl rfl
    rcases hcase with hcase | hcase
    · rw [hcase] at ht
      exact ⟨t, ht, List.Sublist.cons _ hsub⟩
    · rw [hcase, List.append_assoc] at ht
      exact ⟨(d.location, d.day, d.time) :: t, ht, List.Sublist.cons₂ _ hsub⟩

/-- After Phase 0 from the empty state, both invariants hold. -/
theorem phase0_inv (options : ScheduleOptions) :
    CellInv (phase0 options initialState).classes ∧ IdInv (phase0 options initialState) := by
  constructor
  · obtain ⟨t, ht, hsub⟩ := phase0_keys options getDefaultTopClasses initialState
    refine cellInv_of_keys_nodup _ ?_
    rw [phase0, ht]
    have hseed : ((getDefaultTopClasses.map fun d => (d.location, d.day, d.time))).Nodup := by
      decide
    simpa using hsub.nodup hseed
  · exact foldl_pres IdInv (phase0Step options) (fun s x => phase0Step_idInv options s x)
      getDefaultTopClasses initialState ⟨List.nodup_nil, by intro c hc; cases hc⟩

/-- Phase 1, one sub-slot: either the state is untouched or one class is
committed via `assignClass` into the cell, with a format not yet there. -/
theorem phase1SubSlotStep_shape (csvData : List ClassData) (allTeachers : List String)
    (guidelines : DayGuidelines) (day location time : String) (isPeak : Bool)
    (sc : SchedState × Nat) :
    (phase1SubSlotStep csvData allTeachers guidelines day location time isPeak sc).1 = sc.1 ∨
    ∃ (b : RankedFormat) (t : String),
      ((cellClasses sc.1.classes location day time).map fun x => x.classFormat).contains
        b.classFormat = false ∧
      (phase1SubSlotStep csvData allTeachers guidelines day location time isPeak sc).1 =
        assignClass sc.1
          ⟨b.classFormat, location, day, time, b.avgParticipants, b.avgRevenue, false⟩ t := by
  cases hb : getBestClassForSlot csvData location day time guidelines with
  | none =>
    left
    simp only [phase1SubSlotStep, hb]
  | some b =>
    by_cases hcc : ((sc.1.classes.filter fun cls =>
        cls.location == location && cls.day == day && cls.time == time).map
          fun x => x.classFormat).contains b.classFormat = true
    · left
      simp only [phase1SubSlotStep, hb, hcc, eq_self_iff_true, if_true]
    · have hc0 : ((sc.1.classes.filter fun cls =>
          cls.location == location && cls.day == day && cls.time == time).map
            fun x => x.classFormat).contains b.classFormat = false :=
        Bool.eq_false_iff.mpr hcc
      cases hg : getBestTeacherForClass csvData b.classFormat location day time with
      | none =>
        cases hf : (if isPeak then
              allTeachers.filter fun t => seniorTrainers.any fun st => strIncludes t st
            else allTeachers).find? fun teacher =>
              canAssignTeacher sc.1 teacher day time (getClassDuration b.classFormat)
                b.classFormat with
        | none =>
          left
          simp only [phase1SubSlotStep, hb, hc0, hg, hf, Bool.false_eq_true, if_false]
        | some t =>
          right
          refine ⟨b, t, hc0, ?_⟩
          simp only [phase1SubSlotStep, hb, hc0, hg, hf, Bool.false_eq_true, if_false]
      | some t =>
        by_cases hca : canAssignTeacher sc.1 t day time (getClassDuration b.classFormat)
            b.classFormat = true
        · right
          refine ⟨b, t, hc0, ?_⟩
          simp only [phase1SubSlotStep, hb, hc0, hg, hca, Bool.false_eq_true, if_false,
            eq_self_iff_true, if_true]
        · have hca0 : canAssignTeacher sc.1 t day time (getClassDuration b.classFormat)
              b.classFormat = false := Bool.eq_false_iff.mpr hca
          cases hf : (if isPeak then
                allTeachers.filter fun t => seniorTrainers.any fun st => strIncludes t st
              else allTeachers).find? fun teacher =>
                canAssignTeacher sc.1 teacher day time (getClassDuration b.classFormat)
                  b.classFormat with
          | none =>
            left
            simp only [phase1SubSlotStep, hb, hc0, hg, hca0, hf, Bool.false_eq_true, if_false]
          | some t2 =>
            right
            refine ⟨b, t2, hc0, ?_⟩
            simp only [phase1SubSlotStep, hb, hc0, hg, hca0, hf, Bool.false_eq_true, if_false]

theorem cellClasses_append_one_len (l : List ScheduledClass) (c : ScheduledClass)
    (L D T : String) :
    (cellClasses (l ++ [c]) L D T).length ≤ (cellClasses l L D T).length + 1 := by
  rw [cellClasses_append, List.length_append]
  have h : (cellClasses [c] L D T).length ≤ 1 := by
    rw [cellClasses, List.filter_cons]
    split <;> simp
  omega

/-- The Phase 1 open-sub-slot loop: at most `n` classes are added to the
cell, and when the budget keeps the cell within 2 both invariants hold. -/
theorem phase1Range_inv (csvData : List ClassData) (allTeachers : List String)
    (guidelines : DayGuidelines) (day location time : String) (isPeak : Bool)
    (n : Nat) :
    ∀ (sc : SchedState × Nat),
      CellInv sc.1.classes → IdInv sc.1 →
      ((cellClasses sc.1.classes location day time).length + n ≤ 2 ∨ n = 0) →
      CellInv (((List.range n).foldl (fun sc' _ =>
          phase1SubSlotStep csvData allTeachers guidelines day location time isPeak sc')
        sc).1.classes) ∧
      IdInv (((List.range n).foldl (fun sc' _ =>
          phase1SubSlotStep csvData allTeachers guidelines day location time isPeak sc')
        sc).1) ∧
      (cellClasses (((List.range n).foldl (fun sc' _ =>
          phase1SubSlotStep csvData allTeachers guidelines day location time isPeak sc')
        sc).1.classes) location day time).length ≤
        (cellClasses sc.1.classes location day time).length + n := by
  induction n with
  | zero =>
    intro sc h1 h2 _
    rw [List.range_zero, List.foldl_nil]
    exact ⟨h1, h2, by omega⟩
  | succ n ih =>
    intro sc h1 h2 hcap
    have hcapn : (cellClasses sc.1.classes location day time).length + (n + 1) ≤ 2 := by
      rcases hcap with h | h
      · exact h
      · exact absurd h (Nat.succ_ne_zero n)
    rw [List.range_succ, List.foldl_append, List.foldl_cons, List.foldl_nil]
    obtain ⟨ih1, ih2, ih3⟩ := ih sc h1 h2 (Or.inl (by omega))
    set r := (List.range n).foldl (fun sc' _ =>
      phase1SubSlotStep csvData allTeachers guidelines day location time isPeak sc') sc with hr
    rcases phase1SubSlotStep_shape csvData allTeachers guidelines day location time isPeak r
      with hsh | ⟨b, t, hbf, hsh⟩
    · rw [hsh]
      exact ⟨ih1, ih2, by omega⟩
    · rw [hsh]
      have hfmt := contains_false_not_mem _ _ hbf
      have h2m := two_le_maxParallelClasses location
      have hainv := assignClass_inv _
        ⟨b.classFormat, location, day, time, b.avgParticipants, b.avgRevenue, false⟩ t
        ⟨ih1, ih2⟩
        (by
          show (cellClasses r.1.classes location day time).length < maxParallelClasses location
          omega) hfmt
      have hlen : (cellClasses (assignClass r.1
          ⟨b.classFormat, location, day, time, b.avgParticipants, b.avgRevenue, false⟩
          t).classes location day time).length ≤
          (cellClasses r.1.classes location day time).length + 1 :=
        cellClasses_append_one_len r.1.classes _ location day time
      exact ⟨hainv.1, hainv.2, le_trans hlen (by omega)⟩

/-- Phase 1, one cell: both invariants are preserved. -/
theorem phase1TimeStep_inv (csvData : List ClassData) (allTeachers : List String)
    (guidelines : DayGuidelines) (day location : String) (maxClassesForDay : Nat)
    (sc : SchedState × Nat) (time : String)
    (h : CellInv sc.1.classes ∧ IdInv sc.1) :
    CellInv (phase1TimeStep csvData allTeachers guidelines day location maxClassesForDay
      sc time).1.classes ∧
    IdInv (phase1TimeStep csvData allTeachers guidelines day location maxClassesForDay
      sc time).1 := by
  rw [phase1TimeStep]
  split
  · exact h
  · have hcts : (if location == "Kwality House, Kemps Corner" then
        if ["09:00", "11:00", "18:00", "19:15"].contains time then 2 else 1
      else if location == "Supreme HQ, Bandra" then
        if ["08:00", "09:00", "10:00", "18:00", "19:00"].contains time then 2 else 1
      else 1) ≤ 2 := by
      split
      · split <;> omega
      · split
        · split <;> omega
        · omega
    have hres := phase1Range_inv csvData allTeachers guidelines day location time
      (isPeakHour time)
      ((if location == "Kwality House, Kemps Corner" then
          if ["09:00", "11:00", "18:00", "19:15"].contains time then 2 else 1
        else if location == "Supreme HQ, Bandra" then
          if ["08:00", "09:00", "10:00", "18:00", "19:00"].contains time then 2 else 1
        else 1) -
        (sc.1.classes.filter fun cls =>
          cls.location == location && cls.day == day && cls.time == time).length)
      sc h.1 h.2
      (by
        have hcell : (cellClasses sc.1.classes location day time).length =
            (sc.1.classes.filter fun cls =>
              cls.location == location && cls.day == day && cls.time == time).length := rfl
        omega)
    exact ⟨hres.1, hres.2.1⟩

/-- Phase 1 preserves both invariants. -/
theorem phase1_inv (csvData : List ClassData) (allTeachers : List String)
    (days : List String) (s : SchedState) (h : CellInv s.classes ∧ IdInv s) :
    CellInv (phase1 csvData allTeachers days s).classes ∧
    IdInv (phase1 csvData allTeachers days s) := by
  rw [phase1]
  refine foldl_pres (fun s' => CellInv s'.classes ∧ IdInv s')
    (phase1Day csvData allTeachers) ?_ days s h
  intro s' day h'
  rw [phase1Day]
  have hf := foldl_pres (fun sc : SchedState × Nat => CellInv sc.1.classes ∧ IdInv sc.1)
    (fun sc location =>
      (getAvailableTimeSlots day).foldl
        (phase1TimeStep csvData allTeachers (getDayGuidelines day) day location
          (if day == "Sunday" then 5
           else (getAvailableTimeSlots day).length * schedulerLocations.length))
        sc)
    (fun sc location hsc =>
      foldl_pres (fun sc : SchedState × Nat => CellInv sc.1.classes ∧ IdInv sc.1)
        (phase1TimeStep csvData allTeachers (getDayGuidelines day) day location
          (if day == "Sunday" then 5
           else (getAvailableTimeSlots day).length * schedulerLocations.length))
        (fun sc' time hsc' =>
          phase1TimeStep_inv csvData allTeachers (getDayGuidelines day) day location _
            sc' time hsc')
        (getAvailableTimeSlots day) sc hsc)
    schedulerLocations
    (s', (s'.classes.filter fun cls => cls.day == day).length) h'
  exact hf

/-- Phase 2, one slot attempt: both invariants are preserved (the step is
guarded by capacity and duplicate-format checks). -/
theorem phase2TimeStep_inv (teacher : String) (specialty : TeacherSpecialty)
    (day location : String) (sd : SchedState × Bool) (time : String)
    (h : CellInv sd.1.classes ∧ IdInv sd.1) :
    CellInv (phase2TimeStep teacher specialty day location sd time).1.classes ∧
    IdInv (phase2TimeStep teacher specialty day location sd time).1 := by
  simp only [phase2TimeStep]
  split
  · exact h
  · split
    · exact h
    · split
      · exact h
      · split
        · rename_i hcap hdup hca
          refine assignClass_inv _ _ _ h ?_ ?_
          · exact Nat.lt_of_not_le hcap
          · exact any_beq_false_not_mem _ _ (Bool.eq_false_iff.mpr hdup)
        · exact h

/-- Phase 2 preserves both invariants. -/
theorem phase2_inv (csvData : List ClassData) (allTeachers : List String)
    (days : List String) (s : SchedState) (h : CellInv s.classes ∧ IdInv s) :
    CellInv (phase2 csvData allTeachers days s).classes ∧
    IdInv (phase2 csvData allTeachers days s) := by
  rw [phase2]
  refine foldl_pres (fun s' => CellInv s'.classes ∧ IdInv s')
    (phase2TeacherStep csvData days) ?_ allTeachers s h
  intro s' teacher h'
  rw [phase2TeacherStep]
  have hstep : ∀ target : Nat,
      CellInv (((alGetD (getTeacherSpecialties csvData) teacher []).take 3).foldl
        (phase2SpecStep days target teacher) s').classes ∧
      IdInv (((alGetD (getTeacherSpecialties csvData) teacher []).take 3).foldl
        (phase2SpecStep days target teacher) s') := by
    intro target
    refine foldl_pres (fun s'' => CellInv s''.classes ∧ IdInv s'')
      (phase2SpecStep days target teacher) ?_ _ s' h'
    intro s2 specialty h2
    rw [phase2SpecStep]
    split
    · exact h2
    · refine foldl_pres (fun s3 => CellInv s3.classes ∧ IdInv s3)
        (phase2LocStep days teacher specialty) ?_ schedulerLocations s2 h2
      intro s3 location h3
      rw [phase2LocStep]
      split
      · exact h3
      · refine foldl_pres (fun s4 => CellInv s4.classes ∧ IdInv s4)
          (phase2DayStep teacher specialty location) ?_ days s3 h3
        intro s4 day h4
        rw [phase2DayStep]
        split
        · exact h4
        · have hf := foldl_pres
            (fun sd : SchedState × Bool => CellInv sd.1.classes ∧ IdInv sd.1)
            (phase2TimeStep teacher specialty day location)
            (fun sd time hsd => phase2TimeStep_inv teacher specialty day location sd time hsd)
            (getAvailableTimeSlots day) (s4, false) h4
          exact hf
  split <;> split
  · exact hstep 200
  · exact h'
  · exact hstep 300
  · exact h'

/-- Phase 3, one slot attempt: both invariants are preserved. -/
theorem phase3TimeStep_inv (csvData : List ClassData) (format location day : String)
    (sd : SchedState × Bool) (time : String)
    (h : CellInv sd.1.classes ∧ IdInv sd.1) :
    CellInv (phase3TimeStep csvData format location day sd time).1.classes ∧
    IdInv (phase3TimeStep csvData format location day sd time).1 := by
  simp only [phase3TimeStep]
  split
  · exact h
  · split
    · exact h
    · split
      · exact h
      · split
        · exact h
        · split
          · rename_i hsd2 hcap hdup obt bt heq hca
            refine assignClass_inv _ _ _ h ?_ ?_
            · exact Nat.lt_of_not_le hcap
            · exact any_beq_false_not_mem _ _ (Bool.eq_false_iff.mpr hdup)
          · exact h

/-- Phase 3 preserves both invariants. -/
theorem phase3_inv (csvData : List ClassData) (days : List String) (s : SchedState)
    (h : CellInv s.classes ∧ IdInv s) :
    CellInv (phase3 csvData days s).classes ∧ IdInv (phase3 csvData days s) := by
  have hstep : ∀ (s' : SchedState) (format : String),
      CellInv s'.classes ∧ IdInv s' →
      CellInv (phase3FormatStep csvData days s' format).classes ∧
      IdInv (phase3FormatStep csvData days s' format) := by
    intro s' format h'
    simp only [phase3FormatStep]
    split
    · refine foldl_pres (fun s2 => CellInv s2.classes ∧ IdInv s2)
        (fun s2 location =>
          if !isClassAllowedAtLocation format location then s2
          else days.foldl (phase3DayStep csvData format location) s2) ?_ schedulerLocations s' h'
      intro s2 location h2
      dsimp only
      split
      · exact h2
      · refine foldl_pres (fun s3 => CellInv s3.classes ∧ IdInv s3)
          (phase3DayStep csvData format location) ?_ days s2 h2
        intro s3 day h3
        rw [phase3DayStep]
        have hf := foldl_pres
          (fun sd : SchedState × Bool => CellInv sd.1.classes ∧ IdInv sd.1)
          (phase3TimeStep csvData format location day)
          (fun sd time hsd => phase3TimeStep_inv csvData format location day sd time hsd)
          (getAvailableTimeSlots day) (s3, false) h3
        exact hf
    · exact h'
  rw [phase3]
  have hres := foldl_pres (fun s' => CellInv s'.classes ∧ IdInv s')
    (phase3FormatStep csvData days) hstep requiredFormats s h
  exact hres

/-- Phase 4, one reassignment: teacher fields change on one position, so
cells and ids are untouched. -/
theorem reassignStep_inv (day : String) (targets : List (String × Nat)) (teacher : String)
    (s : SchedState) (cls : ScheduledClass) (h : CellInv s.classes ∧ IdInv s) :
    CellInv (reassignStep day targets teacher s cls).classes ∧
    IdInv (reassignStep day targets teacher s cls) := by
  cases hft : targets.find? (fun t =>
      canAssignTeacher s t.1 day cls.time cls.duration cls.classFormat) with
  | none =>
    simp only [reassignStep, hft]
    exact h
  | some targetTeacher =>
    cases hidx : s.classes.findIdx? (fun c => c.id == cls.id) with
    | none =>
      simp only [reassignStep, hft, hidx]
      exact h
    | some classIndex =>
      simp only [reassignStep, hft, hidx]
      obtain ⟨-, c, hc, -⟩ :=
        findIdx?_some_spec (fun c => c.id == cls.id) s.classes 0 classIndex hidx
      rw [Nat.sub_zero] at hc
      have hdecomp := get?_decomp classIndex s.classes c hc
      constructor
      · show CellInv (listModify _ classIndex s.classes)
        rw [listModify_decomp _ classIndex s.classes c hc]
        refine cellInv_replace _ _ c _ rfl rfl rfl rfl ?_
        rw [← hdecomp]
        exact h.1
      · refine idInv_of_map_eq s _ ?_ ?_ h.2
        · refine map_listModify _ _ ?_ classIndex s.classes
          exact fun x => rfl
        · rfl

/-- Phase 4, one shift consolidation pass. -/
theorem consolidateShift_inv (day : String) (shiftClasses : List ScheduledClass)
    (s : SchedState) (h : CellInv s.classes ∧ IdInv s) :
    CellInv (consolidateShift day shiftClasses s).classes ∧
    IdInv (consolidateShift day shiftClasses s) := by
  simp only [consolidateShift]
  split
  · refine foldl_pres (fun s' => CellInv s'.classes ∧ IdInv s') _ ?_ _ s h
    intro s' tc h'
    dsimp only
    refine foldl_pres (fun s2 => CellInv s2.classes ∧ IdInv s2) _ ?_ _ s' h'
    intro s2 cls h2
    exact reassignStep_inv day _ tc.1 s2 cls h2
  · exact h

/-- Phase 4 preserves both invariants. -/
theorem phase4_inv (days : List String) (s : SchedState)
    (h : CellInv s.classes ∧ IdInv s) :
    CellInv (phase4 days s).classes ∧ IdInv (phase4 days s) := by
  rw [phase4]
  refine foldl_pres (fun s' => CellInv s'.classes ∧ IdInv s') _ ?_ schedulerLocations s h
  intro s' location h'
  dsimp only
  refine foldl_pres (fun s2 => CellInv s2.classes ∧ IdInv s2) _ ?_ days s' h'
  intro s2 day h2
  rw [phase4LocDay]
  exact consolidateShift_inv day _ _
    (consolidateShift_inv day _ _ h2)

/-- One Phase 5 move keeps the ids and the cell invariant. -/
theorem timeMoveStep_pres (tgt : String → Bool) (location day : String)
    (l l2 : List ScheduledClass) (h : TimeMoveStep tgt location day l l2) :
    l2.map (fun c => c.id) = l.map (fun c => c.id) ∧ (CellInv l → CellInv l2) := by
  obtain ⟨i, newTime, cls, h1, hL, hD, htgt, hcap, hany, h5⟩ := h
  subst h5
  constructor
  · refine map_listModify _ _ ?_ i l
    exact fun x => rfl
  · intro hcell
    rw [listModify_decomp _ i l cls h1]
    have hdecomp := get?_decomp i l cls h1
    refine cellInv_move (l.take i) (l.drop (i + 1)) cls newTime ?_ ?_ ?_
    · rw [← hdecomp]
      exact hcell
    · rw [← hdecomp, hL, hD]
      exact hcap
    · rw [← hdecomp, hL, hD]
      exact any_beq_false_not_mem _ _ hany

/-- A chain of Phase 5 moves keeps the ids and the cell invariant. -/
theorem reflTrans_pres (tgt : String → Bool) (location day : String)
    (l l2 : List ScheduledClass)
    (h : Relation.ReflTransGen (TimeMoveStep tgt location day) l l2) :
    (l2.map (fun c => c.id) = l.map fun c => c.id) ∧ (CellInv l → CellInv l2) := by
  induction h with
  | refl => exact ⟨rfl, fun hc => hc⟩
  | tail hab hbc ih =>
    obtain ⟨ih1, ih2⟩ := ih
    obtain ⟨p1, p2⟩ := timeMoveStep_pres _ _ _ _ _ hbc
    exact ⟨p1.trans ih1, fun hc => p2 (ih2 hc)⟩

/-- Phase 5, one balancing pass, preserves both invariants. -/
theorem phase5LocDay_inv (s : SchedState) (location day : String)
    (h : CellInv s.classes ∧ IdInv s) :
    CellInv (phase5LocDay s location day).classes ∧ IdInv (phase5LocDay s location day) := by
  obtain ⟨heq, hchain⟩ := phase5LocDay_spec s location day h.2.1
  obtain ⟨hmap, hcellf⟩ := reflTrans_pres _ _ _ _ _ hchain
  refine ⟨hcellf h.1, ?_⟩
  refine idInv_of_map_eq s _ hmap ?_ h.2
  rw [heq]

/-- Phase 5 preserves both invariants. -/
theorem phase5_inv (days : List String) (s : SchedState)
    (h : CellInv s.classes ∧ IdInv s) :
    CellInv (phase5 days s).classes ∧ IdInv (phase5 days s) := by
  rw [phase5]
  refine foldl_pres (fun s' => CellInv s'.classes ∧ IdInv s') _ ?_ schedulerLocations s h
  intro s' location h'
  dsimp only
  refine foldl_pres (fun s2 => CellInv s2.classes ∧ IdInv s2) _ ?_ days s' h'
  intro s2 day h2
  exact phase5LocDay_inv s2 location day h2

/-- The full pipeline satisfies both invariants. -/
theorem generateIntelligentScheduleState_inv (csvData : List ClassData)
    (customTeachers : List CustomTeacher) (options : ScheduleOptions) :
    CellInv (generateIntelligentScheduleState csvData customTeachers options).classes ∧
    IdInv (generateIntelligentScheduleState csvData customTeachers options) := by
  rw [generateIntelligentScheduleState]
  exact phase5_inv _ _ (phase4_inv _ _ (phase3_inv _ _ _ (phase2_inv _ _ _ _
    (phase1_inv _ _ _ _ (phase0_inv options)))))

/-- C2: in every schedule returned by `generateIntelligentSchedule`, each
(location, day, time) cell holds at most the location's parallel capacity
(3 at Supreme HQ, Bandra, 2 elsewhere) and no two of its classes share a
class format. -/
theorem C2_theorem (csvData : List ClassData) (customTeachers : List CustomTeacher)
    (options : ScheduleOptions) (location day time : String) :
    ((generateIntelligentSchedule csvData customTeachers options).filter fun cls =>
      cls.location == location && cls.day == day && cls.time == time).length
      ≤ (if location == "Supreme HQ, Bandra" then 3 else 2) ∧
    (((generateIntelligentSchedule csvData customTeachers options).filter fun cls =>
      cls.location == location && cls.day == day && cls.time == time).map
        fun cls => cls.classFormat).Nodup := by
  have h := (generateIntelligentScheduleState_inv csvData customTeachers options).1
    location day time
  exact ⟨h.1, h.2⟩

/-! ## C1: weekly-hour caps under the lossless-name hypothesis -/

theorem splitChars_ne_nil (sep : Char) : ∀ l : List Char, splitChars sep l ≠ []
  | [] => by simp [splitChars]
  | c :: cs => by
    simp only [splitChars]
    cases hcs : splitChars sep cs with
    | nil => simp
    | cons g gs =>
      show ¬(if c = sep then [] :: g :: gs else (c :: g) :: gs) = []
      split <;> simp

theorem joinSep_splitChars (sep : Char) : ∀ l : List Char, joinSep sep (splitChars sep l) = l
  | [] => rfl
  | c :: cs => by
    have ih := joinSep_splitChars sep cs
    simp only [splitChars]
    cases hcs : splitChars sep cs with
    | nil => exact absurd hcs (splitChars_ne_nil sep cs)
    | cons g gs =>
      rw [hcs] at ih
      show joinSep sep (if c = sep then [] :: g :: gs else (c :: g) :: gs) = c :: cs
      by_cases hc : c = sep
      · rw [if_pos hc]
        show [] ++ sep :: joinSep sep (g :: gs) = c :: cs
        rw [List.nil_append, ih, hc]
      · rw [if_neg hc]
        cases gs with
        | nil =>
          show c :: g = c :: cs
          have ihg : g = cs := ih
          rw [ihg]
        | cons g2 gs2 =>
          show (c :: g) ++ sep :: joinSep sep (g2 :: gs2) = c :: cs
          have ih2 : g ++ sep :: joinSep sep (g2 :: gs2) = cs := ih
          rw [List.cons_append, ih2]

theorem splitChars_no_sep (sep : Char) :
    ∀ l : List Char, ∀ g ∈ splitChars sep l, sep ∉ g
  | [] => by
    intro g hg
    rw [splitChars, List.mem_singleton] at hg
    subst hg
    exact List.not_mem_nil sep
  | c :: cs => by
    intro g hg
    simp only [splitChars] at hg
    cases hcs : splitChars sep cs with
    | nil => exact absurd hcs (splitChars_ne_nil sep cs)
    | cons g0 gs =>
      rw [hcs] at hg
      have hg2 : g ∈ (if c = sep then [] :: g0 :: gs else (c :: g0) :: gs) := hg
      by_cases hc : c = sep
      · rw [if_pos hc] at hg2
        rcases List.mem_cons.mp hg2 with h | h
        · subst h
          exact List.not_mem_nil sep
        · exact splitChars_no_sep sep cs g (hcs ▸ h)
      · rw [if_neg hc] at hg2
        rcases List.mem_cons.mp hg2 with h | h
        · subst h
          intro hmem
          rcases List.mem_cons.mp hmem with h2 | h2
          · exact hc h2.symm
          · exact splitChars_no_sep sep cs g0 (hcs ▸ List.mem_cons_self g0 gs) h2
        · exact splitChars_no_sep sep cs g (hcs ▸ List.mem_cons_of_mem g0 h)

theorem splitChars_two (sep : Char) :
    ∀ l : List Char, sep ∈ l → ∃ g0 g1 gs, splitChars sep l = g0 :: g1 :: gs
  | [], h => absurd h (List.not_mem_nil sep)
  | c :: cs, h => by
    simp only [splitChars]
    cases hcs : splitChars sep cs with
    | nil => exact absurd hcs (splitChars_ne_nil sep cs)
    | cons g0 gs =>
      show ∃ a0 a1 as,
        (if c = sep then [] :: g0 :: gs else (c :: g0) :: gs) = a0 :: a1 :: as
      by_cases hc : c = sep
      · rw [if_pos hc]
        exact ⟨[], g0, gs, rfl⟩
      · rw [if_neg hc]
        have hcs2 : sep ∈ cs := by
          rcases List.mem_cons.mp h with h2 | h2
          · exact absurd h2.symm hc
          · exact h2
        obtain ⟨a0, a1, as, ha⟩ := splitChars_two sep cs hcs2
        rw [hcs] at ha
        injection ha with ha1 ha2
        subst ha1
        subst ha2
        exact ⟨c :: g0, a1, as, rfl⟩

/-- Splitting at the first space and rejoining is lossless for names that
contain a space. -/
theorem rejoin_split (t : String) (h : ' ' ∈ t.data) :
    jsFirstName t ++ " " ++ jsLastName t = t := by
  obtain ⟨g0, g1, gs, hsp⟩ := splitChars_two ' ' t.data h
  have hj2 : g0 ++ ' ' :: joinSep ' ' (g1 :: gs) = t.data := by
    have hj := joinSep_splitChars ' ' t.data
    rw [hsp] at hj
    exact hj
  have hdata : (jsFirstName t ++ " " ++ jsLastName t).data = t.data := by
    rw [String.data_append, String.data_append, jsFirstName, jsLastName, hsp]
    show g0 ++ [' '] ++ joinSep ' ' (g1 :: gs) = t.data
    rw [List.append_assoc]
    exact hj2
  exact congrArg String.mk hdata

theorem jsFirstName_no_space (t : String) : ' ' ∉ (jsFirstName t).data := by
  rw [jsFirstName]
  cases hsp : splitChars ' ' t.data with
  | nil => exact absurd hsp (splitChars_ne_nil ' ' t.data)
  | cons g gs =>
    show ' ' ∉ g
    exact splitChars_no_sep ' ' t.data g (hsp ▸ List.mem_cons_self g gs)

theorem sep_cons_inj {α : Type} (sep : α) :
    ∀ (a1 a2 b1 b2 : List α), sep ∉ a1 → sep ∉ a2 →
      a1 ++ sep :: b1 = a2 ++ sep :: b2 → a1 = a2 ∧ b1 = b2
  | [], [], b1, b2, _, _, h => by
    rw [List.nil_append, List.nil_append] at h
    injection h with h1 h2
    exact ⟨rfl, h2⟩
  | [], x :: a2, b1, b2, _, h2, h => by
    rw [List.nil_append, List.cons_append] at h
    injection h with hx hrest
    exact absurd (hx ▸ List.mem_cons_self x a2) h2
  | x :: a1, [], b1, b2, h1, _, h => by
    rw [List.nil_append, List.cons_append] at h
    injection h with hx hrest
    exact absurd (hx ▸ List.mem_cons_self x a1) h1
  | x :: a1, y :: a2, b1, b2, h1, h2, h => by
    rw [List.cons_append, List.cons_append] at h
    injection h with hx hrest
    obtain ⟨ha, hb⟩ := sep_cons_inj sep a1 a2 b1 b2
      (fun hm => h1 (List.mem_cons_of_mem x hm))
      (fun hm => h2 (List.mem_cons_of_mem y hm)) hrest
    exact ⟨by rw [hx, ha], hb⟩

/-- Rejoined (first, last) name pairs with space-free first components are
uniquely decodable. -/
theorem rejoin_inj (f1 l1 f2 l2 : String) (h1 : ' ' ∉ f1.data) (h2 : ' ' ∉ f2.data)
    (h : f1 ++ " " ++ l1 = f2 ++ " " ++ l2) : f1 = f2 ∧ l1 = l2 := by
  have hd : f1.data ++ ' ' :: l1.data = f2.data ++ ' ' :: l2.data := by
    have := congrArg String.data h
    simpa [String.data_append] using this
  obtain ⟨ha, hb⟩ := sep_cons_inj ' ' f1.data f2.data l1.data l2.data h1 h2 hd
  constructor
  · cases f1; cases f2
    exact congrArg String.mk ha
  · cases l1; cases l2
    exact congrArg String.mk hb

theorem space_mem_rejoin (f la : String) : ' ' ∈ (f ++ " " ++ la).data := by
  rw [String.data_append, String.data_append]
  exact List.mem_append_left _ (List.mem_append_right _ (List.mem_cons_self ' ' []))

theorem alGet_alSet : ∀ (m : List (String × Nat)) (k k2 : String) (v : Nat),
    alGet (alSet m k v) k2 = if k2 = k then v else alGet m k2
  | [], k, k2, v => by
    rw [alSet]
    by_cases hk : k2 = k
    · rw [if_pos hk, alGet]
      have hb : (k == k2) = true := beq_iff_eq.mpr hk.symm
      simp [List.find?, hb]
    · rw [if_neg hk, alGet, alGet]
      have hne : (k == k2) = false := beq_eq_false_iff_ne.mpr (fun he => hk he.symm)
      simp [List.find?, hne]
  | (k', v') :: rest, k, k2, v => by
    rw [alSet]
    by_cases hk' : k' = k
    · rw [if_pos (beq_iff_eq.mpr hk')]
      rw [alGet, alGet]
      by_cases hk2 : k2 = k
      · rw [if_pos hk2]
        have hb : (k == k2) = true := beq_iff_eq.mpr hk2.symm
        simp [List.find?, hb]
      · rw [if_neg hk2]
        have hb1 : (k == k2) = false := beq_eq_false_iff_ne.mpr (fun he => hk2 he.symm)
        have hb2 : (k' == k2) = false :=
          beq_eq_false_iff_ne.mpr (fun he => hk2 (by rw [← he, hk']))
        simp [List.find?, hb1, hb2]
    · rw [if_neg (fun hb => hk' (beq_iff_eq.mp hb))]
      rw [alGet, alGet]
      by_cases hk2 : k' = k2
      · have hb : (k' == k2) = true := beq_iff_eq.mpr hk2
        simp only [List.find?, hb]
        rw [if_neg (fun he => hk' (by rw [hk2, he]))]
      · have hne : (k' == k2) = false := beq_eq_false_iff_ne.mpr hk2
        simp only [List.find?, hne]
        exact alGet_alSet rest k k2 v

theorem jsFix1_le (n c : Nat) (hn : n ≤ c) (hc : c % 2 = 0) : jsFix1 n ≤ c := by
  rw [jsFix1]
  split <;> omega

theorem maxWeeklyHoursOf_even (k : String) : maxWeeklyHoursOf k % 2 = 0 := by
  rw [maxWeeklyHoursOf]
  split <;> rfl

/-- A successful `canAssignTeacher` implies the weekly budget fits. -/
theorem canAssign_weekly (s : SchedState) (t day time : String) (dur : Nat) (fmt : String)
    (h : canAssignTeacher s t day time dur fmt = true) :
    alGet s.weekly t + dur ≤ maxWeeklyHoursOf t := by
  rw [canAssignTeacher] at h
  split at h
  · cases h
  · split at h
    · cases h
    · split at h
      · cases h
      · rename_i hlt
        rw [Bool.or_eq_true] at hlt
        push_neg at hlt
        have h1 : ¬(maxWeeklyHoursOf t < alGet s.weekly t + dur) := by
          simpa using hlt.1
        omega

theorem jsFix1_ge (n : Nat) : n ≤ jsFix1 n := by
  rw [jsFix1]
  split <;> omega

theorem iws_append_one (l : List ScheduledClass) (c : ScheduledClass) (f la : String) :
    instructorWeeklySum (l ++ [c]) f la =
      instructorWeeklySum l f la +
        (if (c.teacherFirstName == f && c.teacherLastName == la) = true
         then c.duration else 0) := by
  rw [instructorWeeklySum, instructorWeeklySum, List.filter_append, List.map_append,
    List.sum_append, List.filter_cons]
  split
  · simp
  · simp

theorem iws_le_of_map_eq (l l2 : List ScheduledClass)
    (h : l.map (fun c => (c.teacherFirstName, c.teacherLastName, c.duration)) =
      l2.map fun c => (c.teacherFirstName, c.teacherLastName, c.duration)) (f la : String) :
    instructorWeeklySum l f la = instructorWeeklySum l2 f la := by
  induction l generalizing l2 with
  | nil =>
    cases l2 with
    | nil => rfl
    | cons c2 t2 => cases h
  | cons c t ih =>
    cases l2 with
    | nil => cases h
    | cons c2 t2 =>
      rw [List.map_cons, List.map_cons] at h
      injection h with h1 h2
      injection h1 with hf h1
      injection h1 with hl hd
      rw [instructorWeeklySum, instructorWeeklySum, List.filter_cons, List.filter_cons,
        hf, hl]
      have ih2 := ih t2 h2
      rw [instructorWeeklySum, instructorWeeklySum] at ih2
      split
      · rw [List.map_cons, List.map_cons, List.sum_cons, List.sum_cons, hd, ih2]
      · rw [ih2]

theorem iws_zero_of_space (l : List ScheduledClass) (f la : String)
    (hs : ∀ c ∈ l, ' ' ∉ c.teacherFirstName.data) (hf : ' ' ∈ f.data) :
    instructorWeeklySum l f la = 0 := by
  rw [instructorWeeklySum]
  have hfil : (l.filter fun cls =>
      cls.teacherFirstName == f && cls.teacherLastName == la) = [] := by
    rw [List.filter_eq_nil]
    intro c hc
    rw [Bool.and_eq_true]
    intro hand
    have he : c.teacherFirstName = f := beq_iff_eq.mp hand.1
    exact hs c hc (he ▸ hf)
  rw [hfil]
  rfl

/-- `assignClass` preserves the hour-cap invariant when the teacher name
contains a space and the weekly budget fits. -/
theorem assignClass_hinv (s : SchedState) (data : AssignData) (t : String)
    (h : HInv s) (hsp : ' ' ∈ t.data)
    (hbudget : alGet s.weekly t + getClassDuration data.classFormat ≤ maxWeeklyHoursOf t) :
    HInv (assignClass s data t) := by
  obtain ⟨h1, h2, h3⟩ := h
  have hrej : jsFirstName t ++ " " ++ jsLastName t = t := rejoin_split t hsp
  refine ⟨?_, ?_, ?_⟩
  · intro f la
    show instructorWeeklySum (s.classes ++ [_]) f la ≤
      alGet (alSet s.weekly t (jsFix1 (alGet s.weekly t + getClassDuration data.classFormat)))
        (f ++ " " ++ la)
    rw [iws_append_one, alGet_alSet]
    split
    · rename_i hmatch
      rw [Bool.and_eq_true] at hmatch
      have hf : jsFirstName t = f := beq_iff_eq.mp hmatch.1
      have hla : jsLastName t = la := beq_iff_eq.mp hmatch.2
      subst hf
      subst hla
      rw [if_pos hrej]
      have hle := h1 (jsFirstName t) (jsLastName t)
      rw [hrej] at hle
      have hge := jsFix1_ge (alGet s.weekly t + getClassDuration data.classFormat)
      show instructorWeeklySum s.classes (jsFirstName t) (jsLastName t) +
        getClassDuration data.classFormat ≤
        jsFix1 (alGet s.weekly t + getClassDuration data.classFormat)
      omega
    · rw [Nat.add_zero]
      split
      · rename_i hkey
        have hle := h1 f la
        rw [hkey] at hle
        have hge := jsFix1_ge (alGet s.weekly t + getClassDuration data.classFormat)
        omega
      · exact h1 f la
  · intro k
    show alGet (alSet s.weekly t _) k ≤ maxWeeklyHoursOf k
    rw [alGet_alSet]
    split
    · rename_i hk
      subst hk
      exact jsFix1_le _ _ hbudget (maxWeeklyHoursOf_even k)
    · exact h2 k
  · intro c hc
    rcases List.mem_append.mp hc with hc | hc
    · exact h3 c hc
    · rw [List.mem_singleton] at hc
      subst hc
      exact jsFirstName_no_space t

theorem mem_jsSetDedup_foldl (x : String) :
    ∀ (l acc : List String),
      x ∈ l.foldl (fun acc y => if y ∈ acc then acc else acc ++ [y]) acc →
      x ∈ acc ∨ x ∈ l
  | [], acc, h => Or.inl h
  | y :: ys, acc, h => by
    rw [List.foldl_cons] at h
    rcases mem_jsSetDedup_foldl x ys _ h with h2 | h2
    · split at h2
      · exact Or.inl h2
      · rcases List.mem_append.mp h2 with h3 | h3
        · exact Or.inl h3
        · rw [List.mem_singleton] at h3
          exact Or.inr (h3 ▸ List.mem_cons_self y ys)
    · exact Or.inr (List.mem_cons_of_mem y h2)

theorem mem_jsSetDedup (l : List String) (x : String) (h : x ∈ jsSetDedup l) : x ∈ l := by
  rcases mem_jsSetDedup_foldl x l [] h with h2 | h2
  · cases h2
  · exact h2

theorem jsSetDedup_nodup_foldl :
    ∀ (l acc : List String), acc.Nodup →
      (l.foldl (fun acc y => if y ∈ acc then acc else acc ++ [y]) acc).Nodup
  | [], _, h => h
  | y :: ys, acc, h => by
    rw [List.foldl_cons]
    refine jsSetDedup_nodup_foldl ys _ ?_
    split
    · exact h
    · rename_i hy
      refine List.nodup_middle.mpr (List.nodup_cons.mpr ⟨?_, ?_⟩)
      · rw [List.append_nil]
        exact hy
      · rw [List.append_nil]
        exact h

theorem jsSetDedup_nodup (l : List String) : (jsSetDedup l).Nodup :=
  jsSetDedup_nodup_foldl l [] List.nodup_nil

theorem stableInsert_perm {α : Type} (before : α → α → Bool) (x : α) :
    ∀ l : List α, List.Perm (stableInsert before x l) (x :: l)
  | [] => List.Perm.refl _
  | y :: ys => by
    rw [stableInsert]
    split
    · exact ((stableInsert_perm before x ys).cons y).trans (List.Perm.swap x y ys)
    · exact List.Perm.refl _

theorem stableSort_perm {α : Type} (before : α → α → Bool) :
    ∀ l : List α, List.Perm (stableSort before l) l
  | [] => List.Perm.refl _
  | x :: xs =>
    (stableInsert_perm before x (stableSort before xs)).trans
      ((stableSort_perm before xs).cons x)

/-- The teacher returned by `getBestTeacherForClass` is a curated seed
teacher or a historic teacher name. -/
theorem getBestTeacherForClass_mem (csvData : List ClassData)
    (classFormat location day time t : String)
    (h : getBestTeacherForClass csvData classFormat location day time = some t) :
    t ∈ getDefaultTopClasses.map (fun d => d.teacher) ∨
      t ∈ csvData.map fun item => item.teacherName := by
  rw [getBestTeacherForClass] at h
  cases hfind : getDefaultTopClasses.find? (fun cls =>
      cls.classFormat == classFormat && cls.location == location
        && cls.day == day && cls.time == time) with
  | some defaultClass =>
    simp only [hfind] at h
    injection h with h
    exact Or.inl (h ▸ List.mem_map_of_mem _ (List.mem_of_find?_eq_some hfind))
  | none =>
    simp only [hfind] at h
    split at h
    · cases h
    · rw [Option.map_eq_some'] at h
      obtain ⟨p, hp, hpt⟩ := h
      have hpm := List.mem_of_mem_head? hp
      rw [mem_stableSort, List.mem_map] at hpm
      obtain ⟨q, hq, hqp⟩ := hpm
      rcases mem_foldl_alUpdate (fun item : ClassData => item.teacherName) _ _ _ [] q hq
        with h2 | h2
      · cases h2
      · refine Or.inr ?_
        rw [List.mem_map] at h2
        obtain ⟨item, hitem, hname⟩ := h2
        rw [← hpt, ← hqp]
        show q.1 ∈ _
        rw [← hname]
        exact List.mem_map_of_mem _ (List.mem_of_mem_filter hitem)

theorem seed_teacher_space (t : String)
    (h : t ∈ getDefaultTopClasses.map fun d => d.teacher) : ' ' ∈ t.data := by
  rw [List.mem_map] at h
  obtain ⟨d, hd, he⟩ := h
  subst he
  fin_cases hd <;> decide

theorem foldl_pres_mem {σ γ : Type} (P : σ → Prop) (f : σ → γ → σ) :
    ∀ (l : List γ), (∀ s x, x ∈ l → P s → P (f s x)) → ∀ s, P s → P (l.foldl f s)
  | [], _, _, h => h
  | x :: xs, hf, s, h =>
    foldl_pres_mem P f xs (fun s2 y hy => hf s2 y (List.mem_cons_of_mem x hy)) (f s x)
      (hf s x (List.mem_cons_self x xs) h)

theorem phase0Step_hinv (options : ScheduleOptions) (s : SchedState) (d : DefaultTopClass)
    (hd : ' ' ∈ d.teacher.data) (h : HInv s) : HInv (phase0Step options s d) := by
  rw [phase0Step]
  split
  · exact h
  · split
    · rename_i hca
      exact assignClass_hinv _ _ _ h hd (canAssign_weekly _ _ _ _ _ _ hca)
    · exact h

theorem phase0_hinv (options : ScheduleOptions) (s : SchedState) (h : HInv s) :
    HInv (phase0 options s) := by
  rw [phase0]
  refine foldl_pres_mem HInv (phase0Step options) getDefaultTopClasses ?_ s h
  intro s2 d hd h2
  refine phase0Step_hinv options s2 d ?_ h2
  fin_cases hd <;> decide

theorem phase1SubSlotStep_hinv (csvData : List ClassData) (allTeachers : List String)
    (guidelines : DayGuidelines) (day location time : String) (isPeak : Bool)
    (sc : SchedState × Nat)
    (hT : ∀ t ∈ allTeachers, ' ' ∈ t.data)
    (hcsv : ∀ item ∈ csvData, ' ' ∈ item.teacherName.data)
    (h : HInv sc.1) :
    HInv (phase1SubSlotStep csvData allTeachers guidelines day location time isPeak sc).1 := by
  have hbest : ∀ (t fmt : String),
      getBestTeacherForClass csvData fmt location day time = some t → ' ' ∈ t.data := by
    intro t fmt hg
    rcases getBestTeacherForClass_mem csvData fmt location day time t hg with h2 | h2
    · exact seed_teacher_space t h2
    · rw [List.mem_map] at h2
      obtain ⟨item, hi, he⟩ := h2
      exact he ▸ hcsv item hi
  have hcand : ∀ t, t ∈ (if isPeak then
        allTeachers.filter fun t => seniorTrainers.any fun st => strIncludes t st
      else allTeachers) → ' ' ∈ t.data := by
    intro t ht
    split at ht
    · exact hT t (List.mem_of_mem_filter ht)
    · exact hT t ht
  cases hb : getBestClassForSlot csvData location day time guidelines with
  | none =>
    simp only [phase1SubSlotStep, hb]
    exact h
  | some b =>
    by_cases hcc : ((sc.1.classes.filter fun cls =>
        cls.location == location && cls.day == day && cls.time == time).map
          fun x => x.classFormat).contains b.classFormat = true
    · simp only [phase1SubSlotStep, hb, hcc, eq_self_iff_true, if_true]
      exact h
    · have hc0 := Bool.eq_false_iff.mpr hcc
      cases hg : getBestTeacherForClass csvData b.classFormat location day time with
      | none =>
        cases hf : (if isPeak then
              allTeachers.filter fun t => seniorTrainers.any fun st => strIncludes t st
            else allTeachers).find? fun teacher =>
              canAssignTeacher sc.1 teacher day time (getClassDuration b.classFormat)
                b.classFormat with
        | none =>
          simp only [phase1SubSlotStep, hb, hc0, hg, hf, Bool.false_eq_true, if_false]
          exact h
        | some t =>
          have hca : canAssignTeacher sc.1 t day time (getClassDuration b.classFormat)
              b.classFormat = true := by simpa using List.find?_some hf
          simp only [phase1SubSlotStep, hb, hc0, hg, hf, Bool.false_eq_true, if_false]
          exact assignClass_hinv _ _ _ h (hcand t (List.mem_of_find?_eq_some hf))
            (canAssign_weekly _ _ _ _ _ _ hca)
      | some t =>
        by_cases hca : canAssignTeacher sc.1 t day time (getClassDuration b.classFormat)
            b.classFormat = true
        · simp only [phase1SubSlotStep, hb, hc0, hg, hca, Bool.false_eq_true, if_false,
            eq_self_iff_true, if_true]
          exact assignClass_hinv _ _ _ h (hbest t b.classFormat hg)
            (canAssign_weekly _ _ _ _ _ _ hca)
        · have hca0 : canAssignTeacher sc.1 t day time (getClassDuration b.classFormat)
              b.classFormat = false := Bool.eq_false_iff.mpr hca
          cases hf : (if isPeak then
                allTeachers.filter fun t => seniorTrainers.any fun st => strIncludes t st
              else allTeachers).find? fun teacher =>
                canAssignTeacher sc.1 teacher day time (getClassDuration b.classFormat)
                  b.classFormat with
          | none =>
            simp only [phase1SubSlotStep, hb, hc0, hg, hca0, hf, Bool.false_eq_true, if_false]
            exact h
          | some t2 =>
            have hca2 : canAssignTeacher sc.1 t2 day time (getClassDuration b.classFormat)
                b.classFormat = true := by simpa using List.find?_some hf
            simp only [phase1SubSlotStep, hb, hc0, hg, hca0, hf, Bool.false_eq_true, if_false]
            exact assignClass_hinv _ _ _ h (hcand t2 (List.mem_of_find?_eq_some hf))
              (canAssign_weekly _ _ _ _ _ _ hca2)

theorem phase1_hinv (csvData : List ClassData) (allTeachers : List String)
    (days : List String) (s : SchedState)
    (hT : ∀ t ∈ allTeachers, ' ' ∈ t.data)
    (hcsv : ∀ item ∈ csvData, ' ' ∈ item.teacherName.data)
    (h : HInv s) : HInv (phase1 csvData allTeachers days s) := by
  rw [phase1]
  refine foldl_pres HInv (phase1Day csvData allTeachers) ?_ days s h
  intro s' day h'
  rw [phase1Day]
  refine (foldl_pres (fun sc : SchedState × Nat => HInv sc.1) _ ?_ schedulerLocations
    (s', (s'.classes.filter fun cls => cls.day == day).length) h' : _)
  intro sc location hsc
  dsimp only
  refine foldl_pres (fun sc : SchedState × Nat => HInv sc.1) _ ?_
    (getAvailableTimeSlots day) sc hsc
  intro sc2 time hsc2
  have hstep : ∀ m : Nat,
      HInv (phase1TimeStep csvData allTeachers (getDayGuidelines day) day location m
        sc2 time).1 := by
    intro m
    rw [phase1TimeStep]
    split
    · exact hsc2
    · refine foldl_pres (fun sc : SchedState × Nat => HInv sc.1) _ ?_ _ sc2 hsc2
      intro sc3 x hsc3
      exact phase1SubSlotStep_hinv csvData allTeachers (getDayGuidelines day) day location
        time (isPeakHour time) sc3 hT hcsv hsc3
  exact hstep _

theorem phase2TimeStep_hinv (teacher : String) (specialty : TeacherSpecialty)
    (day location : String) (sd : SchedState × Bool) (time : String)
    (hsp : ' ' ∈ teacher.data) (h : HInv sd.1) :
    HInv (phase2TimeStep teacher specialty day location sd time).1 := by
  simp only [phase2TimeStep]
  split
  · exact h
  · split
    · exact h
    · split
      · exact h
      · split
        · rename_i hca
          exact assignClass_hinv _ _ _ h hsp (canAssign_weekly _ _ _ _ _ _ hca)
        · exact h

theorem phase2_hinv (csvData : List ClassData) (allTeachers : List String)
    (days : List String) (s : SchedState)
    (hT : ∀ t ∈ allTeachers, ' ' ∈ t.data) (h : HInv s) :
    HInv (phase2 csvData allTeachers days s) := by
  rw [phase2]
  refine foldl_pres_mem HInv (phase2TeacherStep csvData days) allTeachers ?_ s h
  intro s' teacher hmem h'
  have hsp := hT teacher hmem
  rw [phase2TeacherStep]
  have hstep : ∀ target : Nat,
      HInv (((alGetD (getTeacherSpecialties csvData) teacher []).take 3).foldl
        (phase2SpecStep days target teacher) s') := by
    intro target
    refine foldl_pres HInv (phase2SpecStep days target teacher) ?_ _ s' h'
    intro s2 specialty h2
    rw [phase2SpecStep]
    split
    · exact h2
    · refine foldl_pres HInv (phase2LocStep days teacher specialty) ?_ schedulerLocations
        s2 h2
      intro s3 location h3
      rw [phase2LocStep]
      split
      · exact h3
      · refine foldl_pres HInv (phase2DayStep teacher specialty location) ?_ days s3 h3
        intro s4 day h4
        rw [phase2DayStep]
        split
        · exact h4
        · exact (foldl_pres (fun sd : SchedState × Bool => HInv sd.1)
            (phase2TimeStep teacher specialty day location)
            (fun sd time hsd => phase2TimeStep_hinv teacher specialty day location sd time
              hsp hsd)
            (getAvailableTimeSlots day) (s4, false) h4 : _)
  split <;> split
  · exact hstep 200
  · exact h'
  · exact hstep 300
  · exact h'

theorem phase3TimeStep_hinv (csvData : List ClassData) (format location day : String)
    (sd : SchedState × Bool) (time : String)
    (hcsv : ∀ item ∈ csvData, ' ' ∈ item.teacherName.data)
    (h : HInv sd.1) :
    HInv (phase3TimeStep csvData format location day sd time).1 := by
  have hbest : ∀ t : String,
      getBestTeacherForClass csvData format location day time = some t → ' ' ∈ t.data := by
    intro t hg
    rcases getBestTeacherForClass_mem csvData format location day time t hg with h2 | h2
    · exact seed_teacher_space t h2
    · rw [List.mem_map] at h2
      obtain ⟨item, hi, he⟩ := h2
      exact he ▸ hcsv item hi
  simp only [phase3TimeStep]
  split
  · exact h
  · split
    · exact h
    · split
      · exact h
      · split
        · exact h
        · split
          · rename_i hsd2 hcap hdup bt heq hca
            exact assignClass_hinv _ _ _ h (hbest bt heq)
              (canAssign_weekly _ _ _ _ _ _ hca)
          · exact h

theorem phase3_hinv (csvData : List ClassData) (days : List String) (s : SchedState)
    (hcsv : ∀ item ∈ csvData, ' ' ∈ item.teacherName.data) (h : HInv s) :
    HInv (phase3 csvData days s) := by
  have hstep : ∀ (s' : SchedState) (format : String), HInv s' →
      HInv (phase3FormatStep csvData days s' format) := by
    intro s' format h'
    simp only [phase3FormatStep]
    split
    · refine foldl_pres HInv
        (fun s2 location =>
          if !isClassAllowedAtLocation format location then s2
          else days.foldl (phase3DayStep csvData format location) s2) ?_ schedulerLocations
        s' h'
      intro s2 location h2
      dsimp only
      split
      · exact h2
      · refine foldl_pres HInv (phase3DayStep csvData format location) ?_ days s2 h2
        intro s3 day h3
        rw [phase3DayStep]
        exact (foldl_pres (fun sd : SchedState × Bool => HInv sd.1)
          (phase3TimeStep csvData format location day)
          (fun sd time hsd => phase3TimeStep_hinv csvData format location day sd time
            hcsv hsd)
          (getAvailableTimeSlots day) (s3, false) h3 : _)
    · exact h'
  rw [phase3]
  have hres := foldl_pres HInv (phase3FormatStep csvData days)
    (fun s' x h' => hstep s' x h') requiredFormats s h
  exact hres

theorem iws_middle (A B : List ScheduledClass) (x : ScheduledClass) (f la : String) :
    instructorWeeklySum (A ++ x :: B) f la =
      instructorWeeklySum A f la +
        (if (x.teacherFirstName == f && x.teacherLastName == la) = true
         then x.duration else 0) + instructorWeeklySum B f la := by
  rw [instructorWeeklySum, instructorWeeklySum, instructorWeeklySum, List.filter_append,
    List.filter_cons, List.map_append, List.sum_append]
  split
  · rw [List.map_cons, List.sum_cons]
    omega
  · omega

/-- One Phase 4 reassignment preserves the hour-cap invariant, provided the
live class matches the snapshot and the source key is its rejoined name;
and it only touches the class with the snapshot's id. -/
theorem reassignStep_hinv (day : String) (targets : List (String × Nat)) (teacher : String)
    (s : SchedState) (cls : ScheduledClass)
    (h : HInv s)
    (htg : ∀ t ∈ targets, ' ' ∈ (t.1 : String).data)
    (hmatch : ∀ c ∈ s.classes, c.id = cls.id → c.teacherFirstName = cls.teacherFirstName ∧
      c.teacherLastName = cls.teacherLastName ∧ c.duration = cls.duration)
    (hteacher : teacher = cls.teacherFirstName ++ " " ++ cls.teacherLastName) :
    HInv (reassignStep day targets teacher s cls) ∧
    (∀ c2 ∈ (reassignStep day targets teacher s cls).classes,
      c2 ∈ s.classes ∨ c2.id = cls.id) := by
  cases hft : targets.find? (fun t =>
      canAssignTeacher s t.1 day cls.time cls.duration cls.classFormat) with
  | none =>
    simp only [reassignStep, hft]
    exact ⟨h, fun c2 hc2 => Or.inl hc2⟩
  | some tt =>
    cases hidx : s.classes.findIdx? (fun c => c.id == cls.id) with
    | none =>
      simp only [reassignStep, hft, hidx]
      exact ⟨h, fun c2 hc2 => Or.inl hc2⟩
    | some classIndex =>
      simp only [reassignStep, hft, hidx]
      have hca : canAssignTeacher s tt.1 day cls.time cls.duration cls.classFormat = true :=
        by simpa using List.find?_some hft
      have hbud := canAssign_weekly _ _ _ _ _ _ hca
      have htt : ' ' ∈ (tt.1 : String).data := htg tt (List.mem_of_find?_eq_some hft)
      obtain ⟨-, c, hc, hcid⟩ :=
        findIdx?_some_spec (fun c => c.id == cls.id) s.classes 0 classIndex hidx
      rw [Nat.sub_zero] at hc
      obtain ⟨hfn, hln, hdur⟩ :=
        hmatch c (List.get?_mem hc) (beq_iff_eq.mp hcid)
      have hdecomp := get?_decomp classIndex s.classes c hc
      have hmod := listModify_decomp (fun c => ({ c with
        teacherFirstName := jsFirstName tt.1,
        teacherLastName := jsLastName tt.1 } : ScheduledClass)) classIndex s.classes c hc
      obtain ⟨h1, h2, h3⟩ := h
      have hcfree : ' ' ∉ c.teacherFirstName.data := h3 c (List.get?_mem hc)
      have hclsfree : ' ' ∉ cls.teacherFirstName.data := hfn ▸ hcfree
      have hrejt : jsFirstName tt.1 ++ " " ++ jsLastName tt.1 = tt.1 := rejoin_split tt.1 htt
      have hjfree : ' ' ∉ (jsFirstName tt.1).data := jsFirstName_no_space tt.1
      constructor
      · refine ⟨?_, ?_, ?_⟩
        · intro f la
          show instructorWeeklySum
              (listModify (fun c => ({ c with
                teacherFirstName := jsFirstName tt.1,
                teacherLastName := jsLastName tt.1 } : ScheduledClass))
                classIndex s.classes) f la ≤ _
          rw [hmod]
          dsimp only
          by_cases hfsp : ' ' ∈ f.data
          · rw [iws_zero_of_space]
            · exact Nat.zero_le _
            · intro c2 hc2
              rcases List.mem_append.mp hc2 with h4 | h4
              · exact h3 c2 (hdecomp ▸ List.mem_append_left _ h4)
              · rcases List.mem_cons.mp h4 with h4 | h4
                · subst h4
                  exact hjfree
                · exact h3 c2 (hdecomp ▸ List.mem_append_right _ (List.mem_cons_of_mem _ h4))
            · exact hfsp
          · have hiws := iws_middle (s.classes.take classIndex)
              (s.classes.drop (classIndex + 1)) c f la
            rw [← hdecomp] at hiws
            rw [iws_middle]
            dsimp only
            show _ ≤
              alGet (alSet (alSet s.weekly teacher (alGet s.weekly teacher - cls.duration))
                tt.1 (alGet (alSet s.weekly teacher (alGet s.weekly teacher - cls.duration))
                  tt.1 + cls.duration)) (f ++ " " ++ la)
            rw [alGet_alSet, alGet_alSet, alGet_alSet]
            have hle := h1 f la
            rw [hiws] at hle
            by_cases hP1 : jsFirstName tt.1 = f ∧ jsLastName tt.1 = la
            · obtain ⟨hP1f, hP1l⟩ := hP1
              have hkey : f ++ " " ++ la = tt.1 := by rw [← hP1f, ← hP1l, hrejt]
              rw [if_pos hkey]
              have hpred2 : ((jsFirstName tt.1 == f) && (jsLastName tt.1 == la)) = true := by
                rw [Bool.and_eq_true]
                exact ⟨beq_iff_eq.mpr hP1f, beq_iff_eq.mpr hP1l⟩
              rw [if_pos hpred2]
              by_cases htet : tt.1 = teacher
              · rw [if_pos htet]
                have hp0 : cls.teacherFirstName = f ∧ cls.teacherLastName = la := by
                  have hri := rejoin_inj (jsFirstName tt.1) (jsLastName tt.1)
                    cls.teacherFirstName cls.teacherLastName hjfree hclsfree
                    (by rw [hrejt, htet, hteacher])
                  exact ⟨hri.1 ▸ hP1f, hri.2 ▸ hP1l⟩
                have hpredc : ((c.teacherFirstName == f && c.teacherLastName == la))
                    = true := by
                  rw [Bool.and_eq_true]
                  exact ⟨beq_iff_eq.mpr (hfn ▸ hp0.1), beq_iff_eq.mpr (hln ▸ hp0.2)⟩
                rw [if_pos hpredc] at hle
                rw [hkey, htet] at hle
                have h2t := h2 teacher
                omega
              · rw [if_neg htet]
                rw [hkey] at hle
                have hsplit : (if (c.teacherFirstName == f && c.teacherLastName == la) = true
                    then c.duration else 0) ≤ cls.duration := by
                  split
                  · omega
                  · omega
                omega
            · have hpred2 : ((jsFirstName tt.1 == f) && (jsLastName tt.1 == la)) = false := by
                rw [Bool.eq_false_iff]
                intro hand
                rw [Bool.and_eq_true] at hand
                exact hP1 ⟨beq_iff_eq.mp hand.1, beq_iff_eq.mp hand.2⟩
              rw [if_neg (by rw [hpred2]; exact Bool.false_ne_true)]
              have hkeyne : ¬(f ++ " " ++ la = tt.1) := by
                intro he
                rw [← hrejt] at he
                have hri := rejoin_inj f la (jsFirstName tt.1) (jsLastName tt.1)
                  hfsp hjfree he
                exact hP1 ⟨hri.1.symm, hri.2.symm⟩
              rw [if_neg hkeyne]
              by_cases hkeyt : f ++ " " ++ la = teacher
              · rw [if_pos hkeyt]
                have hp0 : f = cls.teacherFirstName ∧ la = cls.teacherLastName :=
                  rejoin_inj f la cls.teacherFirstName cls.teacherLastName
                    hfsp hclsfree (by rw [← hteacher, hkeyt])
                have hpredc : ((c.teacherFirstName == f && c.teacherLastName == la))
                    = true := by
                  rw [Bool.and_eq_true]
                  exact ⟨beq_iff_eq.mpr (by rw [hfn, ← hp0.1]),
                    beq_iff_eq.mpr (by rw [hln, ← hp0.2])⟩
                rw [if_pos hpredc, hkeyt] at hle
                rw [hdur] at hle
                omega
              · rw [if_neg hkeyt]
                omega
        · intro k
          show alGet (alSet (alSet s.weekly teacher (alGet s.weekly teacher - cls.duration))
            tt.1 (alGet (alSet s.weekly teacher (alGet s.weekly teacher - cls.duration))
              tt.1 + cls.duration)) k ≤ maxWeeklyHoursOf k
          rw [alGet_alSet, alGet_alSet, alGet_alSet]
          have h2t := h2 teacher
          have h2k := h2 k
          split
          · rename_i hk
            subst hk
            split
            · rename_i hk2
              rw [hk2] at hbud ⊢
              omega
            · omega
          · split
            · rename_i hk hk2
              rw [hk2]
              omega
            · exact h2k
        · intro c2 hc2
          have hc2m : c2 ∈ listModify (fun c => ({ c with
              teacherFirstName := jsFirstName tt.1,
              teacherLastName := jsLastName tt.1 } : ScheduledClass))
              classIndex s.classes := hc2
          rw [hmod] at hc2m
          rcases List.mem_append.mp hc2m with h4 | h4
          · exact h3 c2 (hdecomp ▸ List.mem_append_left _ h4)
          · rcases List.mem_cons.mp h4 with h4 | h4
            · subst h4
              exact hjfree
            · exact h3 c2 (hdecomp ▸ List.mem_append_right _ (List.mem_cons_of_mem _ h4))
      · intro c2 hc2
        have hc2m : c2 ∈ listModify (fun c => ({ c with
            teacherFirstName := jsFirstName tt.1,
            teacherLastName := jsLastName tt.1 } : ScheduledClass))
            classIndex s.classes := hc2
        rw [hmod] at hc2m
        rcases List.mem_append.mp hc2m with h4 | h4
        · exact Or.inl (hdecomp ▸ List.mem_append_left _ h4)
        · rcases List.mem_cons.mp h4 with h4 | h4
          · subst h4
            exact Or.inr (beq_iff_eq.mp hcid)
          · exact Or.inl (hdecomp ▸ List.mem_append_right _ (List.mem_cons_of_mem _ h4))

/-- The per-source-teacher reassignment loop of Phase 4. -/
theorem reassignFold_hinv (day : String) (targets : List (String × Nat)) (tc1 : String)
    (htg : ∀ t ∈ targets, ' ' ∈ (t.1 : String).data) :
    ∀ (cl : List ScheduledClass) (s : SchedState),
      HInv s →
      (∀ cls ∈ cl,
        (∀ c ∈ s.classes, c.id = cls.id → c.teacherFirstName = cls.teacherFirstName ∧
          c.teacherLastName = cls.teacherLastName ∧ c.duration = cls.duration) ∧
        tc1 = cls.teacherFirstName ++ " " ++ cls.teacherLastName) →
      (cl.map fun c => c.id).Nodup →
      HInv (cl.foldl (reassignStep day targets tc1) s) ∧
      (∀ c2 ∈ (cl.foldl (reassignStep day targets tc1) s).classes,
        c2 ∈ s.classes ∨ c2.id ∈ cl.map fun c => c.id)
  | [], s, h, _, _ => ⟨h, fun c2 hc2 => Or.inl hc2⟩
  | cls :: rest, s, h, hp, hnd => by
    rw [List.foldl_cons]
    obtain ⟨hm, hteq⟩ := hp cls (List.mem_cons_self cls rest)
    obtain ⟨hH1, hloc1⟩ := reassignStep_hinv day targets tc1 s cls h htg hm hteq
    rw [List.map_cons, List.nodup_cons] at hnd
    have hp2 : ∀ cls2 ∈ rest,
        (∀ c ∈ (reassignStep day targets tc1 s cls).classes, c.id = cls2.id →
          c.teacherFirstName = cls2.teacherFirstName ∧
          c.teacherLastName = cls2.teacherLastName ∧ c.duration = cls2.duration) ∧
        tc1 = cls2.teacherFirstName ++ " " ++ cls2.teacherLastName := by
      intro cls2 hcls2
      refine ⟨?_, (hp cls2 (List.mem_cons_of_mem cls hcls2)).2⟩
      intro c hcmem hcid2
      rcases hloc1 c hcmem with h4 | h4
      · exact (hp cls2 (List.mem_cons_of_mem cls hcls2)).1 c h4 hcid2
      · exact absurd (hcid2 ▸ List.mem_map_of_mem (fun c => c.id) hcls2)
          (h4 ▸ hnd.1)
    obtain ⟨hH2, hloc2⟩ := reassignFold_hinv day targets tc1 htg rest
      (reassignStep day targets tc1 s cls) hH1 hp2 hnd.2
    refine ⟨hH2, ?_⟩
    intro c2 hc2
    rcases hloc2 c2 hc2 with h4 | h4
    · rcases hloc1 c2 h4 with h5 | h5
      · exact Or.inl h5
      · exact Or.inr (by rw [List.map_cons]; exact h5 ▸ List.mem_cons_self _ _)
    · exact Or.inr (by rw [List.map_cons]; exact List.mem_cons_of_mem _ h4)

/-- The source-teacher loop of one Phase 4 shift consolidation. -/
theorem sourcesFold_hinv (day : String) (targets : List (String × Nat))
    (shiftClasses : List ScheduledClass)
    (htg : ∀ t ∈ targets, ' ' ∈ (t.1 : String).data)
    (hndshift : (shiftClasses.map fun c => c.id).Nodup) :
    ∀ (srcs : List (String × Nat)) (s : SchedState),
      HInv s →
      (∀ tc ∈ srcs, ∀ cls ∈ shiftClasses.filter (fun c => fullName c == tc.1),
        ∀ c ∈ s.classes, c.id = cls.id → c.teacherFirstName = cls.teacherFirstName ∧
          c.teacherLastName = cls.teacherLastName ∧ c.duration = cls.duration) →
      (srcs.map fun tc => tc.1).Nodup →
      HInv (srcs.foldl (fun s2 tc =>
        (shiftClasses.filter fun c => fullName c == tc.1).foldl
          (reassignStep day targets tc.1) s2) s) ∧
      (∀ c2 ∈ (srcs.foldl (fun s2 tc =>
          (shiftClasses.filter fun c => fullName c == tc.1).foldl
            (reassignStep day targets tc.1) s2) s).classes,
        c2 ∈ s.classes ∨ c2.id ∈ shiftClasses.map fun c => c.id)
  | [], s, h, _, _ => ⟨h, fun c2 hc2 => Or.inl hc2⟩
  | tc :: rest, s, h, hp, hnd => by
    rw [List.foldl_cons]
    have hclnd : ((shiftClasses.filter fun c => fullName c == tc.1).map fun c => c.id).Nodup :=
      ((List.filter_sublist shiftClasses).map _).nodup hndshift
    obtain ⟨hH1, hloc1⟩ := reassignFold_hinv day targets tc.1 htg
      (shiftClasses.filter fun c => fullName c == tc.1) s h
      (fun cls hcls => ⟨hp tc (List.mem_cons_self tc rest) cls hcls, by
        have hb := List.of_mem_filter hcls
        exact (beq_iff_eq.mp hb).symm⟩)
      hclnd
    rw [List.map_cons, List.nodup_cons] at hnd
    have hp2 : ∀ tc2 ∈ rest, ∀ cls ∈ shiftClasses.filter (fun c => fullName c == tc2.1),
        ∀ c ∈ ((shiftClasses.filter fun c => fullName c == tc.1).foldl
          (reassignStep day targets tc.1) s).classes,
        c.id = cls.id → c.teacherFirstName = cls.teacherFirstName ∧
          c.teacherLastName = cls.teacherLastName ∧ c.duration = cls.duration := by
      intro tc2 htc2 cls hcls c hcmem hcid
      rcases hloc1 c hcmem with h4 | h4
      · exact hp tc2 (List.mem_cons_of_mem tc htc2) cls hcls c h4 hcid
      · exfalso
        rw [List.mem_map] at h4
        obtain ⟨cls0, hcls0, hid0⟩ := h4
        have hcls0s : cls0 ∈ shiftClasses := List.mem_of_mem_filter hcls0
        have hclss : cls ∈ shiftClasses := List.mem_of_mem_filter hcls
        have hsame : cls0 = cls := by
          refine List.inj_on_of_nodup_map hndshift hcls0s hclss ?_
          rw [hid0, hcid]
        have hb1 := List.of_mem_filter hcls0
        have hb2 := List.of_mem_filter hcls
        have hn1 : fullName cls0 = tc.1 := beq_iff_eq.mp hb1
        have hn2 : fullName cls = tc2.1 := beq_iff_eq.mp hb2
        have : tc.1 = tc2.1 := by rw [← hn1, hsame, hn2]
        exact hnd.1 (this ▸ List.mem_map_of_mem (fun q => q.1) htc2)
    obtain ⟨hH2, hloc2⟩ := sourcesFold_hinv day targets shiftClasses htg hndshift rest
      _ hH1 hp2 hnd.2
    refine ⟨hH2, ?_⟩
    intro c2 hc2
    rcases hloc2 c2 hc2 with h4 | h4
    · rcases hloc1 c2 h4 with h5 | h5
      · exact Or.inl h5
      · rw [List.mem_map] at h5
        obtain ⟨cls0, hcls0, hid0⟩ := h5
        exact Or.inr (hid0 ▸ List.mem_map_of_mem _ (List.mem_of_mem_filter hcls0))
    · exact Or.inr h4

theorem morning_evening_disjoint (t : String) (hm : isMorningSlot t = true)
    (he : isEveningSlot t = true) : False := by
  rw [isMorningSlot, decide_eq_true_eq] at hm
  rw [isEveningSlot, decide_eq_true_eq] at he
  omega

/-- One Phase 4 shift consolidation preserves the hour-cap invariant and
touches only classes of the shift snapshot. -/
theorem consolidateShift_hinv (day : String) (shiftClasses : List ScheduledClass)
    (s : SchedState) (h : HInv s)
    (hsnap : ∀ cls ∈ shiftClasses, ∀ c ∈ s.classes, c.id = cls.id →
      c.teacherFirstName = cls.teacherFirstName ∧
      c.teacherLastName = cls.teacherLastName ∧ c.duration = cls.duration)
    (hndshift : (shiftClasses.map fun c => c.id).Nodup) :
    HInv (consolidateShift day shiftClasses s) ∧
    (∀ c2 ∈ (consolidateShift day shiftClasses s).classes,
      c2 ∈ s.classes ∨ c2.id ∈ shiftClasses.map fun c => c.id) := by
  simp only [consolidateShift]
  split
  · have hperm : List.Perm
        ((stableSort (fun a b => a.2 < b.2)
          ((jsSetDedup (shiftClasses.map fullName)).map fun teacher =>
            (teacher, (shiftClasses.filter fun cls => fullName cls == teacher).length))).map
          fun tc => tc.1)
        (jsSetDedup (shiftClasses.map fullName)) := by
      refine ((stableSort_perm _ _).map _).trans ?_
      rw [List.map_map]
      have hid : ((fun tc : String × Nat => tc.1) ∘ fun teacher =>
          (teacher, (shiftClasses.filter fun cls => fullName cls == teacher).length)) =
          fun teacher => teacher := rfl
      rw [hid, List.map_id']
    have hmemname : ∀ q : String × Nat,
        q ∈ stableSort (fun a b => a.2 < b.2)
          ((jsSetDedup (shiftClasses.map fullName)).map fun teacher =>
            (teacher, (shiftClasses.filter fun cls => fullName cls == teacher).length)) →
        ' ' ∈ (q.1 : String).data := by
      intro q hq
      rw [mem_stableSort, List.mem_map] at hq
      obtain ⟨teacher, hteach, hqe⟩ := hq
      have hteach2 := mem_jsSetDedup _ _ hteach
      rw [List.mem_map] at hteach2
      obtain ⟨c0, -, hc0⟩ := hteach2
      rw [← hqe]
      show ' ' ∈ teacher.data
      rw [← hc0, fullName]
      exact space_mem_rejoin _ _
    refine sourcesFold_hinv day _ shiftClasses ?_ hndshift _ s h ?_ ?_
    · intro t ht
      exact hmemname t (List.mem_of_mem_drop ht)
    · intro tc htc cls hcls c hcmem hcid
      exact hsnap cls (List.mem_of_mem_filter hcls) c hcmem hcid
    · have hnd2 : ((stableSort (fun a b => a.2 < b.2)
          ((jsSetDedup (shiftClasses.map fullName)).map fun teacher =>
            (teacher, (shiftClasses.filter fun cls => fullName cls == teacher).length))).map
          fun tc => tc.1).Nodup :=
        hperm.nodup_iff.mpr (jsSetDedup_nodup _)
      exact ((List.take_sublist _ _).map _).nodup hnd2
  · exact ⟨h, fun c2 hc2 => Or.inl hc2⟩

/-- Phase 4, one (location, day): hour-cap invariant preserved. -/
theorem phase4LocDay_hinv (s : SchedState) (location day : String)
    (h : HInv s) (hid : IdInv s) : HInv (phase4LocDay s location day) := by
  rw [phase4LocDay]
  have hsnap1 : ∀ cls ∈ (s.classes.filter fun cls =>
      cls.location == location && cls.day == day && isMorningSlot cls.time),
      ∀ c ∈ s.classes, c.id = cls.id → c.teacherFirstName = cls.teacherFirstName ∧
        c.teacherLastName = cls.teacherLastName ∧ c.duration = cls.duration := by
    intro cls hcls c hcmem hcid
    have hce : c = cls := List.inj_on_of_nodup_map hid.1 hcmem
      (List.mem_of_mem_filter hcls) hcid
    rw [hce]
    exact ⟨rfl, rfl, rfl⟩
  have hnd1 : ((s.classes.filter fun cls =>
      cls.location == location && cls.day == day && isMorningSlot cls.time).map
        fun c => c.id).Nodup :=
    ((List.filter_sublist s.classes).map _).nodup hid.1
  obtain ⟨hH1, hloc1⟩ := consolidateShift_hinv day
    (s.classes.filter fun cls =>
      cls.location == location && cls.day == day && isMorningSlot cls.time) s h hsnap1 hnd1
  have hsnap2 : ∀ cls ∈ (s.classes.filter fun cls =>
      cls.location == location && cls.day == day && isEveningSlot cls.time),
      ∀ c ∈ (consolidateShift day (s.classes.filter fun cls =>
        cls.location == location && cls.day == day && isMorningSlot cls.time) s).classes,
      c.id = cls.id → c.teacherFirstName = cls.teacherFirstName ∧
        c.teacherLastName = cls.teacherLastName ∧ c.duration = cls.duration := by
    intro cls hcls c hcmem hcid
    rcases hloc1 c hcmem with h4 | h4
    · have hce : c = cls := List.inj_on_of_nodup_map hid.1 h4
        (List.mem_of_mem_filter hcls) hcid
      rw [hce]
      exact ⟨rfl, rfl, rfl⟩
    · exfalso
      rw [List.mem_map] at h4
      obtain ⟨cm, hcm, hcmid⟩ := h4
      have hsame : cm = cls := List.inj_on_of_nodup_map hid.1
        (List.mem_of_mem_filter hcm) (List.mem_of_mem_filter hcls) (by rw [hcmid, hcid])
      have hpm := List.of_mem_filter hcm
      have hpe := List.of_mem_filter hcls
      rw [Bool.and_eq_true] at hpm hpe
      exact morning_evening_disjoint cls.time (hsame ▸ hpm.2) hpe.2
  obtain ⟨hH2, -⟩ := consolidateShift_hinv day
    (s.classes.filter fun cls =>
      cls.location == location && cls.day == day && isEveningSlot cls.time)
    (consolidateShift day (s.classes.filter fun cls =>
      cls.location == location && cls.day == day && isMorningSlot cls.time) s)
    hH1 hsnap2 (((List.filter_sublist s.classes).map _).nodup hid.1)
  exact hH2

/-- Phase 4 preserves the hour-cap invariant (threaded with the structural
invariants it needs). -/
theorem phase4_hinv (days : List String) (s : SchedState)
    (h : HInv s ∧ CellInv s.classes ∧ IdInv s) :
    HInv (phase4 days s) ∧ CellInv (phase4 days s).classes ∧ IdInv (phase4 days s) := by
  rw [phase4]
  refine foldl_pres (fun s2 => HInv s2 ∧ CellInv s2.classes ∧ IdInv s2) _ ?_
    schedulerLocations s h
  intro s2 location h2
  dsimp only
  refine foldl_pres (fun s3 => HInv s3 ∧ CellInv s3.classes ∧ IdInv s3) _ ?_ days s2 h2
  intro s3 day h3
  have hcell : CellInv (phase4LocDay s3 location day).classes ∧
      IdInv (phase4LocDay s3 location day) := by
    rw [phase4LocDay]
    exact consolidateShift_inv day _ _ (consolidateShift_inv day _ _ ⟨h3.2.1, h3.2.2⟩)
  exact ⟨phase4LocDay_hinv s3 location day h3.1 h3.2.2, hcell⟩

theorem timeMoveStep_nameProj (tgt : String → Bool) (location day : String)
    (l l2 : List ScheduledClass) (h : TimeMoveStep tgt location day l l2) :
    l2.map (fun c => (c.teacherFirstName, c.teacherLastName, c.duration)) =
      l.map fun c => (c.teacherFirstName, c.teacherLastName, c.duration) := by
  obtain ⟨i, newTime, cls, h1, hL, hD, htgt, hcap, hany, h5⟩ := h
  subst h5
  refine map_listModify _ _ ?_ i l
  exact fun x => rfl

theorem reflTrans_nameProj (tgt : String → Bool) (location day : String)
    (l l2 : List ScheduledClass)
    (h : Relation.ReflTransGen (TimeMoveStep tgt location day) l l2) :
    l2.map (fun c => (c.teacherFirstName, c.teacherLastName, c.duration)) =
      l.map fun c => (c.teacherFirstName, c.teacherLastName, c.duration) := by
  induction h with
  | refl => rfl
  | tail hab hbc ih => exact (timeMoveStep_nameProj _ _ _ _ _ hbc).trans ih

/-- Phase 5 preserves the hour-cap invariant. -/
theorem phase5LocDay_hinv (s : SchedState) (location day : String)
    (hnd : (s.classes.map fun c => c.id).Nodup) (h : HInv s) :
    HInv (phase5LocDay s location day) := by
  obtain ⟨heq, hchain⟩ := phase5LocDay_spec s location day hnd
  have hproj := reflTrans_nameProj _ _ _ _ _ hchain
  have hw : (phase5LocDay s location day).weekly = s.weekly := by rw [heq]
  refine ⟨?_, ?_, ?_⟩
  · intro f la
    rw [iws_le_of_map_eq _ s.classes hproj f la, hw]
    exact h.1 f la
  · intro k
    rw [hw]
    exact h.2.1 k
  · intro c hc
    have hmem : (c.teacherFirstName, c.teacherLastName, c.duration) ∈
        (phase5LocDay s location day).classes.map
          fun c => (c.teacherFirstName, c.teacherLastName, c.duration) :=
      List.mem_map_of_mem _ hc
    rw [hproj, List.mem_map] at hmem
    obtain ⟨c0, hc0, he⟩ := hmem
    injection he with he1 he2
    exact he1 ▸ h.2.2 c0 hc0

theorem phase5_hinv (days : List String) (s : SchedState)
    (h : HInv s ∧ CellInv s.classes ∧ IdInv s) :
    HInv (phase5 days s) ∧ CellInv (phase5 days s).classes ∧ IdInv (phase5 days s) := by
  rw [phase5]
  refine foldl_pres (fun s2 => HInv s2 ∧ CellInv s2.classes ∧ IdInv s2) _ ?_
    schedulerLocations s h
  intro s2 location h2
  dsimp only
  refine foldl_pres (fun s3 => HInv s3 ∧ CellInv s3.classes ∧ IdInv s3) _ ?_ days s2 h2
  intro s3 day h3
  exact ⟨phase5LocDay_hinv s3 location day h3.2.2.1 h3.1,
    (phase5LocDay_inv s3 location day ⟨h3.2.1, h3.2.2⟩).1,
    (phase5LocDay_inv s3 location day ⟨h3.2.1, h3.2.2⟩).2⟩

/-- C1 (amended): when every historic teacher name contains a space (so the
split/rejoin name handling is lossless), every instructor's weekly duration
sum in the returned schedule is within the cap: 15 hours (300 twentieths),
or 10 hours (200) for a new-tier trainer. -/
theorem C1_amended_theorem (csvData : List ClassData)
    (customTeachers : List CustomTeacher) (options : ScheduleOptions)
    (H : ∀ item ∈ csvData, ' ' ∈ item.teacherName.data) (f la : String) :
    instructorWeeklySum (generateIntelligentSchedule csvData customTeachers options) f la ≤
      (if isNewTrainerName (f ++ " " ++ la) then 200 else 300) := by
  have hT : ∀ t ∈ allTeachersOf csvData, ' ' ∈ t.data := by
    intro t ht
    rw [allTeachersOf] at ht
    have ht2 := mem_jsSetDedup _ _ (List.mem_of_mem_filter ht)
    rw [List.mem_map] at ht2
    obtain ⟨item, hi, he⟩ := ht2
    exact he ▸ H item hi
  have h0 : HInv initialState ∧ CellInv initialState.classes ∧ IdInv initialState := by
    refine ⟨⟨?_, ?_, ?_⟩, ?_, ?_, ?_⟩
    · intro f la
      exact Nat.le_refl 0
    · intro k
      have hz : alGet initialState.weekly k = 0 := rfl
      rw [hz]
      exact Nat.zero_le _
    · intro c hc
      cases hc
    · intro L D T
      exact ⟨Nat.zero_le _, List.nodup_nil⟩
    · exact List.nodup_nil
    · intro c hc
      cases hc
  have hp0 : HInv (phase0 options initialState) ∧
      CellInv (phase0 options initialState).classes ∧ IdInv (phase0 options initialState) :=
    ⟨phase0_hinv options initialState h0.1, phase0_inv options⟩
  have hp1 : HInv (phase1 csvData (allTeachersOf csvData) (scheduleDays options)
        (phase0 options initialState)) ∧
      CellInv (phase1 csvData (allTeachersOf csvData) (scheduleDays options)
        (phase0 options initialState)).classes ∧
      IdInv (phase1 csvData (allTeachersOf csvData) (scheduleDays options)
        (phase0 options initialState)) :=
    ⟨phase1_hinv csvData (allTeachersOf csvData) (scheduleDays options) _ hT H hp0.1,
     phase1_inv csvData (allTeachersOf csvData) (scheduleDays options) _ ⟨hp0.2.1, hp0.2.2⟩⟩
  have hp2 : HInv (phase2 csvData (allTeachersOf csvData) (scheduleDays options)
        (phase1 csvData (allTeachersOf csvData) (scheduleDays options)
          (phase0 options initialState))) ∧
      CellInv (phase2 csvData (allTeachersOf csvData) (scheduleDays options)
        (phase1 csvData (allTeachersOf csvData) (scheduleDays options)
          (phase0 options initialState))).classes ∧
      IdInv (phase2 csvData (allTeachersOf csvData) (scheduleDays options)
        (phase1 csvData (allTeachersOf csvData) (scheduleDays options)
          (phase0 options initialState))) :=
    ⟨phase2_hinv csvData (allTeachersOf csvData) (scheduleDays options) _ hT hp1.1,
     phase2_inv csvData (allTeachersOf csvData) (scheduleDays options) _ ⟨hp1.2.1, hp1.2.2⟩⟩
  have hp3 : HInv (phase3 csvData (scheduleDays options)
        (phase2 csvData (allTeachersOf csvData) (scheduleDays options)
          (phase1 csvData (allTeachersOf csvData) (scheduleDays options)
            (phase0 options initialState)))) ∧
      CellInv (phase3 csvData (scheduleDays options)
        (phase2 csvData (allTeachersOf csvData) (scheduleDays options)
          (phase1 csvData (allTeachersOf csvData) (scheduleDays options)
            (phase0 options initialState)))).classes ∧
      IdInv (phase3 csvData (scheduleDays options)
        (phase2 csvData (allTeachersOf csvData) (scheduleDays options)
          (phase1 csvData (allTeachersOf csvData) (scheduleDays options)
            (phase0 options initialState)))) :=
    ⟨phase3_hinv csvData (scheduleDays options) _ H hp2.1,
     phase3_inv csvData (scheduleDays options) _ ⟨hp2.2.1, hp2.2.2⟩⟩
  have hp4 := phase4_hinv (scheduleDays options) _ hp3
  have hp5 := phase5_hinv (scheduleDays options) _ hp4
  have hfinal : HInv (generateIntelligentScheduleState csvData customTeachers options) := by
    rw [generateIntelligentScheduleState]
    exact hp5.1
  have hle := hfinal.1 f la
  have hcap := hfinal.2.1 (f ++ " " ++ la)
  rw [maxWeeklyHoursOf] at hcap
  show instructorWeeklySum
    (generateIntelligentScheduleState csvData customTeachers options).classes f la ≤ _
  omega

/-- C1 amended witness: on `c1wcsv` — all-space teacher names, and a run
the real source completes (checked against the error-path model) — the
returned schedule respects the cap for the seed instructor pair. -/
theorem C1_amended_witness :
    (generateIntelligentScheduleE c1wcsv [] {}).isSome = true ∧
    instructorWeeklySum (generateIntelligentSchedule c1wcsv [] {}) "Anisha" "Shah" ≤
      (if isNewTrainerName ("Anisha" ++ " " ++ "Shah") then 200 else 300) := by
  refine ⟨by decide, ?_⟩
  exact C1_amended_theorem c1wcsv [] {} (by decide) "Anisha" "Shah"

/-! ## C10: the unconditional Nishanth/Saniya name filter -/

theorem noSep_pre {α : Type} (sep : α) :
    ∀ (pat xs ys : List α), sep ∉ pat → pat <+: xs ++ sep :: ys → pat <+: xs
  | [], xs, ys, _, _ => List.nil_prefix
  | p :: pat, xs, ys, hsep, h => by
    obtain ⟨t, ht⟩ := h
    cases xs with
    | nil =>
      rw [List.nil_append, List.cons_append] at ht
      injection ht with h1 h2
      exact absurd (h1 ▸ List.mem_cons_self p pat) hsep
    | cons x xs2 =>
      rw [List.cons_append, List.cons_append] at ht
      injection ht with h1 h2
      obtain ⟨u, hu⟩ := noSep_pre sep pat xs2 ys
        (fun hm => hsep (List.mem_cons_of_mem p hm)) ⟨t, h2⟩
      exact ⟨u, by rw [List.cons_append, hu, h1]⟩

theorem noSep_infix {α : Type} (sep : α) :
    ∀ (xs : List α) (pat ys : List α), sep ∉ pat →
      pat <:+: xs ++ sep :: ys → pat <:+: xs ∨ pat <:+: ys
  | [], pat, ys, hsep, h => by
    obtain ⟨s, t, hst⟩ := h
    cases s with
    | nil =>
      rw [List.nil_append, List.nil_append] at hst
      cases pat with
      | nil => exact Or.inr (List.nil_infix)
      | cons p pat2 =>
        rw [List.cons_append] at hst
        injection hst with h1 h2
        exact absurd (h1 ▸ List.mem_cons_self p pat2) hsep
    | cons y s2 =>
      rw [List.nil_append, List.cons_append] at hst
      injection hst with h1 h2
      exact Or.inr ⟨s2, t, h2⟩
  | x :: xs2, pat, ys, hsep, h => by
    obtain ⟨s, t, hst⟩ := h
    cases s with
    | nil =>
      rw [List.nil_append] at hst
      have hpre : pat <+: (x :: xs2) ++ sep :: ys := ⟨t, hst⟩
      exact Or.inl (noSep_pre sep pat (x :: xs2) ys hsep hpre).isInfix
    | cons y s2 =>
      rw [List.cons_append, List.cons_append] at hst
      injection hst with h1 h2
      rcases noSep_infix sep xs2 pat ys hsep ⟨s2, t, h2⟩ with h3 | h3
      · exact Or.inl (List.infix_cons h3)
      · exact Or.inr h3

/-- Rejoining the split of a pattern-free name stays pattern-free, for a
space-free nonempty pattern. -/
theorem rejoin_pat_free (t pat : String) (hsp : ' ' ∉ pat.data) (hne : pat.data ≠ [])
    (h : strIncludes t pat = false) :
    strIncludes (jsFirstName t ++ " " ++ jsLastName t) pat = false := by
  rw [Bool.eq_false_iff]
  intro htrue
  rw [strIncludes_iff] at htrue
  rw [String.data_append, String.data_append, List.append_assoc] at htrue
  have htrue2 : pat.data <:+: (jsFirstName t).data ++ ' ' :: (jsLastName t).data := htrue
  rcases noSep_infix ' ' (jsFirstName t).data pat.data (jsLastName t).data hsp htrue2
    with hcase | hcase
  · cases hg : splitChars ' ' t.data with
    | nil => exact absurd hg (splitChars_ne_nil ' ' t.data)
    | cons g0 rest =>
      have hfst : (jsFirstName t).data = g0 := by
        rw [jsFirstName, hg]
        rfl
      rw [hfst] at hcase
      have hjoin : joinSep ' ' (g0 :: rest) = t.data := by
        rw [← hg]
        exact joinSep_splitChars ' ' t.data
      have hg0 : g0 <:+: t.data := by
        cases rest with
        | nil =>
          have hjj : joinSep ' ' [g0] = g0 := rfl
          rw [hjj] at hjoin
          exact hjoin ▸ List.infix_refl g0
        | cons r rs =>
          have hjj : joinSep ' ' (g0 :: r :: rs) = g0 ++ ' ' :: joinSep ' ' (r :: rs) := rfl
          rw [hjj] at hjoin
          exact ⟨[], ' ' :: joinSep ' ' (r :: rs), by rw [List.nil_append]; exact hjoin⟩
      have : pat.data <:+: t.data := hcase.trans hg0
      rw [Bool.eq_false_iff] at h
      exact h (strIncludes_iff t pat |>.mpr this)
  · cases hg : splitChars ' ' t.data with
    | nil => exact absurd hg (splitChars_ne_nil ' ' t.data)
    | cons g0 rest =>
      have hlst : (jsLastName t).data = joinSep ' ' rest := by
        rw [jsLastName, hg]
        rfl
      rw [hlst] at hcase
      have hjoin : joinSep ' ' (g0 :: rest) = t.data := by
        rw [← hg]
        exact joinSep_splitChars ' ' t.data
      cases rest with
      | nil =>
        have hjj : joinSep ' ' ([] : List (List Char)) = [] := rfl
        rw [hjj] at hcase
        exact hne (List.eq_nil_of_sublist_nil hcase.sublist)
      | cons r rs =>
        have hsuf : joinSep ' ' (r :: rs) <:+: t.data := by
          have hjj : joinSep ' ' (g0 :: r :: rs) = g0 ++ ' ' :: joinSep ' ' (r :: rs) := rfl
          rw [hjj] at hjoin
          exact ⟨g0 ++ [' '], [], by
            rw [List.append_nil, List.append_assoc]
            exact hjoin⟩
        have : pat.data <:+: t.data := hcase.trans hsuf
        rw [Bool.eq_false_iff] at h
        exact h (strIncludes_iff t pat |>.mpr this)

theorem rejoin_clean (t : String) (h : cleanName t) :
    cleanName (jsFirstName t ++ " " ++ jsLastName t) :=
  ⟨rejoin_pat_free t "Nishanth" (by decide) (by decide) h.1,
   rejoin_pat_free t "Saniya" (by decide) (by decide) h.2⟩

theorem assignClass_ninv (s : SchedState) (data : AssignData) (t : String)
    (h : NInv s) (ht : cleanName t) : NInv (assignClass s data t) := by
  intro c hc
  rcases List.mem_append.mp hc with hc | hc
  · exact h c hc
  · rw [List.mem_singleton] at hc
    subst hc
    exact rejoin_clean t ht

theorem mem_listModify {α : Type} (f : α → α) (i : Nat) (l : List α) (c2 : α)
    (h : c2 ∈ listModify f i l) : c2 ∈ l ∨ ∃ c, l.get? i = some c ∧ c2 = f c := by
  cases hg : l.get? i with
  | none =>
    rw [listModify_oob f i l hg] at h
    exact Or.inl h
  | some c =>
    rw [listModify_decomp f i l c hg] at h
    rcases List.mem_append.mp h with h | h
    · exact Or.inl (List.mem_of_mem_take h)
    · rcases List.mem_cons.mp h with h | h
      · exact Or.inr ⟨c, rfl, h⟩
      · exact Or.inl (List.mem_of_mem_drop h)

theorem seed_teacher_clean (t : String)
    (h : t ∈ getDefaultTopClasses.map fun d => d.teacher) : cleanName t := by
  rw [List.mem_map] at h
  obtain ⟨d, hd, he⟩ := h
  subst he
  fin_cases hd <;> exact ⟨by decide, by decide⟩

theorem getBestTeacherForClass_clean (csvData : List ClassData)
    (classFormat location day time t : String)
    (h : getBestTeacherForClass csvData classFormat location day time = some t) :
    cleanName t := by
  rw [getBestTeacherForClass] at h
  cases hfind : getDefaultTopClasses.find? (fun cls =>
      cls.classFormat == classFormat && cls.location == location
        && cls.day == day && cls.time == time) with
  | some defaultClass =>
    simp only [hfind] at h
    injection h with h
    exact seed_teacher_clean t
      (h ▸ List.mem_map_of_mem _ (List.mem_of_find?_eq_some hfind))
  | none =>
    simp only [hfind] at h
    split at h
    · cases h
    · rw [Option.map_eq_some'] at h
      obtain ⟨p, hp, hpt⟩ := h
      have hpm := List.mem_of_mem_head? hp
      rw [mem_stableSort, List.mem_map] at hpm
      obtain ⟨q, hq, hqp⟩ := hpm
      rcases mem_foldl_alUpdate (fun item : ClassData => item.teacherName) _ _ _ [] q hq
        with h2 | h2
      · cases h2
      · rw [List.mem_map] at h2
        obtain ⟨item, hitem, hname⟩ := h2
        have hb := List.of_mem_filter hitem
        simp only [Bool.and_eq_true, Bool.not_eq_true'] at hb
        have hte : t = item.teacherName := by
          rw [← hpt, ← hqp, ← hname]
        rw [hte]
        exact ⟨hb.1.2, hb.2⟩

theorem allTeachersOf_clean (csvData : List ClassData) (t : String)
    (h : t ∈ allTeachersOf csvData) : cleanName t := by
  have hb := List.of_mem_filter h
  simp only [Bool.and_eq_true, Bool.not_eq_true'] at hb
  exact hb

theorem initialState_ninv : NInv initialState := by
  intro c hc
  cases hc

theorem phase0Step_ninv (options : ScheduleOptions) (s : SchedState) (d : DefaultTopClass)
    (hd : cleanName d.teacher) (h : NInv s) : NInv (phase0Step options s d) := by
  rw [phase0Step]
  split
  · exact h
  · split
    · exact assignClass_ninv _ _ _ h hd
    · exact h

theorem phase0_ninv (options : ScheduleOptions) (s : SchedState) (h : NInv s) :
    NInv (phase0 options s) := by
  rw [phase0]
  refine foldl_pres_mem NInv (phase0Step options) getDefaultTopClasses ?_ s h
  intro s2 d hd h2
  refine phase0Step_ninv options s2 d ?_ h2
  fin_cases hd <;> exact ⟨by decide, by decide⟩

theorem phase1SubSlotStep_ninv (csvData : List ClassData) (allTeachers : List String)
    (guidelines : DayGuidelines) (day location time : String) (isPeak : Bool)
    (sc : SchedState × Nat)
    (hT : ∀ t ∈ allTeachers, cleanName t)
    (h : NInv sc.1) :
    NInv (phase1SubSlotStep csvData allTeachers guidelines day location time isPeak sc).1 := by
  have hcand : ∀ t, t ∈ (if isPeak then
        allTeachers.filter fun t => seniorTrainers.any fun st => strIncludes t st
      else allTeachers) → cleanName t := by
    intro t ht
    split at ht
    · exact hT t (List.mem_of_mem_filter ht)
    · exact hT t ht
  cases hb : getBestClassForSlot csvData location day time guidelines with
  | none =>
    simp only [phase1SubSlotStep, hb]
    exact h
  | some b =>
    by_cases hcc : ((sc.1.classes.filter fun cls =>
        cls.location == location && cls.day == day && cls.time == time).map
          fun x => x.classFormat).contains b.classFormat = true
    · simp only [phase1SubSlotStep, hb, hcc, eq_self_iff_true, if_true]
      exact h
    · have hc0 := Bool.eq_false_iff.mpr hcc
      cases hg : getBestTeacherForClass csvData b.classFormat location day time with
      | none =>
        cases hf : (if isPeak then
              allTeachers.filter fun t => seniorTrainers.any fun st => strIncludes t st
            else allTeachers).find? fun teacher =>
              canAssignTeacher sc.1 teacher day time (getClassDuration b.classFormat)
                b.classFormat with
        | none =>
          simp only [phase1SubSlotStep, hb, hc0, hg, hf, Bool.false_eq_true, if_false]
          exact h
        | some t =>
          simp only [phase1SubSlotStep, hb, hc0, hg, hf, Bool.false_eq_true, if_false]
          exact assignClass_ninv _ _ _ h (hcand t (List.mem_of_find?_eq_some hf))
      | some t =>
        by_cases hca : canAssignTeacher sc.1 t day time (getClassDuration b.classFormat)
            b.classFormat = true
        · simp only [phase1SubSlotStep, hb, hc0, hg, hca, Bool.false_eq_true, if_false,
            eq_self_iff_true, if_true]
          exact assignClass_ninv _ _ _ h
            (getBestTeacherForClass_clean csvData b.classFormat location day time t hg)
        · have hca0 : canAssignTeacher sc.1 t day time (getClassDuration b.classFormat)
              b.classFormat = false := Bool.eq_false_iff.mpr hca
          cases hf : (if isPeak then
                allTeachers.filter fun t => seniorTrainers.any fun st => strIncludes t st
              else allTeachers).find? fun teacher =>
                canAssignTeacher sc.1 teacher day time (getClassDuration b.classFormat)
                  b.classFormat with
          | none =>
            simp only [phase1SubSlotStep, hb, hc0, hg, hca0, hf, Bool.false_eq_true, if_false]
            exact h
          | some t2 =>
            simp only [phase1SubSlotStep, hb, hc0, hg, hca0, hf, Bool.false_eq_true, if_false]
            exact assignClass_ninv _ _ _ h (hcand t2 (List.mem_of_find?_eq_some hf))

theorem phase1_ninv (csvData : List ClassData) (allTeachers : List String)
    (days : List String) (s : SchedState)
    (hT : ∀ t ∈ allTeachers, cleanName t)
    (h : NInv s) : NInv (phase1 csvData allTeachers days s) := by
  rw [phase1]
  refine foldl_pres NInv (phase1Day csvData allTeachers) ?_ days s h
  intro s' day h'
  rw [phase1Day]
  refine (foldl_pres (fun sc : SchedState × Nat => NInv sc.1) _ ?_ schedulerLocations
    (s', (s'.classes.filter fun cls => cls.day == day).length) h' : _)
  intro sc location hsc
  dsimp only
  refine foldl_pres (fun sc : SchedState × Nat => NInv sc.1) _ ?_
    (getAvailableTimeSlots day) sc hsc
  intro sc2 time hsc2
  have hstep : ∀ m : Nat,
      NInv (phase1TimeStep csvData allTeachers (getDayGuidelines day) day location m
        sc2 time).1 := by
    intro m
    rw [phase1TimeStep]
    split
    · exact hsc2
    · refine foldl_pres (fun sc : SchedState × Nat => NInv sc.1) _ ?_ _ sc2 hsc2
      intro sc3 x hsc3
      exact phase1SubSlotStep_ninv csvData allTeachers (getDayGuidelines day) day location
        time (isPeakHour time) sc3 hT hsc3
  exact hstep _

theorem phase2TimeStep_ninv (teacher : String) (specialty : TeacherSpecialty)
    (day location : String) (sd : SchedState × Bool) (time : String)
    (hsp : cleanName teacher) (h : NInv sd.1) :
    NInv (phase2TimeStep teacher specialty day location sd time).1 := by
  simp only [phase2TimeStep]
  split
  · exact h
  · split
    · exact h
    · split
      · exact h
      · split
        · exact assignClass_ninv _ _ _ h hsp
        · exact h

theorem phase2_ninv (csvData : List ClassData) (allTeachers : List String)
    (days : List String) (s : SchedState)
    (hT : ∀ t ∈ allTeachers, cleanName t) (h : NInv s) :
    NInv (phase2 csvData allTeachers days s) := by
  rw [phase2]
  refine foldl_pres_mem NInv (phase2TeacherStep csvData days) allTeachers ?_ s h
  intro s' teacher hmem h'
  have hsp := hT teacher hmem
  rw [phase2TeacherStep]
  have hstep : ∀ target : Nat,
      NInv (((alGetD (getTeacherSpecialties csvData) teacher []).take 3).foldl
        (phase2SpecStep days target teacher) s') := by
    intro target
    refine foldl_pres NInv (phase2SpecStep days target teacher) ?_ _ s' h'
    intro s2 specialty h2
    rw [phase2SpecStep]
    split
    · exact h2
    · refine foldl_pres NInv (phase2LocStep days teacher specialty) ?_ schedulerLocations
        s2 h2
      intro s3 location h3
      rw [phase2LocStep]
      split
      · exact h3
      · refine foldl_pres NInv (phase2DayStep teacher specialty location) ?_ days s3 h3
        intro s4 day h4
        rw [phase2DayStep]
        split
        · exact h4
        · exact (foldl_pres (fun sd : SchedState × Bool => NInv sd.1)
            (phase2TimeStep teacher specialty day location)
            (fun sd time hsd => phase2TimeStep_ninv teacher specialty day location sd time
              hsp hsd)
            (getAvailableTimeSlots day) (s4, false) h4 : _)
  split <;> split
  · exact hstep 200
  · exact h'
  · exact hstep 300
  · exact h'

theorem phase3TimeStep_ninv (csvData : List ClassData) (format location day : String)
    (sd : SchedState × Bool) (time : String)
    (h : NInv sd.1) :
    NInv (phase3TimeStep csvData format location day sd time).1 := by
  simp only [phase3TimeStep]
  split
  · exact h
  · split
    · exact h
    · split
      · exact h
      · split
        · exact h
        · split
          · rename_i hsd2 hcap hdup bt heq hca
            exact assignClass_ninv _ _ _ h
              (getBestTeacherForClass_clean csvData format location day time bt heq)
          · exact h

theorem phase3_ninv (csvData : List ClassData) (days : List String) (s : SchedState)
    (h : NInv s) : NInv (phase3 csvData days s) := by
  have hstep : ∀ (s' : SchedState) (format : String), NInv s' →
      NInv (phase3FormatStep csvData days s' format) := by
    intro s' format h'
    simp only [phase3FormatStep]
    split
    · refine foldl_pres NInv
        (fun s2 location =>
          if !isClassAllowedAtLocation format location then s2
          else days.foldl (phase3DayStep csvData format location) s2) ?_ schedulerLocations
        s' h'
      intro s2 location h2
      dsimp only
      split
      · exact h2
      · refine foldl_pres NInv (phase3DayStep csvData format location) ?_ days s2 h2
        intro s3 day h3
        rw [phase3DayStep]
        exact (foldl_pres (fun sd : SchedState × Bool => NInv sd.1)
          (phase3TimeStep csvData format location day)
          (fun sd time hsd => phase3TimeStep_ninv csvData format location day sd time hsd)
          (getAvailableTimeSlots day) (s3, false) h3 : _)
    · exact h'
  rw [phase3]
  have hres := foldl_pres NInv (phase3FormatStep csvData days)
    (fun s' x h' => hstep s' x h') requiredFormats s h
  exact hres

theorem reassignStep_ninv (day : String) (targets : List (String × Nat)) (teacher : String)
    (s : SchedState) (cls : ScheduledClass)
    (htargets : ∀ t ∈ targets, cleanName t.1) (h : NInv s) :
    NInv (reassignStep day targets teacher s cls) := by
  rw [reassignStep]
  cases hfind : targets.find? (fun t =>
      canAssignTeacher s t.1 day cls.time cls.duration cls.classFormat) with
  | none => exact h
  | some tt =>
    have httc : cleanName tt.1 := htargets tt (List.mem_of_find?_eq_some hfind)
    cases hidx : s.classes.findIdx? (fun c => c.id == cls.id) with
    | none => exact h
    | some classIndex =>
      intro c2 hc2
      rcases mem_listModify _ classIndex s.classes c2 hc2 with hm | ⟨c, hc, he⟩
      · exact h c2 hm
      · subst he
        exact rejoin_clean tt.1 httc

theorem consolidateShift_ninv (day : String) (shiftClasses : List ScheduledClass)
    (s : SchedState) (hclean : ∀ c ∈ shiftClasses, cleanName (fullName c))
    (h : NInv s) : NInv (consolidateShift day shiftClasses s) := by
  simp only [consolidateShift]
  split
  · have htargets : ∀ q : String × Nat,
        q ∈ stableSort (fun a b => a.2 < b.2)
          ((jsSetDedup (shiftClasses.map fullName)).map fun teacher =>
            (teacher, (shiftClasses.filter fun cls => fullName cls == teacher).length)) →
        cleanName q.1 := by
      intro q hq
      rw [mem_stableSort, List.mem_map] at hq
      obtain ⟨teacher, hteach, hqe⟩ := hq
      have hteach2 := mem_jsSetDedup _ _ hteach
      rw [List.mem_map] at hteach2
      obtain ⟨c0, hc0mem, hc0⟩ := hteach2
      rw [← hqe]
      show cleanName teacher
      rw [← hc0]
      exact hclean c0 hc0mem
    refine foldl_pres NInv _ ?_ _ s h
    intro s' tc h'
    dsimp only
    refine foldl_pres NInv (reassignStep day _ tc.1) ?_ _ s' h'
    intro s2 cls2 h2
    refine reassignStep_ninv day _ tc.1 s2 cls2 ?_ h2
    intro t ht
    exact htargets t (List.mem_of_mem_drop ht)
  · exact h

theorem phase4LocDay_ninv (s : SchedState) (location day : String)
    (h : NInv s) : NInv (phase4LocDay s location day) := by
  rw [phase4LocDay]
  refine consolidateShift_ninv day _ _ ?_ ?_
  · intro c hc
    exact h c (List.mem_of_mem_filter hc)
  · refine consolidateShift_ninv day _ _ ?_ h
    intro c hc
    exact h c (List.mem_of_mem_filter hc)

theorem phase4_ninv (days : List String) (s : SchedState) (h : NInv s) :
    NInv (phase4 days s) := by
  rw [phase4]
  refine foldl_pres NInv _ ?_ schedulerLocations s h
  intro s' location h'
  dsimp only
  refine foldl_pres NInv _ ?_ days s' h'
  intro s2 day h2
  exact phase4LocDay_ninv s2 location day h2

theorem phase5MoveStep_ninv (location day : String) (cls : ScheduledClass)
    (sm : SchedState × Bool) (newTime : String) (h : NInv sm.1) :
    NInv (phase5MoveStep location day cls sm newTime).1 := by
  simp only [phase5MoveStep]
  split
  · exact h
  · split
    · split
      · exact h
      · rename_i classIndex hfind
        intro c2 hc2
        rcases mem_listModify _ classIndex sm.1.classes c2 hc2 with hm | ⟨c, hc, he⟩
        · exact h c2 hm
        · subst he
          have hfe : fullName { c with time := newTime } = fullName c := rfl
          rw [hfe]
          exact h c (List.get?_mem hc)
    · exact h

theorem phase5LocDay_ninv (s : SchedState) (location day : String)
    (h : NInv s) : NInv (phase5LocDay s location day) := by
  simp only [phase5LocDay]
  split
  · refine foldl_pres NInv _ ?_ _ s h
    intro s' cls h'
    dsimp only
    refine (foldl_pres (fun sm : SchedState × Bool => NInv sm.1)
      (phase5MoveStep location day cls)
      (fun sm newTime hsm => phase5MoveStep_ninv location day cls sm newTime hsm)
      _ (s', false) h' : _)
  · exact h

theorem phase5_ninv (days : List String) (s : SchedState) (h : NInv s) :
    NInv (phase5 days s) := by
  rw [phase5]
  refine foldl_pres NInv _ ?_ schedulerLocations s h
  intro s' location h'
  dsimp only
  refine foldl_pres NInv _ ?_ days s' h'
  intro s2 day h2
  exact phase5LocDay_ninv s2 location day h2

theorem generateIntelligentScheduleState_ninv (csvData : List ClassData)
    (customTeachers : List CustomTeacher) (options : ScheduleOptions) :
    NInv (generateIntelligentScheduleState csvData customTeachers options) := by
  rw [generateIntelligentScheduleState]
  exact phase5_ninv _ _ (phase4_ninv _ _ (phase3_ninv _ _ _
    (phase2_ninv csvData _ _ _ (fun t ht => allTeachersOf_clean csvData t ht)
      (phase1_ninv csvData _ _ _ (fun t ht => allTeachersOf_clean csvData t ht)
        (phase0_ninv options initialState initialState_ninv)))))

/-- C10: no class of a generated schedule carries a teacher whose rejoined
full name contains "Nishanth" or "Saniya"; `getBestTeacherForClass` never
returns such a name; `getUniqueTeachers` filters the historic names likewise,
but lets custom-teacher names through unfiltered. -/
theorem C10_amended_theorem (csvData : List ClassData)
    (customTeachers : List CustomTeacher) (options : ScheduleOptions) :
    (∀ c ∈ generateIntelligentSchedule csvData customTeachers options,
      strIncludes (fullName c) "Nishanth" = false ∧
      strIncludes (fullName c) "Saniya" = false) ∧
    (∀ classFormat location day time t : String,
      getBestTeacherForClass csvData classFormat location day time = some t →
        strIncludes t "Nishanth" = false ∧ strIncludes t "Saniya" = false) ∧
    (∀ t ∈ getUniqueTeachers csvData customTeachers,
      (strIncludes t "Nishanth" = false ∧ strIncludes t "Saniya" = false) ∨
        t ∈ customTeachers.map fun ct => ct.firstName ++ " " ++ ct.lastName) := by
  refine ⟨?_, ?_, ?_⟩
  · intro c hc
    exact generateIntelligentScheduleState_ninv csvData customTeachers options c hc
  · intro classFormat location day time t ht
    exact getBestTeacherForClass_clean csvData classFormat location day time t ht
  · intro t ht
    simp only [getUniqueTeachers] at ht
    rw [mem_stableSort] at ht
    have ht2 := mem_jsSetDedup _ _ ht
    rcases List.mem_append.mp ht2 with h3 | h3
    · have hb := List.of_mem_filter h3
      simp only [Bool.and_eq_true, Bool.not_eq_true'] at hb
      exact Or.inl hb
    · exact Or.inr h3

theorem C10_amended_witness :
    ("Nishanth R" ∈ ([⟨"Nishanth", "R"⟩] : List CustomTeacher).map
      fun ct => ct.firstName ++ " " ++ ct.lastName) ∧
    strIncludes (fullName ⟨0, "Monday", "07:30", "Kwality House, Kemps Corner", "Mat 57",
      "Anisha", "Shah", 20, Rat.divInt 10 1, Rat.divInt 0 1, false, false⟩)
      "Nishanth" = false := by
  have h := C10_amended_theorem [] [⟨"Nishanth", "R"⟩] {}
  refine ⟨?_, by decide⟩
  rcases h.2.2 "Nishanth R" (by decide) with h2 | h2
  · exact absurd h2.1 (by decide)
  · exact h2
